import Mathlib

/-!
# CHIP-8 emulator: a shallow embedding of `src/main.c`

The C program keeps the whole machine in one `chip8_t` record and advances it
with `emulate_instruction`.  The embedding below follows the source line by
line:

* `uint8_t` / `uint16_t` / `uint32_t` values are natural numbers; every store
  that can leave the range of its C type is followed by an explicit
  `% 256`, `% 65536` or `% 4294967296`;
* C arrays (`ram`, `display`, `stack`, `V`, `keypad`) are total maps from the
  index to the element.  Indices outside the bounds of the C array are not
  objects of the C program; the statements below say which indices they speak
  about;
* `stack_ptr` is the offset (in elements) of the pointer from `&stack[0]`;
* the two function-local `static` variables of the key-wait case
  (`any_key_pressed`, `key`) live as long as the process, so they are carried
  as two extra fields of the record;
* `rand()` is an input of the cycle;
* `defined_cycle` collects what a cycle needs for all its array accesses to
  stay inside the arrays; the statements about whole runs of `main` ask it of
  every cycle, and `ram_store` follows the one store outside `ram` that the
  development needs through the layout of the record.
-/

namespace Chip8

/-- Store into a C array: the array `f` with element `i` replaced by `v`. -/
def upd {ι α : Type} [DecidableEq ι] (f : ι → α) (i : ι) (v : α) : ι → α :=
  fun j => if j = i then v else f j

/-- Subtraction of two values stored back into a `uint8_t`. -/
def sub_u8 (a b : Nat) : Nat := (((a : Int) - (b : Int)) % 256).toNat

/-- Subtraction of two values stored back into a `uint16_t`. -/
def sub_u16 (a b : Nat) : Nat := (((a : Int) - (b : Int)) % 65536).toNat

/-- The record `config_t`. -/
structure config_t where
  window_width : Nat
  window_height : Nat
  fg_color : Nat
  bg_color : Nat
  scale_factor : Nat
  insts_per_second : Nat
  square_wave_freq : Nat
  audio_sample_rate : Nat
  volume : Int

/-- The record `instruction_t`. -/
structure instruction_t where
  opcode : Nat
  NNN : Nat
  NN : Nat
  N : Nat
  X : Nat
  Y : Nat

/-- The enumeration `emulator_state_t`. -/
inductive emulator_state_t where
  | QUIT
  | RUNNING
  | PAUSED
  deriving DecidableEq, Repr

/-- The record `chip8_t` (without `rom_name`, a host string), followed by the
two `static` variables of the `0x0A` case of `emulate_instruction`. -/
structure chip8_t where
  state : emulator_state_t
  ram : Nat → Nat
  display : Nat → Bool
  pixel_color : Nat → Nat
  stack : Int → Nat
  stack_ptr : Int
  V : Nat → Nat
  PC : Nat
  I : Nat
  delay_timer : Nat
  sound_timer : Nat
  keypad : Nat → Bool
  inst : instruction_t
  draw : Bool
  any_key_pressed : Bool
  key : Nat

/-- The values `set_config_from_args` stores into the configuration. -/
def set_config_from_args : config_t :=
  { window_width := 64
    window_height := 32
    fg_color := 0xFFFFFFFF
    bg_color := 0x000000FF
    scale_factor := 20
    insts_per_second := 600
    square_wave_freq := 440
    audio_sample_rate := 44100
    volume := 3000 }

/-- The constant array `font` of `init_chip8`. -/
def font : List Nat :=
  [ 0xF0, 0x90, 0x90, 0x90, 0xF0,
    0x20, 0x60, 0x20, 0x20, 0x70,
    0xF0, 0x10, 0xF0, 0x80, 0xF0,
    0xF0, 0x10, 0xF0, 0x10, 0xF0,
    0x90, 0x90, 0xF0, 0x10, 0x10,
    0xF0, 0x80, 0xF0, 0x10, 0xF0,
    0xF0, 0x80, 0xF0, 0x90, 0xF0,
    0xF0, 0x10, 0x20, 0x40, 0x40,
    0xF0, 0x90, 0xF0, 0x90, 0xF0,
    0xF0, 0x90, 0xF0, 0x10, 0xF0,
    0xF0, 0x90, 0xF0, 0x90, 0x90,
    0xE0, 0x90, 0xE0, 0x90, 0xE0,
    0xF0, 0x80, 0x80, 0x80, 0xF0,
    0xE0, 0x90, 0x90, 0x90, 0xE0,
    0xF0, 0x80, 0xF0, 0x80, 0xF0,
    0xF0, 0x80, 0xF0, 0x80, 0x80 ]

/-- The record after `memset(chip8, 0, sizeof(chip8_t))`; the two statics hold
their program-start values. -/
def zeroed : chip8_t :=
  { state := emulator_state_t.QUIT
    ram := fun _ => 0
    display := fun _ => false
    pixel_color := fun _ => 0
    stack := fun _ => 0
    stack_ptr := 0
    V := fun _ => 0
    PC := 0
    I := 0
    delay_timer := 0
    sound_timer := 0
    keypad := fun _ => false
    inst := { opcode := 0, NNN := 0, NN := 0, N := 0, X := 0, Y := 0 }
    draw := false
    any_key_pressed := false
    key := 0xFF }

/-- The function `init_chip8`.  The ROM file is `none` when `fopen` fails and
`some bytes` otherwise; `fread` of one item of `rom_size` bytes returns 1
exactly when `rom_size` is not zero.  The result is the returned flag and the
record left behind. -/
def init_chip8 (config : config_t) (rom : Option (List Nat)) : Bool × chip8_t :=
  let entry_point := 0x200
  let c0 : chip8_t := zeroed
  let c1 : chip8_t :=
    { c0 with ram := fun a => if a < font.length then font.getD a 0 else c0.ram a }
  match rom with
  | none => (false, c1)
  | some bytes =>
    let rom_size := bytes.length
    let max_size := 4096 - entry_point
    if rom_size > max_size then (false, c1)
    else if rom_size = 0 then (false, c1)
    else
      let c2 : chip8_t :=
        { c1 with ram := fun a =>
            if entry_point ≤ a ∧ a < entry_point + rom_size
            then bytes.getD (a - entry_point) 0 else c1.ram a }
      (true,
        { c2 with
          state := emulator_state_t.RUNNING
          PC := entry_point
          stack_ptr := 0
          pixel_color := fun i =>
            if i < 64 * 32 then (config.bg_color % 256) * 0x01010101 else c2.pixel_color i })

/-- Lines 349-357 of `emulate_instruction`: fetch the opcode at `PC`, advance
`PC` by two and fill the fields of `chip8->inst`. -/
def fetch_decode (chip8 : chip8_t) : chip8_t :=
  let opcode := ((chip8.ram chip8.PC <<< 8) ||| chip8.ram (chip8.PC + 1)) % 65536
  { chip8 with
    PC := (chip8.PC + 2) % 65536
    inst :=
      { opcode := opcode
        NNN := opcode &&& 0x0FFF
        NN := opcode &&& 0x0FF
        N := opcode &&& 0x0F
        X := (opcode >>> 8) &&& 0x0F
        Y := (opcode >>> 4) &&& 0x0F } }

/-- The inner loop of the draw case, `for (int8_t j = 7; j >= 0; j--)`; the
first argument is `j + 1`. -/
def draw_cols (config : config_t) (sprite_data Y_coord : Nat) :
    Nat → Nat → chip8_t → chip8_t
  | 0, _, c => c
  | j + 1, X_coord, c =>
    let idx := (Y_coord * config.window_width + X_coord) % 4294967296
    let pixel := c.display idx
    let sprite_bit := decide (sprite_data &&& (1 <<< j) ≠ 0)
    let c1 : chip8_t := if sprite_bit && pixel then { c with V := upd c.V 0xF 1 } else c
    let c2 : chip8_t := { c1 with display := upd c1.display idx (xor pixel sprite_bit) }
    let X_next := (X_coord + 1) % 256
    if X_next ≥ config.window_width then c2
    else draw_cols config sprite_data Y_coord j X_next c2

/-- The outer loop of the draw case, `for (uint8_t i = 0; i < N; i++)`; the
first argument is the number `N - i` of iterations still allowed by the loop
condition. -/
def draw_rows (config : config_t) (orig_X : Nat) :
    Nat → Nat → Nat → chip8_t → chip8_t
  | 0, _, _, c => c
  | n + 1, i, Y_coord, c =>
    let sprite_data := c.ram (c.I + i)
    let c1 := draw_cols config sprite_data Y_coord 8 orig_X c
    let Y_next := (Y_coord + 1) % 256
    if Y_next ≥ config.window_height then c1
    else draw_rows config orig_X n (i + 1) Y_next c1

/-- The loop of the key-wait case,
`for (uint8_t i = 0; key == 0xFF && i < sizeof chip8->keypad; i++)`; the first
argument bounds the number of iterations (16 suffices). -/
def key_scan : Nat → Nat → chip8_t → chip8_t
  | 0, _, c => c
  | fuel + 1, i, c =>
    if c.key = 0xFF ∧ i < 16 then
      if c.keypad i then { c with key := i, any_key_pressed := true }
      else key_scan fuel (i + 1) c
    else c

/-- The loop of case `0x55`, `ram[I++] = V[i]`; the first argument is the
number of iterations left. -/
def store_loop : Nat → Nat → chip8_t → chip8_t
  | 0, _, c => c
  | n + 1, i, c =>
    store_loop n (i + 1) { c with ram := upd c.ram c.I (c.V i), I := (c.I + 1) % 65536 }

/-- The loop of case `0x65`, `V[i] = ram[I++]`; the first argument is the
number of iterations left. -/
def load_loop : Nat → Nat → chip8_t → chip8_t
  | 0, _, c => c
  | n + 1, i, c =>
    load_loop n (i + 1) { c with V := upd c.V i (c.ram c.I), I := (c.I + 1) % 65536 }

/-- Lines 359-610 of `emulate_instruction`: the `switch` over the top four
bits of the opcode, run on the record whose `inst` has been filled.  A `break`
out of the `switch` returns the record as it stands.  The shifts of `8XY6` and
`8XYE` act on the value promoted to `int`; a shift count of 32 or more (and a
left shift that overflows `int`) has no defined result in C, here the shift is
the one of the natural numbers, truncated to a byte by the store. -/
def execute (c : chip8_t) (config : config_t) (rand : Nat) : chip8_t :=
  let inst := (c.inst.opcode >>> 12) &&& 0x0F
  if inst = 0x00 then
    if c.inst.NN = 0xE0 then
      { c with
        display := fun i => if i < 64 * 32 then false else c.display i
        draw := true }
    else if c.inst.NN = 0xEE then
      { c with stack_ptr := c.stack_ptr - 1, PC := c.stack (c.stack_ptr - 1) }
    else c
  else if inst = 0x01 then
    { c with PC := c.inst.NNN }
  else if inst = 0x02 then
    { c with
      stack := upd c.stack c.stack_ptr c.PC
      stack_ptr := c.stack_ptr + 1
      PC := c.inst.NNN }
  else if inst = 0x03 then
    if c.V c.inst.X = c.inst.NN then { c with PC := (c.PC + 2) % 65536 } else c
  else if inst = 0x04 then
    if c.V c.inst.X ≠ c.inst.NN then { c with PC := (c.PC + 2) % 65536 } else c
  else if inst = 0x05 then
    if c.inst.N ≠ 0 then c
    else if c.V c.inst.X = c.V c.inst.Y then { c with PC := (c.PC + 2) % 65536 } else c
  else if inst = 0x06 then
    { c with V := upd c.V c.inst.X c.inst.NN }
  else if inst = 0x07 then
    { c with V := upd c.V c.inst.X ((c.V c.inst.X + c.inst.NN) % 256) }
  else if inst = 0x08 then
    if c.inst.N = 0x00 then
      { c with V := upd c.V c.inst.X (c.V c.inst.Y) }
    else if c.inst.N = 0x01 then
      { c with V := upd c.V c.inst.X ((c.V c.inst.X ||| c.V c.inst.Y) % 256) }
    else if c.inst.N = 0x02 then
      { c with V := upd c.V c.inst.X ((c.V c.inst.X &&& c.V c.inst.Y) % 256) }
    else if c.inst.N = 0x03 then
      { c with V := upd c.V c.inst.X ((c.V c.inst.X ^^^ c.V c.inst.Y) % 256) }
    else if c.inst.N = 0x04 then
      let carry := decide ((c.V c.inst.X + c.V c.inst.Y) % 65536 > 255)
      let V1 := upd c.V c.inst.X ((c.V c.inst.X + c.V c.inst.Y) % 256)
      { c with V := upd V1 0xF carry.toNat }
    else if c.inst.N = 0x05 then
      let carry := decide (c.V c.inst.X ≥ c.V c.inst.Y)
      let V1 := upd c.V c.inst.X (sub_u8 (c.V c.inst.X) (c.V c.inst.Y))
      { c with V := upd V1 0xF carry.toNat }
    else if c.inst.N = 0x06 then
      let carry := decide (c.V c.inst.Y &&& 1 ≠ 0)
      let V1 := upd c.V c.inst.X ((c.V c.inst.X >>> c.V c.inst.Y) % 256)
      { c with V := upd V1 0xF carry.toNat }
    else if c.inst.N = 0x07 then
      let carry := decide (c.V c.inst.X ≤ c.V c.inst.Y)
      let V1 := upd c.V c.inst.X (sub_u8 (c.V c.inst.Y) (c.V c.inst.X))
      { c with V := upd V1 0xF carry.toNat }
    else if c.inst.N = 0x0E then
      let carry := decide ((c.V c.inst.Y &&& 0x80) >>> 7 ≠ 0)
      let V1 := upd c.V c.inst.X ((c.V c.inst.X <<< c.V c.inst.Y) % 256)
      { c with V := upd V1 0xF carry.toNat }
    else c
  else if inst = 0x09 then
    if c.inst.N ≠ 0 then c
    else if c.V c.inst.X ≠ c.V c.inst.Y then { c with PC := (c.PC + 2) % 65536 } else c
  else if inst = 0x0A then
    { c with I := c.inst.NNN }
  else if inst = 0x0B then
    { c with PC := (c.V 0 + c.inst.NNN) % 65536 }
  else if inst = 0x0C then
    { c with V := upd c.V c.inst.X ((rand % 256) &&& c.inst.NN) }
  else if inst = 0x0D then
    let X_coord := (c.V c.inst.X % config.window_width) % 256
    let Y_coord := (c.V c.inst.Y % config.window_height) % 256
    let orig_X := X_coord
    let c1 : chip8_t := { c with V := upd c.V 0xF 0 }
    let c2 := draw_rows config orig_X c1.inst.N 0 Y_coord c1
    { c2 with draw := true }
  else if inst = 0x0E then
    if c.inst.NN = 0x9E then
      if c.keypad (c.V c.inst.X) then { c with PC := (c.PC + 2) % 65536 } else c
    else if c.inst.NN = 0xA1 then
      if !c.keypad (c.V c.inst.X) then { c with PC := (c.PC + 2) % 65536 } else c
    else c
  else if inst = 0x0F then
    if c.inst.NN = 0x07 then
      { c with V := upd c.V c.inst.X c.delay_timer }
    else if c.inst.NN = 0x0A then
      let c1 := key_scan 16 0 c
      if !c1.any_key_pressed then { c1 with PC := sub_u16 c1.PC 2 }
      else if c1.keypad c1.key then { c1 with PC := sub_u16 c1.PC 2 }
      else { c1 with V := upd c1.V c1.inst.X c1.key, key := 0xFF, any_key_pressed := false }
    else if c.inst.NN = 0x15 then
      { c with delay_timer := c.V c.inst.X }
    else if c.inst.NN = 0x18 then
      { c with sound_timer := c.V c.inst.X }
    else if c.inst.NN = 0x1E then
      { c with I := (c.I + c.V c.inst.X) % 65536 }
    else if c.inst.NN = 0x29 then
      { c with I := (c.V c.inst.X * 5) % 65536 }
    else if c.inst.NN = 0x33 then
      let bcd := c.V c.inst.X
      let ram1 := upd c.ram (c.I + 2) (bcd % 10)
      let bcd1 := bcd / 10
      let ram2 := upd ram1 (c.I + 1) (bcd1 % 10)
      let bcd2 := bcd1 / 10
      { c with ram := upd ram2 c.I bcd2 }
    else if c.inst.NN = 0x55 then
      store_loop (c.inst.X + 1) 0 c
    else if c.inst.NN = 0x65 then
      load_loop (c.inst.X + 1) 0 c
    else c
  else c

/-- The function `emulate_instruction`: one cycle of the machine.  The
argument `rand` is the value `rand()` returns if the cycle calls it. -/
def emulate_instruction (chip8 : chip8_t) (config : config_t) (rand : Nat) : chip8_t :=
  execute (fetch_decode chip8) config rand

/-! ## The draw instruction: loop body and reference definition -/

/-- The body of the inner draw loop (lines 504-511) for bit `j` at column
`X_coord`: the state `c2` of `draw_cols`. -/
def xor_pixel (config : config_t) (sprite_data Y_coord j X_coord : Nat) (c : chip8_t) :
    chip8_t :=
  let idx := (Y_coord * config.window_width + X_coord) % 4294967296
  let pixel := c.display idx
  let sprite_bit := decide (sprite_data &&& (1 <<< j) ≠ 0)
  let c1 : chip8_t := if sprite_bit && pixel then { c with V := upd c.V 0xF 1 } else c
  { c1 with display := upd c1.display idx (xor pixel sprite_bit) }

/-- The rectangle a sprite of `N` rows covers when it starts at `(x0, y0)` on
the 64x32 display: 8 columns and `N` rows, clipped at the right and bottom
edges. -/
def in_sprite (x0 y0 N x y : Nat) : Prop :=
  x0 ≤ x ∧ x < min (x0 + 8) 64 ∧ y0 ≤ y ∧ y < min (y0 + N) 32

/-- The sprite bit that belongs to cell `(x, y)` of a sprite starting at
`(x0, y0)`: bit `7 - (x - x0)` of `ram[I + (y - y0)]`. -/
def sprite_bit (s : chip8_t) (x0 y0 x y : Nat) : Bool :=
  (s.ram (s.I + (y - y0))).testBit (7 - (x - x0))

/-- Reference definition of the sprite draw `DXYN` on the 64x32 display, as
the specification words it: the cell `(x, y)` after the draw. -/
def draw_reference (s : chip8_t) (X Y N x y : Nat) : Bool :=
  if s.V X % 64 ≤ x ∧ x < min (s.V X % 64 + 8) 64 ∧
      s.V Y % 32 ≤ y ∧ y < min (s.V Y % 32 + N) 32 then
    xor (s.display (64 * y + x)) (sprite_bit s (s.V X % 64) (s.V Y % 32) x y)
  else s.display (64 * y + x)

/-- Reference definition of the collision of the sprite draw `DXYN`: some
cell of the sprite rectangle was set before the draw and has sprite bit 1. -/
def draw_collision (s : chip8_t) (X Y N : Nat) : Prop :=
  ∃ x y, in_sprite (s.V X % 64) (s.V Y % 32) N x y ∧
    s.display (64 * y + x) = true ∧ sprite_bit s (s.V X % 64) (s.V Y % 32) x y = true

/-- Some cell of row `y`, columns `x .. x + n - 1`, is set in `disp` and has
its sprite bit set in the row byte `d`. -/
def row_hit (d y x n : Nat) (disp : Nat → Bool) : Prop :=
  ∃ p, p / 64 = y ∧ x ≤ p % 64 ∧ p % 64 < x + n ∧ disp p = true ∧
    d.testBit (x + n - 1 - p % 64) = true

/-- Some cell of rows `y .. y + n - 1` (clipped at row 32), columns
`x0 .. x0 + 7`, is set in `disp` and has its sprite bit set, the byte of row
`y` being `ram[I + i]`. -/
def rect_hit (ram : Nat → Nat) (I x0 y n i : Nat) (disp : Nat → Bool) : Prop :=
  ∃ p, y ≤ p / 64 ∧ p / 64 < y + n ∧ p / 64 < 32 ∧ x0 ≤ p % 64 ∧ p % 64 < x0 + 8 ∧
    disp p = true ∧ (ram (I + (i + (p / 64 - y)))).testBit (x0 + 8 - 1 - p % 64) = true

/-! ## States used as concrete inputs -/

/-- A machine whose memory holds the image of a one-instruction ROM
(`hi`, `lo` at `0x200`), with `PC` at the entry point and registers `V`. -/
def prog (hi lo : Nat) (V : Nat → Nat) : chip8_t :=
  { zeroed with
    state := emulator_state_t.RUNNING
    ram := upd (upd zeroed.ram 0x200 hi) 0x201 lo
    PC := 0x200
    V := V }

/-- Registers that are zero except `V[i] = a` and `V[j] = b`. -/
def regs2 (i a j b : Nat) : Nat → Nat := upd (upd zeroed.V i a) j b

/-- The instruction `8124` with `V[1] = V[2] = 255`. -/
def ex_8124 : chip8_t := prog 0x81 0x24 (regs2 1 255 2 255)

/-- The instruction `8125` with `V[1] = 0`, `V[2] = 255`. -/
def ex_8125 : chip8_t := prog 0x81 0x25 (regs2 1 0 2 255)

/-- The instruction `8127` with `V[1] = 255`, `V[2] = 0`. -/
def ex_8127 : chip8_t := prog 0x81 0x27 (regs2 1 255 2 0)

/-- The instruction `8016` with `V[0] = 1`, `V[1] = 0`. -/
def ex_8016 : chip8_t := prog 0x80 0x16 (regs2 0 1 1 0)

/-- The instruction `801E` with `V[0] = 0x80`, `V[1] = 0`. -/
def ex_801E : chip8_t := prog 0x80 0x1E (regs2 0 0x80 1 0)

/-- The instruction `8126` with `V[1] = 6`, `V[2] = 1`. -/
def ex_8126 : chip8_t := prog 0x81 0x26 (regs2 1 6 2 1)

/-- The instruction `812E` with `V[1] = 3`, `V[2] = 0x81`. -/
def ex_812E : chip8_t := prog 0x81 0x2E (regs2 1 3 2 0x81)

/-- The instruction `F30A` with no key down and no key pending. -/
def ex_F30A : chip8_t := prog 0xF3 0x0A zeroed.V

/-- The instruction `F30A` with key 5 down and no key pending. -/
def ex_F30A_key5 : chip8_t :=
  { prog 0xF3 0x0A zeroed.V with keypad := upd zeroed.keypad 5 true }

/-- The two instructions `F155`, `F165` at `0x200`, with `I = 0x300`,
`V[0] = 7`, `V[1] = 9`. -/
def ex_F155_F165 : chip8_t :=
  { zeroed with
    state := emulator_state_t.RUNNING
    ram := upd (upd (upd (upd zeroed.ram 0x200 0xF1) 0x201 0x55) 0x202 0xF1) 0x203 0x65
    PC := 0x200
    I := 0x300
    V := regs2 0 7 1 9 }

/-- The instruction `F165` with `I = 0` (the first font bytes are loaded). -/
def ex_F165 : chip8_t :=
  { prog 0xF1 0x65 zeroed.V with ram := upd (upd (upd zeroed.ram 0 0xF0) 0x200 0xF1) 0x201 0x65 }

/-- The call `2300` at `0x200` and the return `00EE` at `0x300`, with two
entries already on the stack. -/
def ex_call_ret : chip8_t :=
  { zeroed with
    state := emulator_state_t.RUNNING
    ram := upd (upd (upd (upd zeroed.ram 0x200 0x23) 0x201 0x00) 0x300 0x00) 0x301 0xEE
    PC := 0x200
    stack := upd (upd zeroed.stack 0 0x400) 1 0x500
    stack_ptr := 2 }

/-- The machine `init_chip8` leaves after loading the two-byte ROM `hi lo`. -/
def loaded (hi lo : Nat) : chip8_t :=
  (init_chip8 set_config_from_args (some [hi, lo])).2

/-- The ROM `D015` freshly loaded, then `I = 0`, `V[0] = 62`, `V[1] = 30` and
the framebuffer cell `(62, 30)` set. -/
def ex_D015 : chip8_t :=
  { loaded 0xD0 0x15 with
    V := regs2 0 62 1 30
    display := upd zeroed.display (64 * 30 + 62) true }

/-- The ROM `D015` freshly loaded, then `I = 5` (the glyph of digit 1),
`V[0] = 63`, `V[1] = 0`; the framebuffer is all false. -/
def ex_glyph1_clipped : chip8_t :=
  { loaded 0xD0 0x15 with
    V := regs2 0 63 1 0
    I := 5 }

/-- The ROM `D015` freshly loaded, then `I = 10` (the glyph of digit 2),
`V[0] = 3`, `V[1] = 4`; the framebuffer is all false. -/
def ex_glyph2 : chip8_t :=
  { loaded 0xD0 0x15 with
    V := regs2 0 3 1 4
    I := 10 }

/-- Every field of the record other than `PC` and `inst` has the same value in
`t` as in `s`. -/
def same_data (s t : chip8_t) : Prop :=
  t.state = s.state ∧ t.ram = s.ram ∧ t.display = s.display ∧
  t.pixel_color = s.pixel_color ∧ t.stack = s.stack ∧ t.stack_ptr = s.stack_ptr ∧
  t.V = s.V ∧ t.I = s.I ∧ t.delay_timer = s.delay_timer ∧
  t.sound_timer = s.sound_timer ∧ t.keypad = s.keypad ∧ t.draw = s.draw ∧
  t.any_key_pressed = s.any_key_pressed ∧ t.key = s.key

/-- The ROM `1300` (jump to `0x300`) freshly loaded. -/
def ex_1300 : chip8_t := loaded 0x13 0x00

/-- The ROM `00E0` freshly loaded, with the framebuffer cell 5 set. -/
def ex_00E0 : chip8_t :=
  { loaded 0x00 0xE0 with display := upd zeroed.display 5 true }

/-- The instruction `F233` with `V[2] = 255` and `I = 0x300`. -/
def ex_F233 : chip8_t :=
  { prog 0xF2 0x33 (regs2 2 255 3 0) with I := 0x300 }

/-- The function `update_timers`.  The result is the record after the tick
and the `pause_on` argument of the one call of `SDL_PauseAudioDevice` the tick
makes: 0 lets the audio device play, 1 pauses it. -/
def update_timers (chip8 : chip8_t) : chip8_t × Nat :=
  let c1 : chip8_t :=
    if chip8.delay_timer > 0 then { chip8 with delay_timer := chip8.delay_timer - 1 }
    else chip8
  if c1.sound_timer > 0 then
    ({ c1 with sound_timer := c1.sound_timer - 1 }, 0)
  else (c1, 1)

/-- A machine whose sound timer is 1. -/
def ex_sound1 : chip8_t := { zeroed with sound_timer := 1 }

/-- A machine whose sound timer is 7. -/
def ex_sound7 : chip8_t := { zeroed with sound_timer := 7 }

/-- The instruction `A2F0` at `0xFFE`, the last place an instruction fits. -/
def ex_A2F0 : chip8_t :=
  { zeroed with
    state := emulator_state_t.RUNNING
    ram := upd (upd zeroed.ram 0xFFE 0xA2) 0xFFF 0xF0
    PC := 0xFFE }

/-- The instruction `3107` with `V[1] = 7` (the skip is taken). -/
def ex_3107 : chip8_t := prog 0x31 0x07 (regs2 1 7 2 0)

/-- The instruction `4107` with `V[1] = 7` (the skip is not taken). -/
def ex_4107 : chip8_t := prog 0x41 0x07 (regs2 1 7 2 0)

/-- The instruction `5120` with `V[1] = V[2] = 9` (the skip is taken). -/
def ex_5120 : chip8_t := prog 0x51 0x20 (regs2 1 9 2 9)

/-- The instruction `9120` with `V[1] = V[2] = 9` (the skip is not taken). -/
def ex_9120 : chip8_t := prog 0x91 0x20 (regs2 1 9 2 9)

/-- The ROM `D010` freshly loaded (`I = 0`, so `ram[I]` is the font byte
`0xF0`; `V[0] = V[1] = 0`; the framebuffer is all false). -/
def ex_D010 : chip8_t := loaded 0xD0 0x10

/-- A ROM of 3585 bytes, one more than fits. -/
def rom_too_big : List Nat := List.replicate 3585 0xFF

/-- The instruction `7105` with `V[1] = 250` and `V[F] = 9`. -/
def ex_7105 : chip8_t := prog 0x71 0x05 (regs2 1 250 15 9)

/-- The instruction words the specification lists as defined, given by the
two bytes `hi`, `lo` of the word: `00E0`, `00EE`, `1NNN`, `2NNN`, `3XNN`,
`4XNN`, `5XY0`, `6XNN`, `7XNN`, `8XY0`..`8XY7`, `8XYE`, `9XY0`, `ANNN`,
`BNNN`, `CXNN`, `DXYN`, `EX9E`, `EXA1`, `FX07`, `FX0A`, `FX15`, `FX18`,
`FX1E`, `FX29`, `FX33`, `FX55`, `FX65`. -/
def defined_instruction (hi lo : Nat) : Prop :=
  (hi = 0x00 ∧ (lo = 0xE0 ∨ lo = 0xEE)) ∨
  hi / 16 = 0x1 ∨ hi / 16 = 0x2 ∨ hi / 16 = 0x3 ∨ hi / 16 = 0x4 ∨
  (hi / 16 = 0x5 ∧ lo % 16 = 0) ∨
  hi / 16 = 0x6 ∨ hi / 16 = 0x7 ∨
  (hi / 16 = 0x8 ∧ (lo % 16 ≤ 7 ∨ lo % 16 = 0xE)) ∨
  (hi / 16 = 0x9 ∧ lo % 16 = 0) ∨
  hi / 16 = 0xA ∨ hi / 16 = 0xB ∨ hi / 16 = 0xC ∨ hi / 16 = 0xD ∨
  (hi / 16 = 0xE ∧ (lo = 0x9E ∨ lo = 0xA1)) ∨
  (hi / 16 = 0xF ∧ (lo = 0x07 ∨ lo = 0x0A ∨ lo = 0x15 ∨ lo = 0x18 ∨ lo = 0x1E ∨
    lo = 0x29 ∨ lo = 0x33 ∨ lo = 0x55 ∨ lo = 0x65))

/-- The ROM `01E0` freshly loaded, with the framebuffer cell 5 set. -/
def ex_01E0 : chip8_t :=
  { loaded 0x01 0xE0 with display := upd zeroed.display 5 true }

/-- The ROM `01EE` freshly loaded (the call stack is empty). -/
def ex_01EE : chip8_t := loaded 0x01 0xEE

/-- The instruction `8126` with `V[1] = 200`, `V[2] = 3`. -/
def ex_shr3 : chip8_t := prog 0x81 0x26 (regs2 1 200 2 3)

/-- The instruction `812E` with `V[1] = 200`, `V[2] = 3`. -/
def ex_shl3 : chip8_t := prog 0x81 0x2E (regs2 1 200 2 3)

/-- The instruction `F30A` with the keys 5 and 9 down and no key pending. -/
def ex_F30A_keys59 : chip8_t :=
  { prog 0xF3 0x0A zeroed.V with keypad := upd (upd zeroed.keypad 5 true) 9 true }

/-- The instruction `F30A` with key 5 pending and still down. -/
def ex_F30A_held5 : chip8_t :=
  { prog 0xF3 0x0A zeroed.V with
    keypad := upd zeroed.keypad 5 true
    key := 5
    any_key_pressed := true }

/-- The instruction `F30A` with key 5 pending and released, key 9 down. -/
def ex_F30A_released5 : chip8_t :=
  { prog 0xF3 0x0A zeroed.V with
    keypad := upd zeroed.keypad 9 true
    key := 5
    any_key_pressed := true }

/-- The `for` loop of one host frame in `main` (lines 650-654):
`for (uint32_t i = 0; i < config.insts_per_second / 60; i++)` runs
`emulate_instruction` and breaks when `chip8.inst.opcode >> 12 == 0xD`.  The
first argument is the number of iterations the loop condition still allows,
the second is `i`; `rands i` is what `rand()` returns in iteration `i`.  The
result lists the record after each cycle the frame executed, in order. -/
def frame_cycles (config : config_t) (rands : Nat → Nat) :
    Nat → Nat → chip8_t → List chip8_t
  | 0, _, _ => []
  | n + 1, i, c =>
    let c1 := emulate_instruction c config (rands i)
    if c1.inst.opcode >>> 12 = 0xD then [c1]
    else c1 :: frame_cycles config rands n (i + 1) c1

/-- The cycles of one host frame: the loop of `frame_cycles` started at
`i = 0` with the bound `config.insts_per_second / 60`. -/
def run_frame (config : config_t) (rands : Nat → Nat) (c : chip8_t) : List chip8_t :=
  frame_cycles config rands (config.insts_per_second / 60) 0 c

/-- The ROM `6000 D001 1200` (load, draw, jump back) freshly loaded. -/
def ex_draw_loop : chip8_t :=
  (init_chip8 set_config_from_args (some [0x60, 0x00, 0xD0, 0x01, 0x12, 0x00])).2

/-- The `inst` of `emulate_instruction`, `(opcode >> 12) & 0x0F`, of the word
the next cycle fetches at `PC`. -/
def inst_family (s : chip8_t) : Nat :=
  ((fetch_decode s).inst.opcode >>> 12) &&& 0x0F

/-- The two-byte ROM `1FFF`: a jump to the odd address `0xFFF`. -/
def rom_jump_odd : List Nat := [0x1F, 0xFF]

/-- The two-byte ROM `00EE`: a return on the empty call stack. -/
def rom_return : List Nat := [0x00, 0xEE]

/-- The six-byte ROM `2204 1200 00EE`: a call of `0x204`, where a return
stands, and a jump back to the call. -/
def rom_call_return : List Nat := [0x22, 0x04, 0x12, 0x00, 0x00, 0xEE]

/-- What one cycle needs for every array access it makes to stay inside its
array and for its shift to be defined in C: the fetch reads `ram[PC]` and
`ram[PC + 1]`; a return (family 0, low byte `0xEE`) reads `stack[depth - 1]`;
a call writes `stack[depth]`; `8XY6` and `8XYE` shift the promoted `int` by
`V[Y]`; a draw reads `ram[I .. I + N - 1]`; `EX9E` and `EXA1` read
`keypad[V[X]]`; `FX0A` reads `keypad[key]` when a key is pending; `FX33`
writes `ram[I .. I + 2]`; `FX55` and `FX65` access `ram[I .. I + X]`.  The
registers are indexed by a nibble, and with the 64 by 32 window of
`set_config_from_args` a draw stays inside `display`. -/
def defined_cycle (s : chip8_t) : Prop :=
  s.PC + 1 < 4096 ∧
  (inst_family s = 0x0 → (fetch_decode s).inst.NN = 0xEE →
    1 ≤ s.stack_ptr ∧ s.stack_ptr ≤ 12) ∧
  (inst_family s = 0x2 → 0 ≤ s.stack_ptr ∧ s.stack_ptr ≤ 11) ∧
  (inst_family s = 0x8 → (fetch_decode s).inst.N = 0x6 →
    s.V (fetch_decode s).inst.Y < 32) ∧
  (inst_family s = 0x8 → (fetch_decode s).inst.N = 0xE →
    s.V (fetch_decode s).inst.Y < 32 ∧
    s.V (fetch_decode s).inst.X * 2 ^ s.V (fetch_decode s).inst.Y < 2 ^ 31) ∧
  (inst_family s = 0xD → s.I + (fetch_decode s).inst.N ≤ 4096) ∧
  (inst_family s = 0xE →
    (fetch_decode s).inst.NN = 0x9E ∨ (fetch_decode s).inst.NN = 0xA1 →
    s.V (fetch_decode s).inst.X < 16) ∧
  (inst_family s = 0xF → (fetch_decode s).inst.NN = 0x0A →
    s.any_key_pressed = true → s.key < 16) ∧
  (inst_family s = 0xF → (fetch_decode s).inst.NN = 0x33 → s.I + 2 < 4096) ∧
  (inst_family s = 0xF →
    (fetch_decode s).inst.NN = 0x55 ∨ (fetch_decode s).inst.NN = 0x65 →
    s.I + (fetch_decode s).inst.X < 4096)

instance (s : chip8_t) : Decidable (defined_cycle s) := by
  unfold defined_cycle
  infer_instance

/-- What one cycle has to satisfy for the program counter to stay even and
inside `[0, 4094]`: it is a `defined_cycle`, and a jump `1NNN` or call `2NNN`
goes to an even `NNN`, a jump `BNNN` to an even `V[0] + NNN` of at most 4094,
a return (family 0 with low byte `0xEE`) to an even stacked address of at
most 4094, and any other instruction is fetched at `PC <= 4090`. -/
def pc_step_ok (s : chip8_t) : Prop :=
  defined_cycle s ∧
  if inst_family s = 1 ∨ inst_family s = 2 then (fetch_decode s).inst.NNN % 2 = 0
  else if inst_family s = 0xB then
    (s.V 0 + (fetch_decode s).inst.NNN) % 65536 % 2 = 0 ∧
    (s.V 0 + (fetch_decode s).inst.NNN) % 65536 ≤ 4094
  else if inst_family s = 0 ∧ (fetch_decode s).inst.NN = 0xEE then
    s.stack (s.stack_ptr - 1) % 2 = 0 ∧ s.stack (s.stack_ptr - 1) ≤ 4094
  else s.PC ≤ 4090

instance (s : chip8_t) : Decidable (pc_step_ok s) := by
  unfold pc_step_ok
  infer_instance

/-- The key names `handle_input` switches on (`event.key.keysym.sym`);
`SDLK_other` stands for every other key. -/
inductive sdl_key where
  | SDLK_ESCAPE | SDLK_SPACE
  | SDLK_1 | SDLK_2 | SDLK_3 | SDLK_4
  | SDLK_q | SDLK_w | SDLK_e | SDLK_r
  | SDLK_a | SDLK_s | SDLK_d | SDLK_f
  | SDLK_z | SDLK_x | SDLK_c | SDLK_v
  | SDLK_other
  deriving DecidableEq

/-- The events `handle_input` switches on (`event.type`); `SDL_other` stands
for every other event type. -/
inductive sdl_event where
  | SDL_QUIT
  | SDL_KEYDOWN (sym : sdl_key)
  | SDL_KEYUP (sym : sdl_key)
  | SDL_other

/-- The keypad entry the `SDL_KEYDOWN` and `SDL_KEYUP` cases of `handle_input`
write for a key, `none` for the keys of their `default` case. -/
def keypad_index : sdl_key → Option Nat
  | sdl_key.SDLK_1 => some 0x1
  | sdl_key.SDLK_2 => some 0x2
  | sdl_key.SDLK_3 => some 0x3
  | sdl_key.SDLK_4 => some 0xC
  | sdl_key.SDLK_q => some 0x4
  | sdl_key.SDLK_w => some 0x5
  | sdl_key.SDLK_e => some 0x6
  | sdl_key.SDLK_r => some 0xD
  | sdl_key.SDLK_a => some 0x7
  | sdl_key.SDLK_s => some 0x8
  | sdl_key.SDLK_d => some 0x9
  | sdl_key.SDLK_f => some 0xE
  | sdl_key.SDLK_z => some 0xA
  | sdl_key.SDLK_x => some 0x0
  | sdl_key.SDLK_c => some 0xB
  | sdl_key.SDLK_v => some 0xF
  | _ => none

/-- The function `handle_input`; the list holds the events `SDL_PollEvent`
hands out, in order.  `SDL_QUIT`, Escape and Space `return`, so that the
events after them stay in the queue. -/
def handle_input : List sdl_event → chip8_t → chip8_t
  | [], chip8 => chip8
  | sdl_event.SDL_QUIT :: _, chip8 => { chip8 with state := emulator_state_t.QUIT }
  | sdl_event.SDL_KEYDOWN sym :: rest, chip8 =>
    if sym = sdl_key.SDLK_ESCAPE then { chip8 with state := emulator_state_t.QUIT }
    else if sym = sdl_key.SDLK_SPACE then
      if chip8.state = emulator_state_t.RUNNING then
        { chip8 with state := emulator_state_t.PAUSED }
      else { chip8 with state := emulator_state_t.RUNNING }
    else
      match keypad_index sym with
      | some k => handle_input rest { chip8 with keypad := upd chip8.keypad k true }
      | none => handle_input rest chip8
  | sdl_event.SDL_KEYUP sym :: rest, chip8 =>
    match keypad_index sym with
    | some k => handle_input rest { chip8 with keypad := upd chip8.keypad k false }
    | none => handle_input rest chip8
  | sdl_event.SDL_other :: rest, chip8 => handle_input rest chip8

/-- The function `update_screen` on the record: `draw_pixel` stores the
foreground or background colour of every framebuffer cell in `pixel_color`. -/
def update_screen (config : config_t) (chip8 : chip8_t) : chip8_t :=
  { chip8 with
    pixel_color := fun i =>
      if i < 64 * 32 then (if chip8.display i then config.fg_color else config.bg_color)
      else chip8.pixel_color i }

/-- The records at which the cycles of the frame loop fetch, in order: the
loop of `frame_cycles`, listing the record before each cycle instead of the
record after it. -/
def frame_fetches (config : config_t) (rands : Nat → Nat) :
    Nat → Nat → chip8_t → List chip8_t
  | 0, _, _ => []
  | n + 1, i, c =>
    let c1 := emulate_instruction c config (rands i)
    if c1.inst.opcode >>> 12 = 0xD then [c]
    else c :: frame_fetches config rands n (i + 1) c1

/-- One pass through the body of the `while` loop of `main` (lines 645-667):
`handle_input`, nothing more when the machine is paused, otherwise the frame
of cycles, `update_screen` with the reset of `draw` when a redraw is pending,
and `update_timers`. -/
def main_iteration (config : config_t) (rands : Nat → Nat) (events : List sdl_event)
    (chip8 : chip8_t) : chip8_t :=
  let c1 := handle_input events chip8
  if c1.state = emulator_state_t.PAUSED then c1
  else
    let c2 := (run_frame config rands c1).getLastD c1
    let c3 := if c2.draw then { update_screen config c2 with draw := false } else c2
    (update_timers c3).1

/-- The record after `k` passes of the `while (chip8.state != QUIT)` loop of
`main`; `events k` is the event queue of pass `k` and `rands k i` what
`rand()` returns in cycle `i` of its frame. -/
def main_loop (config : config_t) (rands : Nat → Nat → Nat) (events : Nat → List sdl_event)
    (chip8 : chip8_t) : Nat → chip8_t
  | 0 => chip8
  | k + 1 =>
    if (main_loop config rands events chip8 k).state = emulator_state_t.QUIT then
      main_loop config rands events chip8 k
    else main_iteration config (rands k) (events k) (main_loop config rands events chip8 k)

/-- The records at which the cycles of the first `k` passes of the loop of
`main` fetch, in order. -/
def main_fetches (config : config_t) (rands : Nat → Nat → Nat)
    (events : Nat → List sdl_event) (chip8 : chip8_t) : Nat → List chip8_t
  | 0 => []
  | k + 1 =>
    main_fetches config rands events chip8 k ++
      (if (main_loop config rands events chip8 k).state = emulator_state_t.QUIT then []
       else if (handle_input (events k) (main_loop config rands events chip8 k)).state
          = emulator_state_t.PAUSED then []
       else frame_fetches config (rands k) (config.insts_per_second / 60) 0
          (handle_input (events k) (main_loop config rands events chip8 k)))

/-- The record with which `main` enters its loop once `init_chip8` has loaded
the ROM `bytes` under the configuration of `set_config_from_args`. -/
def booted (bytes : List Nat) : chip8_t :=
  (init_chip8 set_config_from_args (some bytes)).2

/-- The records at which the cycles of the first `k` passes of the loop of
`main` fetch when the ROM is `bytes`. -/
def boot_fetches (rands : Nat → Nat → Nat) (events : Nat → List sdl_event)
    (bytes : List Nat) (k : Nat) : List chip8_t :=
  main_fetches set_config_from_args rands events (booted bytes) k

/-- The event queues of the examples: the key `q` goes down in the first pass
of the loop and up in the second. -/
def ex_events (k : Nat) : List sdl_event :=
  if k = 0 then [sdl_event.SDL_KEYDOWN sdl_key.SDLK_q]
  else [sdl_event.SDL_KEYUP sdl_key.SDLK_q]

/-- The host code between two cycles leaves the program counter and the
stack pointer of `s` as they are in `t`. -/
def same_control (s t : chip8_t) : Prop :=
  t.PC = s.PC ∧ t.stack_ptr = s.stack_ptr

/-- The list `L` holds the records at which successive cycles fetch on the
way from `c` to `s`: each cycle starts from the record the previous one left
(from `c` for the first), up to host code that leaves the program counter and
the stack pointer alone. -/
def fetch_trace (config : config_t) : chip8_t → List chip8_t → chip8_t → Prop
  | c, [], s => same_control c s
  | c, t :: L, s =>
    same_control c t ∧ ∃ rand, fetch_trace config (emulate_instruction t config rand) L s

/-- The store `chip8->ram[a] = v` on the record `chip8_t` as laid out in
memory (`state` in bytes 0..3, `ram` from byte 4, `display` from 4100,
`pixel_color` from 6148, `stack` from 14340, `stack_ptr` in 14368..14375, `V`
from 14376, `PC` from 14392): inside the array it writes `ram[a]`, and for
`14372 <= a < 14388` the byte written is `V[a - 14372]`.  The other places
outside the array are not modelled (`none`). -/
def ram_store (chip8 : chip8_t) (a v : Nat) : Option chip8_t :=
  if a < 4096 then some { chip8 with ram := upd chip8.ram a v }
  else if 14372 ≤ a ∧ a < 14388 then some { chip8 with V := upd chip8.V (a - 14372) v }
  else none

/-- One cycle of `FX33` whose three stores go through `ram_store`: the fetch
(inside `ram`), then case `0x33` of `emulate_instruction` with `bcd` read
once from `V[X]`.  Every other instruction is not modelled here (`none`). -/
def emulate_bcd_record (s : chip8_t) : Option chip8_t :=
  let chip8 := fetch_decode s
  if s.PC + 1 < 4096 ∧ inst_family s = 0xF ∧ chip8.inst.NN = 0x33 then
    let bcd := chip8.V chip8.inst.X
    (ram_store chip8 (chip8.I + 2) (bcd % 10)).bind fun c1 =>
    (ram_store c1 (c1.I + 1) (bcd / 10 % 10)).bind fun c2 =>
    ram_store c2 c2.I (bcd / 10 / 10)
  else none

/-- The instruction `F233` with `I = 14385`, `V[2] = 125` and `V[F] = 9`:
`I + 2` is where `V[F]` lies behind `ram`. -/
def ex_F233_far : chip8_t :=
  { prog 0xF2 0x33 (regs2 2 125 15 9) with I := 14385 }

/-- The instruction `F233` with `I = 0x300`, `V[2] = 125` and `V[F] = 9`. -/
def ex_F233_near : chip8_t :=
  { prog 0xF2 0x33 (regs2 2 125 15 9) with I := 0x300 }

/-- The ROM `2200` (a call of its own address `0x200`). -/
def rom_call_self : List Nat := [0x22, 0x00]

/-! ## Ranges of the C types -/

/-- The ranges the C types give to the fields of `chip8_t`: bytes in `ram`,
`V`, the timers and `key`, 16-bit values in `PC`, `I` and the stack. -/
structure wf (s : chip8_t) : Prop where
  ram_u8 : ∀ a, a < 4096 → s.ram a < 256
  V_u8 : ∀ i, i < 16 → s.V i < 256
  PC_u16 : s.PC < 65536
  I_u16 : s.I < 65536
  stack_u16 : ∀ k : Int, 0 ≤ k → k < 12 → s.stack k < 65536
  delay_u8 : s.delay_timer < 256
  sound_u8 : s.sound_timer < 256
  key_u8 : s.key < 256

/-! ## Basic facts -/

@[simp] theorem upd_same {ι α : Type} [DecidableEq ι] (f : ι → α) (i : ι) (v : α) :
    upd f i v i = v := by
  simp [upd]

theorem upd_of_ne {ι α : Type} [DecidableEq ι] (f : ι → α) (i j : ι) (v : α) (h : j ≠ i) :
    upd f i v j = f j := by
  simp [upd, h]

theorem upd_apply {ι α : Type} [DecidableEq ι] (f : ι → α) (i j : ι) (v : α) :
    upd f i v j = if j = i then v else f j := rfl

theorem and_0FFF (x : Nat) : x &&& 0x0FFF = x % 4096 :=
  Nat.and_pow_two_sub_one_eq_mod x 12

theorem and_0FF (x : Nat) : x &&& 0x0FF = x % 256 :=
  Nat.and_pow_two_sub_one_eq_mod x 8

theorem and_0F (x : Nat) : x &&& 0x0F = x % 16 :=
  Nat.and_pow_two_sub_one_eq_mod x 4

theorem shl8_or (hi lo : Nat) (hlo : lo < 256) : (hi <<< 8) ||| lo = 256 * hi + lo := by
  have h := Nat.mul_add_lt_is_or (show lo < 2 ^ 8 from hlo) hi
  rw [Nat.shiftLeft_eq, Nat.mul_comm hi (2 ^ 8), ← h]

/-- The fields `fetch_decode` fills when the two bytes at `PC` are `hi` and
`lo`: family `hi / 16`, `X = hi % 16`, `Y = lo / 16`, `N = lo % 16`, `NN = lo`. -/
theorem decode (s : chip8_t) (hi lo : Nat) (h1 : s.ram s.PC = hi)
    (h2 : s.ram (s.PC + 1) = lo) (hhi : hi < 256) (hlo : lo < 256) :
    ((fetch_decode s).inst.opcode >>> 12) &&& 0x0F = hi / 16 ∧
    (fetch_decode s).inst.opcode = 256 * hi + lo ∧
    (fetch_decode s).inst.NNN = (256 * hi + lo) % 4096 ∧
    (fetch_decode s).inst.NN = lo ∧
    (fetch_decode s).inst.N = lo % 16 ∧
    (fetch_decode s).inst.X = hi % 16 ∧
    (fetch_decode s).inst.Y = lo / 16 := by
  have hop : ((s.ram s.PC <<< 8) ||| s.ram (s.PC + 1)) % 65536 = 256 * hi + lo := by
    rw [h1, h2, shl8_or hi lo hlo]; omega
  simp only [fetch_decode, hop, and_0FFF, and_0FF, and_0F, Nat.shiftRight_eq_div_pow]
  refine ⟨?_, trivial, trivial, ?_, ?_, ?_, ?_⟩ <;> omega

/-- The fields `fetch_decode` fills when the instruction at `PC` has the four
nibbles `F`, `X`, `Y`, `N` (high byte `16 * F + X`, low byte `16 * Y + N`). -/
theorem decode_nibbles (s : chip8_t) (F X Y N : Nat) (hF : F < 16) (hX : X < 16)
    (hY : Y < 16) (hN : N < 16) (h1 : s.ram s.PC = 16 * F + X)
    (h2 : s.ram (s.PC + 1) = 16 * Y + N) :
    ((fetch_decode s).inst.opcode >>> 12) &&& 0x0F = F ∧
    (fetch_decode s).inst.opcode = 4096 * F + 256 * X + 16 * Y + N ∧
    (fetch_decode s).inst.NNN = 256 * X + 16 * Y + N ∧
    (fetch_decode s).inst.NN = 16 * Y + N ∧
    (fetch_decode s).inst.N = N ∧
    (fetch_decode s).inst.X = X ∧
    (fetch_decode s).inst.Y = Y := by
  obtain ⟨a, b, c, d, e, f, g⟩ := decode s _ _ h1 h2 (by omega) (by omega)
  refine ⟨?_, ?_, ?_, ?_, ?_, ?_, ?_⟩ <;> omega

theorem wf_prog (hi lo : Nat) (V : Nat → Nat) (hhi : hi < 256) (hlo : lo < 256)
    (hV : ∀ i, i < 16 → V i < 256) : wf (prog hi lo V) := by
  refine ⟨?_, hV, ?_, ?_, ?_, ?_, ?_, ?_⟩ <;> simp [prog, zeroed]
  intro a _
  simp only [upd]
  split
  · exact hlo
  · split
    · exact hhi
    · omega

theorem regs2_u8 (i a j b : Nat) (ha : a < 256) (hb : b < 256) :
    ∀ k, k < 16 → regs2 i a j b k < 256 := by
  intro k _
  simp only [regs2, upd, zeroed]
  split
  · exact hb
  · split
    · exact ha
    · omega

/-! ## Arithmetic instructions of family 8 -/

/-- One cycle on `8XY4`. -/
theorem emulate_8XY4 (s : chip8_t) (config : config_t) (rand X Y : Nat)
    (hX : X < 16) (hY : Y < 16)
    (h1 : s.ram s.PC = 0x80 + X) (h2 : s.ram (s.PC + 1) = 0x10 * Y + 0x4) :
    emulate_instruction s config rand =
      { fetch_decode s with
        V := upd (upd s.V X ((s.V X + s.V Y) % 256)) 0xF
              (decide ((s.V X + s.V Y) % 65536 > 255)).toNat } := by
  obtain ⟨hfam, -, -, -, hN, hXf, hYf⟩ :=
    decode_nibbles s 8 X Y 4 (by omega) hX hY (by omega) (by omega) (by omega)
  have hVe : (fetch_decode s).V = s.V := rfl
  simp [emulate_instruction, execute, hfam, hN, hXf, hYf, hVe]

/-- One cycle on `8XY5`. -/
theorem emulate_8XY5 (s : chip8_t) (config : config_t) (rand X Y : Nat)
    (hX : X < 16) (hY : Y < 16)
    (h1 : s.ram s.PC = 0x80 + X) (h2 : s.ram (s.PC + 1) = 0x10 * Y + 0x5) :
    emulate_instruction s config rand =
      { fetch_decode s with
        V := upd (upd s.V X (sub_u8 (s.V X) (s.V Y))) 0xF
              (decide (s.V X ≥ s.V Y)).toNat } := by
  obtain ⟨hfam, -, -, -, hN, hXf, hYf⟩ :=
    decode_nibbles s 8 X Y 5 (by omega) hX hY (by omega) (by omega) (by omega)
  have hVe : (fetch_decode s).V = s.V := rfl
  simp [emulate_instruction, execute, hfam, hN, hXf, hYf, hVe]

/-- One cycle on `8XY6`. -/
theorem emulate_8XY6 (s : chip8_t) (config : config_t) (rand X Y : Nat)
    (hX : X < 16) (hY : Y < 16)
    (h1 : s.ram s.PC = 0x80 + X) (h2 : s.ram (s.PC + 1) = 0x10 * Y + 0x6) :
    emulate_instruction s config rand =
      { fetch_decode s with
        V := upd (upd s.V X ((s.V X >>> s.V Y) % 256)) 0xF
              (decide (s.V Y &&& 1 ≠ 0)).toNat } := by
  obtain ⟨hfam, -, -, -, hN, hXf, hYf⟩ :=
    decode_nibbles s 8 X Y 6 (by omega) hX hY (by omega) (by omega) (by omega)
  have hVe : (fetch_decode s).V = s.V := rfl
  simp [emulate_instruction, execute, hfam, hN, hXf, hYf, hVe]

/-- One cycle on `8XY7`. -/
theorem emulate_8XY7 (s : chip8_t) (config : config_t) (rand X Y : Nat)
    (hX : X < 16) (hY : Y < 16)
    (h1 : s.ram s.PC = 0x80 + X) (h2 : s.ram (s.PC + 1) = 0x10 * Y + 0x7) :
    emulate_instruction s config rand =
      { fetch_decode s with
        V := upd (upd s.V X (sub_u8 (s.V Y) (s.V X))) 0xF
              (decide (s.V X ≤ s.V Y)).toNat } := by
  obtain ⟨hfam, -, -, -, hN, hXf, hYf⟩ :=
    decode_nibbles s 8 X Y 7 (by omega) hX hY (by omega) (by omega) (by omega)
  have hVe : (fetch_decode s).V = s.V := rfl
  simp [emulate_instruction, execute, hfam, hN, hXf, hYf, hVe]

/-- One cycle on `8XYE`. -/
theorem emulate_8XYE (s : chip8_t) (config : config_t) (rand X Y : Nat)
    (hX : X < 16) (hY : Y < 16)
    (h1 : s.ram s.PC = 0x80 + X) (h2 : s.ram (s.PC + 1) = 0x10 * Y + 0xE) :
    emulate_instruction s config rand =
      { fetch_decode s with
        V := upd (upd s.V X ((s.V X <<< s.V Y) % 256)) 0xF
              (decide ((s.V Y &&& 0x80) >>> 7 ≠ 0)).toNat } := by
  obtain ⟨hfam, -, -, -, hN, hXf, hYf⟩ :=
    decode_nibbles s 8 X Y 14 (by omega) hX hY (by omega) (by omega) (by omega)
  have hVe : (fetch_decode s).V = s.V := rfl
  simp [emulate_instruction, execute, hfam, hN, hXf, hYf, hVe]

/-- Masking with a single bit yields zero or that bit. -/
theorem and_two_pow_cases (d j : Nat) :
    (d.testBit j = false ∧ d &&& 2 ^ j = 0) ∨ (d.testBit j = true ∧ d &&& 2 ^ j = 2 ^ j) := by
  cases h : d.testBit j
  · left
    refine ⟨rfl, ?_⟩
    apply Nat.eq_of_testBit_eq
    intro i
    rw [Nat.testBit_and, Nat.testBit_two_pow, Nat.zero_testBit]
    by_cases hji : j = i
    · subst hji; simp [h]
    · simp [hji]
  · right
    refine ⟨rfl, ?_⟩
    apply Nat.eq_of_testBit_eq
    intro i
    rw [Nat.testBit_and, Nat.testBit_two_pow]
    by_cases hji : j = i
    · subst hji; simp [h]
    · simp [hji]

/-- The test `sprite_data & (1 << j)` of the draw loop reads bit `j`. -/
theorem and_shl_ne_zero (d j : Nat) : decide (d &&& (1 <<< j) ≠ 0) = d.testBit j := by
  rw [Nat.one_shiftLeft]
  have hpos : 0 < 2 ^ j := Nat.two_pow_pos j
  rcases and_two_pow_cases d j with ⟨h, e⟩ | ⟨h, e⟩
  · rw [h, e]; simp
  · rw [h, e]; simp

/-- The carry of `8XYE`, `(v & 0x80) >> 7`, is bit 7 of `v`. -/
theorem and_80_shr (v : Nat) : (decide ((v &&& 0x80) >>> 7 ≠ 0)).toNat = v / 128 % 2 := by
  have h2 := Nat.toNat_testBit v 7
  have e128 : (2 : Nat) ^ 7 = 128 := by norm_num
  rw [e128] at h2
  rw [← h2]
  rcases and_two_pow_cases v 7 with ⟨h, e⟩ | ⟨h, e⟩
  · rw [e128] at e
    rw [h, e]; simp
  · rw [e128] at e
    rw [h, e]; simp

/-! # The claims -/

/-- C1 (add with carry, opcode 8XY4): for all register selectors `X`, `Y` and
all register contents, after one cycle `V[F]` is 1 if the sum of the old
`V[X]` and `V[Y]` exceeds 255 and 0 otherwise (also when `X` or `Y` is `F`),
and when `X` is not `F` the new `V[X]` is the sum modulo 256. -/
theorem add_with_carry (s : chip8_t) (config : config_t) (rand X Y : Nat)
    (hX : X < 16) (hY : Y < 16) (hs : wf s)
    (h1 : s.ram s.PC = 0x80 + X) (h2 : s.ram (s.PC + 1) = 0x10 * Y + 0x4) :
    (emulate_instruction s config rand).V 0xF = (if s.V X + s.V Y > 255 then 1 else 0) ∧
    (X ≠ 0xF → (emulate_instruction s config rand).V X = (s.V X + s.V Y) % 256) := by
  have bX := hs.V_u8 X hX
  have bY := hs.V_u8 Y hY
  rw [emulate_8XY4 s config rand X Y hX hY h1 h2]
  refine ⟨?_, fun h => ?_⟩
  · simp only [upd_same]
    rw [Nat.mod_eq_of_lt (by omega)]
    by_cases hc : s.V X + s.V Y > 255 <;> simp [hc]
  · simp only [upd_of_ne _ _ _ _ h, upd_same]

/-- Witness of C1 at the boundary pair (255, 255): `8124` with
`V[1] = V[2] = 255` gives flag 1 and `V[1] = 254`. -/
theorem add_with_carry_witness :
    wf ex_8124 ∧
    (emulate_instruction ex_8124 set_config_from_args 0).V 0xF
      = (if ex_8124.V 1 + ex_8124.V 2 > 255 then 1 else 0) ∧
    (emulate_instruction ex_8124 set_config_from_args 0).V 1
      = (ex_8124.V 1 + ex_8124.V 2) % 256 :=
  ⟨wf_prog _ _ _ (by decide) (by decide) (regs2_u8 _ _ _ _ (by decide) (by decide)),
   (add_with_carry ex_8124 set_config_from_args 0 1 2 (by decide) (by decide)
     (wf_prog _ _ _ (by decide) (by decide) (regs2_u8 _ _ _ _ (by decide) (by decide)))
     rfl rfl).1,
   (add_with_carry ex_8124 set_config_from_args 0 1 2 (by decide) (by decide)
     (wf_prog _ _ _ (by decide) (by decide) (regs2_u8 _ _ _ _ (by decide) (by decide)))
     rfl rfl).2 (by decide)⟩

/-- The value `sub_u8` stores is the difference modulo 256. -/
theorem sub_u8_cast (a b : Nat) : ((sub_u8 a b : Nat) : Int) = ((a : Int) - (b : Int)) % 256 := by
  unfold sub_u8
  omega

/-- C2 (subtract with borrow, both directions): after `8XY5` the flag `V[F]`
is 1 iff old `V[X] >= V[Y]` (0 otherwise) and, for `X` not `F`, the new `V[X]`
is `(V[X] - V[Y]) mod 256`; after `8XY7` the flag is 1 iff old
`V[Y] >= V[X]` (0 otherwise) and, for `X` not `F`, the new `V[X]` is
`(V[Y] - V[X]) mod 256`. -/
theorem sub_with_borrow (s : chip8_t) (config : config_t) (rand X Y : Nat)
    (hX : X < 16) (hY : Y < 16) :
    (s.ram s.PC = 0x80 + X → s.ram (s.PC + 1) = 0x10 * Y + 0x5 →
      (emulate_instruction s config rand).V 0xF = (if s.V X ≥ s.V Y then 1 else 0) ∧
      (X ≠ 0xF → ((emulate_instruction s config rand).V X : Int)
        = ((s.V X : Int) - (s.V Y : Int)) % 256)) ∧
    (s.ram s.PC = 0x80 + X → s.ram (s.PC + 1) = 0x10 * Y + 0x7 →
      (emulate_instruction s config rand).V 0xF = (if s.V Y ≥ s.V X then 1 else 0) ∧
      (X ≠ 0xF → ((emulate_instruction s config rand).V X : Int)
        = ((s.V Y : Int) - (s.V X : Int)) % 256)) := by
  refine ⟨fun h1 h2 => ?_, fun h1 h2 => ?_⟩
  · rw [emulate_8XY5 s config rand X Y hX hY h1 h2]
    refine ⟨?_, fun h => ?_⟩
    · simp only [upd_same]
      by_cases hc : s.V X ≥ s.V Y <;> simp [hc]
    · simp only [upd_of_ne _ _ _ _ h, upd_same]
      exact sub_u8_cast _ _
  · rw [emulate_8XY7 s config rand X Y hX hY h1 h2]
    refine ⟨?_, fun h => ?_⟩
    · simp only [upd_same]
      by_cases hc : s.V Y ≥ s.V X <;> simp [hc]
    · simp only [upd_of_ne _ _ _ _ h, upd_same]
      exact sub_u8_cast _ _

/-- Witness of C2 at the boundary pairs: `8125` with `(V[1], V[2]) = (0, 255)`
and `8127` with `(V[1], V[2]) = (255, 0)`. -/
theorem sub_with_borrow_witness :
    ((emulate_instruction ex_8125 set_config_from_args 0).V 0xF
        = (if ex_8125.V 1 ≥ ex_8125.V 2 then 1 else 0) ∧
      ((emulate_instruction ex_8125 set_config_from_args 0).V 1 : Int)
        = ((ex_8125.V 1 : Int) - (ex_8125.V 2 : Int)) % 256) ∧
    ((emulate_instruction ex_8127 set_config_from_args 0).V 0xF
        = (if ex_8127.V 2 ≥ ex_8127.V 1 then 1 else 0) ∧
      ((emulate_instruction ex_8127 set_config_from_args 0).V 1 : Int)
        = ((ex_8127.V 2 : Int) - (ex_8127.V 1 : Int)) % 256) :=
  ⟨⟨((sub_with_borrow ex_8125 set_config_from_args 0 1 2 (by decide) (by decide)).1
        rfl rfl).1,
    ((sub_with_borrow ex_8125 set_config_from_args 0 1 2 (by decide) (by decide)).1
        rfl rfl).2 (by decide)⟩,
   ⟨((sub_with_borrow ex_8127 set_config_from_args 0 1 2 (by decide) (by decide)).2
        rfl rfl).1,
    ((sub_with_borrow ex_8127 set_config_from_args 0 1 2 (by decide) (by decide)).2
        rfl rfl).2 (by decide)⟩⟩

/-- C3 as the code has it: after the shift-right instruction `8XY6` the flag
`V[F]` is bit 0 of the old `V[Y]`, and after the shift-left instruction `8XYE`
it is bit 7 of the old `V[Y]` (the register `V[X]` is the one shifted). -/
theorem shift_flag (s : chip8_t) (config : config_t) (rand X Y : Nat)
    (hX : X < 16) (hY : Y < 16) :
    (s.ram s.PC = 0x80 + X → s.ram (s.PC + 1) = 0x10 * Y + 0x6 →
      (emulate_instruction s config rand).V 0xF = s.V Y % 2) ∧
    (s.ram s.PC = 0x80 + X → s.ram (s.PC + 1) = 0x10 * Y + 0xE →
      (emulate_instruction s config rand).V 0xF = s.V Y / 128 % 2) := by
  refine ⟨fun h1 h2 => ?_, fun h1 h2 => ?_⟩
  · rw [emulate_8XY6 s config rand X Y hX hY h1 h2]
    simp only [upd_same, Nat.and_one_is_mod]
    rcases Nat.mod_two_eq_zero_or_one (s.V Y) with h | h <;> simp [h]
  · rw [emulate_8XYE s config rand X Y hX hY h1 h2]
    simp only [upd_same]
    exact and_80_shr _

/-- Witness of the amended C3: `8126` with `V[2] = 1` and `812E` with
`V[2] = 0x81`. -/
theorem shift_flag_witness :
    (emulate_instruction ex_8126 set_config_from_args 0).V 0xF = ex_8126.V 2 % 2 ∧
    (emulate_instruction ex_812E set_config_from_args 0).V 0xF = ex_812E.V 2 / 128 % 2 :=
  ⟨(shift_flag ex_8126 set_config_from_args 0 1 2 (by decide) (by decide)).1 rfl rfl,
   (shift_flag ex_812E set_config_from_args 0 1 2 (by decide) (by decide)).2 rfl rfl⟩

/-- Counterexample to C3 as stated: on `8016` with `V[0] = 1`, `V[1] = 0` the
shifted register `V[0]` has low bit 1 but the flag becomes 0; on `801E` with
`V[0] = 0x80`, `V[1] = 0` the shifted register has high bit 1 but the flag
becomes 0. -/
theorem shift_flag_counterexample :
    (wf ex_8016 ∧ ex_8016.ram ex_8016.PC = 0x80 + 0 ∧
      ex_8016.ram (ex_8016.PC + 1) = 0x10 * 1 + 0x6 ∧
      ex_8016.V 0 % 2 = 1 ∧
      (emulate_instruction ex_8016 set_config_from_args 0).V 0xF = 0) ∧
    (wf ex_801E ∧ ex_801E.ram ex_801E.PC = 0x80 + 0 ∧
      ex_801E.ram (ex_801E.PC + 1) = 0x10 * 1 + 0xE ∧
      ex_801E.V 0 / 128 % 2 = 1 ∧
      (emulate_instruction ex_801E set_config_from_args 0).V 0xF = 0) := by
  refine ⟨⟨wf_prog _ _ _ (by decide) (by decide) (regs2_u8 _ _ _ _ (by decide) (by decide)),
      rfl, rfl, by decide, ?_⟩,
    ⟨wf_prog _ _ _ (by decide) (by decide) (regs2_u8 _ _ _ _ (by decide) (by decide)),
      rfl, rfl, by decide, ?_⟩⟩
  · rw [emulate_8XY6 ex_8016 set_config_from_args 0 0 1 (by decide) (by decide) rfl rfl]
    decide
  · rw [emulate_8XYE ex_801E set_config_from_args 0 0 1 (by decide) (by decide) rfl rfl]
    decide

/-! ## Key wait -/

/-- One cycle on `FX0A`. -/
theorem emulate_FX0A (s : chip8_t) (config : config_t) (rand X : Nat) (hX : X < 16)
    (h1 : s.ram s.PC = 0xF0 + X) (h2 : s.ram (s.PC + 1) = 0x0A) :
    emulate_instruction s config rand =
      if !(key_scan 16 0 (fetch_decode s)).any_key_pressed then
        { key_scan 16 0 (fetch_decode s) with
          PC := sub_u16 (key_scan 16 0 (fetch_decode s)).PC 2 }
      else if (key_scan 16 0 (fetch_decode s)).keypad (key_scan 16 0 (fetch_decode s)).key then
        { key_scan 16 0 (fetch_decode s) with
          PC := sub_u16 (key_scan 16 0 (fetch_decode s)).PC 2 }
      else
        { key_scan 16 0 (fetch_decode s) with
          V := upd (key_scan 16 0 (fetch_decode s)).V X (key_scan 16 0 (fetch_decode s)).key
          key := 0xFF
          any_key_pressed := false } := by
  obtain ⟨hfam, -, -, hNN, -, hXf, -⟩ :=
    decode_nibbles s 15 X 0 10 (by omega) hX (by omega) (by omega) (by omega) (by omega)
  have hXk : ∀ n i c, (key_scan n i c).inst = c.inst := by
    intro n
    induction n with
    | zero => intro i c; rfl
    | succ n ih =>
      intro i c
      simp only [key_scan]
      split
      · split
        · rfl
        · exact ih _ _
      · rfl
  simp [emulate_instruction, execute, hfam, hNN, hXf, hXk]

/-- With no key down the scan loop of the key-wait case changes nothing. -/
theorem key_scan_none (n i : Nat) (c : chip8_t) (h : ∀ j, j < 16 → c.keypad j = false) :
    key_scan n i c = c := by
  induction n generalizing i with
  | zero => rfl
  | succ n ih =>
    simp only [key_scan]
    split
    · rename_i hc
      rw [h i hc.2]
      simp [ih]
    · rfl

/-- With no key pending the scan loop records the lowest key that is down. -/
theorem key_scan_found (n i k : Nat) (c : chip8_t) (hkey : c.key = 0xFF) (hk : k < 16)
    (hik : i ≤ k) (hn : k < i + n) (hlow : ∀ j, i ≤ j → j < k → c.keypad j = false)
    (hdown : c.keypad k = true) :
    key_scan n i c = { c with key := k, any_key_pressed := true } := by
  induction n generalizing i with
  | zero => omega
  | succ n ih =>
    simp only [key_scan]
    have hi : i < 16 := by omega
    simp only [hkey, hi, and_self, if_true]
    by_cases hik2 : i = k
    · subst hik2
      simp [hdown]
    · have hlt : i < k := by omega
      rw [hlow i (le_refl _) hlt]
      simp only [Bool.false_eq_true, if_false]
      exact ih (i + 1) (by omega) (by omega) (fun j h1 h2 => hlow j (by omega) h2)

/-- C7 (key-wait re-fetch): if the instruction at `PC` is `FX0A`, no key of
the keypad is down and no key is pending (`key = 0xFF`,
`any_key_pressed = false`), then after one cycle the program counter is the
one before the cycle and the registers, the index register, memory, the
stack, the timers and the framebuffer are unchanged. -/
theorem key_wait_refetch (s : chip8_t) (config : config_t) (rand X : Nat) (hX : X < 16)
    (hs : wf s) (h1 : s.ram s.PC = 0xF0 + X) (h2 : s.ram (s.PC + 1) = 0x0A)
    (_hkey : s.key = 0xFF) (hany : s.any_key_pressed = false)
    (hup : ∀ i, i < 16 → s.keypad i = false) :
    (emulate_instruction s config rand).PC = s.PC ∧
    (emulate_instruction s config rand).V = s.V ∧
    (emulate_instruction s config rand).I = s.I ∧
    (emulate_instruction s config rand).ram = s.ram ∧
    (emulate_instruction s config rand).stack = s.stack ∧
    (emulate_instruction s config rand).stack_ptr = s.stack_ptr ∧
    (emulate_instruction s config rand).delay_timer = s.delay_timer ∧
    (emulate_instruction s config rand).sound_timer = s.sound_timer ∧
    (emulate_instruction s config rand).display = s.display := by
  have hPC := hs.PC_u16
  have hscan : key_scan 16 0 (fetch_decode s) = fetch_decode s :=
    key_scan_none 16 0 (fetch_decode s) hup
  have hany2 : (fetch_decode s).any_key_pressed = false := hany
  have hpc : sub_u16 (fetch_decode s).PC 2 = s.PC := by
    show sub_u16 ((s.PC + 2) % 65536) 2 = s.PC
    unfold sub_u16
    omega
  rw [emulate_FX0A s config rand X hX h1 h2, hscan]
  simp only [hany2, Bool.not_false, if_true]
  exact ⟨hpc, rfl, rfl, rfl, rfl, rfl, rfl, rfl, rfl⟩

/-- Witness of C7: `F30A` at `0x200` with an idle keypad. -/
theorem key_wait_refetch_witness :
    wf ex_F30A ∧ (∀ i, i < 16 → ex_F30A.keypad i = false) ∧
    (emulate_instruction ex_F30A set_config_from_args 0).PC = ex_F30A.PC :=
  ⟨wf_prog _ _ _ (by decide) (by decide) (fun _ _ => by simp [zeroed]),
   fun _ _ => rfl,
   (key_wait_refetch ex_F30A set_config_from_args 0 3 (by decide)
     (wf_prog _ _ _ (by decide) (by decide) (fun _ _ => by simp [zeroed]))
     rfl rfl rfl rfl (fun _ _ => rfl)).1⟩

/-- C8 as the code has it: if the instruction at `PC` is `FX0A`, no key is
pending and exactly one key `k` is down, then that cycle records `k` as the
pending key and re-fetches (program counter and registers unchanged); the
cycle of the same instruction that follows once key `k` is no longer down
completes it: afterwards `V[X] = k` and the program counter is the old
program counter plus 2. -/
theorem key_wait_completion (s : chip8_t) (config : config_t) (rand rand2 X k : Nat)
    (keypad2 : Nat → Bool) (hX : X < 16) (hk : k < 16)
    (hPC : s.PC + 1 < 4096)
    (h1 : s.ram s.PC = 0xF0 + X) (h2 : s.ram (s.PC + 1) = 0x0A)
    (hkey : s.key = 0xFF) (_hany : s.any_key_pressed = false)
    (hdown : ∀ i, i < 16 → (s.keypad i = true ↔ i = k))
    (hrel : keypad2 k = false) :
    (emulate_instruction s config rand).PC = s.PC ∧
    (emulate_instruction s config rand).V = s.V ∧
    (emulate_instruction s config rand).key = k ∧
    (emulate_instruction s config rand).any_key_pressed = true ∧
    (emulate_instruction
      { emulate_instruction s config rand with keypad := keypad2 } config rand2).V X = k ∧
    (emulate_instruction
      { emulate_instruction s config rand with keypad := keypad2 } config rand2).PC
        = s.PC + 2 := by
  have hkd : s.keypad k = true := (hdown k hk).2 rfl
  have hlow : ∀ j, 0 ≤ j → j < k → (fetch_decode s).keypad j = false := by
    intro j _ hj
    have : ¬ (s.keypad j = true) := fun h => by
      have := (hdown j (by omega)).1 h
      omega
    simpa using this
  have hscan := key_scan_found 16 0 k (fetch_decode s) hkey hk (Nat.zero_le _) (by omega)
    hlow hkd
  have hpc : sub_u16 (fetch_decode s).PC 2 = s.PC := by
    show sub_u16 ((s.PC + 2) % 65536) 2 = s.PC
    unfold sub_u16
    omega
  have hfirst : emulate_instruction s config rand =
      { fetch_decode s with key := k, any_key_pressed := true, PC := s.PC } := by
    rw [emulate_FX0A s config rand X hX h1 h2, hscan]
    simp only [Bool.not_true, Bool.false_eq_true, if_false]
    have : (fetch_decode s).keypad k = true := hkd
    simp only [this, if_true, hpc]
  refine ⟨by rw [hfirst], by rw [hfirst]; rfl, by rw [hfirst], by rw [hfirst], ?_⟩
  rw [hfirst]
  have hne : k ≠ 0xFF := by omega
  have hscan2 : ∀ c : chip8_t, c.key = k → key_scan 16 0 c = c := by
    intro c hc
    simp [key_scan, hc, hne]
  have hsecond : ∀ s2 : chip8_t, s2.ram = s.ram → s2.PC = s.PC → s2.key = k →
      s2.any_key_pressed = true → s2.keypad k = false →
      (emulate_instruction s2 config rand2).V X = k ∧
      (emulate_instruction s2 config rand2).PC = s.PC + 2 := by
    intro s2 hram hpc2 hk2 hany2 hkp2
    have h1b : s2.ram s2.PC = 0xF0 + X := by rw [hram, hpc2]; exact h1
    have h2b : s2.ram (s2.PC + 1) = 0x0A := by rw [hram, hpc2]; exact h2
    have hk2b : (fetch_decode s2).key = k := hk2
    have hany2b : (fetch_decode s2).any_key_pressed = true := hany2
    have hkp2b : (fetch_decode s2).keypad k = false := hkp2
    have hpc2b : (fetch_decode s2).PC = s.PC + 2 := by
      show (s2.PC + 2) % 65536 = s.PC + 2
      omega
    rw [emulate_FX0A s2 config rand2 X hX h1b h2b, hscan2 _ hk2b]
    simp only [hany2b, hk2b, hkp2b, Bool.not_true, Bool.false_eq_true, if_false, upd_same,
      true_and]
    exact hpc2b
  exact hsecond _ rfl rfl rfl rfl hrel

/-- Witness of the amended C8: `F30A` with key 5 down, then released. -/
theorem key_wait_completion_witness :
    (emulate_instruction ex_F30A_key5 set_config_from_args 0).PC = ex_F30A_key5.PC ∧
    (emulate_instruction
      { emulate_instruction ex_F30A_key5 set_config_from_args 0 with
        keypad := zeroed.keypad } set_config_from_args 0).V 3 = 5 ∧
    (emulate_instruction
      { emulate_instruction ex_F30A_key5 set_config_from_args 0 with
        keypad := zeroed.keypad } set_config_from_args 0).PC = ex_F30A_key5.PC + 2 :=
  have h := key_wait_completion ex_F30A_key5 set_config_from_args 0 0 3 5 zeroed.keypad
    (by decide) (by decide) (by decide) rfl rfl rfl rfl
    (fun i _ => by simp [ex_F30A_key5, upd, prog, zeroed])
    rfl
  ⟨h.1, h.2.2.2.2.1, h.2.2.2.2.2⟩

/-- Counterexample to C8 as stated: `F30A` at `0x200` with no key pending and
exactly key 5 down; after the cycle `V[3]` is still 0 (not 5) and the program
counter is still `0x200` (not `0x202`). -/
theorem key_wait_completion_counterexample :
    ex_F30A_key5.ram ex_F30A_key5.PC = 0xF0 + 3 ∧
    ex_F30A_key5.ram (ex_F30A_key5.PC + 1) = 0x0A ∧
    ex_F30A_key5.key = 0xFF ∧ ex_F30A_key5.any_key_pressed = false ∧
    (∀ i, i < 16 → (ex_F30A_key5.keypad i = true ↔ i = 5)) ∧
    ex_F30A_key5.PC = 0x200 ∧
    (emulate_instruction ex_F30A_key5 set_config_from_args 0).V 3 = 0 ∧
    (emulate_instruction ex_F30A_key5 set_config_from_args 0).PC = 0x200 := by
  refine ⟨rfl, rfl, rfl, rfl, fun i _ => by simp [ex_F30A_key5, upd, prog, zeroed], rfl, ?_, ?_⟩
  · rw [emulate_FX0A ex_F30A_key5 set_config_from_args 0 3 (by decide) rfl rfl]
    decide
  · rw [emulate_FX0A ex_F30A_key5 set_config_from_args 0 3 (by decide) rfl rfl]
    decide

/-! ## Bulk register store and load -/

/-- What the loop of `FX55` leaves behind when the index register does not
wrap. -/
theorem store_loop_spec (n i : Nat) (c : chip8_t) (hI0 : c.I < 65536)
    (hI : c.I + n ≤ 65536) :
    (store_loop n i c).I = (c.I + n) % 65536 ∧
    (store_loop n i c).V = c.V ∧
    (store_loop n i c).PC = c.PC ∧
    (∀ a, (store_loop n i c).ram a =
      if c.I ≤ a ∧ a < c.I + n then c.V (i + (a - c.I)) else c.ram a) := by
  induction n generalizing i c with
  | zero =>
    refine ⟨?_, rfl, rfl, fun a => ?_⟩
    · show c.I = (c.I + 0) % 65536
      omega
    · have : ¬ (c.I ≤ a ∧ a < c.I + 0) := by omega
      simp only [store_loop, this, if_false]
  | succ n ih =>
    have hlt : c.I < 65536 := by omega
    have hI1 : (c.I + 1) % 65536 = c.I + 1 ∨ n = 0 := by omega
    obtain ⟨h1, h2, h3, h4⟩ := ih (i + 1)
      { c with ram := upd c.ram c.I (c.V i), I := (c.I + 1) % 65536 }
      (by show (c.I + 1) % 65536 < 65536; omega)
      (by show (c.I + 1) % 65536 + n ≤ 65536; omega)
    simp only [store_loop]
    refine ⟨?_, h2, h3, fun a => ?_⟩
    · rw [h1]
      show ((c.I + 1) % 65536 + n) % 65536 = (c.I + (n + 1)) % 65536
      omega
    · rw [h4 a]
      show (if (c.I + 1) % 65536 ≤ a ∧ a < (c.I + 1) % 65536 + n
          then c.V (i + 1 + (a - (c.I + 1) % 65536)) else upd c.ram c.I (c.V i) a) = _
      by_cases ha : a = c.I
      · subst ha
        have hn1 : ¬ ((c.I + 1) % 65536 ≤ c.I ∧ c.I < (c.I + 1) % 65536 + n) := by omega
        have hn2 : c.I ≤ c.I ∧ c.I < c.I + (n + 1) := by omega
        simp only [hn1, hn2, if_false, if_true, upd_same, and_self, Nat.sub_self, Nat.add_zero]
      · rw [upd_of_ne _ _ _ _ ha]
        by_cases hr : c.I ≤ a ∧ a < c.I + (n + 1)
        · have hr2 : (c.I + 1) % 65536 ≤ a ∧ a < (c.I + 1) % 65536 + n := by omega
          have he : i + 1 + (a - (c.I + 1) % 65536) = i + (a - c.I) := by omega
          simp only [hr, hr2, he, and_self, if_true]
        · have hr2 : ¬ ((c.I + 1) % 65536 ≤ a ∧ a < (c.I + 1) % 65536 + n) := by omega
          simp only [hr, hr2, if_false]

/-- What the loop of `FX65` leaves behind when the index register does not
wrap. -/
theorem load_loop_spec (n i : Nat) (c : chip8_t) (hI0 : c.I < 65536)
    (hI : c.I + n ≤ 65536) :
    (load_loop n i c).I = (c.I + n) % 65536 ∧
    (load_loop n i c).ram = c.ram ∧
    (load_loop n i c).PC = c.PC ∧
    (∀ j, (load_loop n i c).V j =
      if i ≤ j ∧ j < i + n then c.ram (c.I + (j - i)) else c.V j) := by
  induction n generalizing i c with
  | zero =>
    refine ⟨?_, rfl, rfl, fun j => ?_⟩
    · show c.I = (c.I + 0) % 65536
      omega
    · have : ¬ (i ≤ j ∧ j < i + 0) := by omega
      simp only [load_loop, this, if_false]
  | succ n ih =>
    have hlt : c.I < 65536 := by omega
    have hI1 : (c.I + 1) % 65536 = c.I + 1 ∨ n = 0 := by omega
    obtain ⟨h1, h2, h3, h4⟩ := ih (i + 1)
      { c with V := upd c.V i (c.ram c.I), I := (c.I + 1) % 65536 }
      (by show (c.I + 1) % 65536 < 65536; omega)
      (by show (c.I + 1) % 65536 + n ≤ 65536; omega)
    simp only [load_loop]
    refine ⟨?_, h2, h3, fun j => ?_⟩
    · rw [h1]
      show ((c.I + 1) % 65536 + n) % 65536 = (c.I + (n + 1)) % 65536
      omega
    · rw [h4 j]
      show (if i + 1 ≤ j ∧ j < i + 1 + n
          then c.ram ((c.I + 1) % 65536 + (j - (i + 1))) else upd c.V i (c.ram c.I) j) = _
      by_cases hj : j = i
      · subst hj
        have hn1 : ¬ (j + 1 ≤ j ∧ j < j + 1 + n) := by omega
        have hn2 : j ≤ j ∧ j < j + (n + 1) := by omega
        simp only [hn1, hn2, if_false, if_true, upd_same, and_self, Nat.sub_self, Nat.add_zero]
      · rw [upd_of_ne _ _ _ _ hj]
        by_cases hr : i ≤ j ∧ j < i + (n + 1)
        · have hr2 : i + 1 ≤ j ∧ j < i + 1 + n := by omega
          have he : (c.I + 1) % 65536 + (j - (i + 1)) = c.I + (j - i) := by omega
          simp only [hr, hr2, he, and_self, if_true]
        · have hr2 : ¬ (i + 1 ≤ j ∧ j < i + 1 + n) := by omega
          simp only [hr, hr2, if_false]

/-- One cycle on `FX55`. -/
theorem emulate_FX55 (s : chip8_t) (config : config_t) (rand X : Nat) (hX : X < 16)
    (h1 : s.ram s.PC = 0xF0 + X) (h2 : s.ram (s.PC + 1) = 0x55) :
    emulate_instruction s config rand = store_loop (X + 1) 0 (fetch_decode s) := by
  obtain ⟨hfam, -, -, hNN, -, hXf, -⟩ :=
    decode_nibbles s 15 X 5 5 (by omega) hX (by omega) (by omega) (by omega) (by omega)
  simp [emulate_instruction, execute, hfam, hNN, hXf]

/-- One cycle on `FX65`. -/
theorem emulate_FX65 (s : chip8_t) (config : config_t) (rand X : Nat) (hX : X < 16)
    (h1 : s.ram s.PC = 0xF0 + X) (h2 : s.ram (s.PC + 1) = 0x65) :
    emulate_instruction s config rand = load_loop (X + 1) 0 (fetch_decode s) := by
  obtain ⟨hfam, -, -, hNN, -, hXf, -⟩ :=
    decode_nibbles s 15 X 6 5 (by omega) hX (by omega) (by omega) (by omega) (by omega)
  simp [emulate_instruction, execute, hfam, hNN, hXf]

/-- C9 (bulk register store and load): for `X` in 0..15 and `I + X <= 4095`,
`FX55` writes `ram[I + i] = V[i]` for `i` in 0..X, changes no other memory
byte and no register, and leaves `I` at the old `I + (X + 1)`; `FX65` sets
`V[i] = ram[I + i]` for `i` in 0..X, changes no register above `X` and no
memory, and leaves `I` at the old `I + (X + 1)`; hence after `FX55`, any
change of the registers, `I` reset to its old value and then `FX65`, the
registers `V[0..X]` hold their original values. -/
theorem bulk_store_load (s : chip8_t) (config : config_t) (rand X : Nat) (hX : X < 16)
    (hI : s.I + X ≤ 4095) :
    (s.ram s.PC = 0xF0 + X → s.ram (s.PC + 1) = 0x55 →
      (∀ i, i ≤ X → (emulate_instruction s config rand).ram (s.I + i) = s.V i) ∧
      (∀ a, (a < s.I ∨ s.I + X < a) → (emulate_instruction s config rand).ram a = s.ram a) ∧
      (emulate_instruction s config rand).V = s.V ∧
      (emulate_instruction s config rand).I = s.I + (X + 1)) ∧
    (s.ram s.PC = 0xF0 + X → s.ram (s.PC + 1) = 0x65 →
      (∀ i, i ≤ X → (emulate_instruction s config rand).V i = s.ram (s.I + i)) ∧
      (∀ j, X < j → (emulate_instruction s config rand).V j = s.V j) ∧
      (emulate_instruction s config rand).ram = s.ram ∧
      (emulate_instruction s config rand).I = s.I + (X + 1)) ∧
    (s.ram s.PC = 0xF0 + X → s.ram (s.PC + 1) = 0x55 →
      ∀ (s2 : chip8_t) (rand2 : Nat), s2.ram = (emulate_instruction s config rand).ram →
        s2.I = s.I → s2.ram s2.PC = 0xF0 + X → s2.ram (s2.PC + 1) = 0x65 →
        ∀ i, i ≤ X → (emulate_instruction s2 config rand2).V i = s.V i) := by
  have hstore : s.ram s.PC = 0xF0 + X → s.ram (s.PC + 1) = 0x55 →
      (emulate_instruction s config rand).I = s.I + (X + 1) ∧
      (emulate_instruction s config rand).V = s.V ∧
      (∀ a, (emulate_instruction s config rand).ram a =
        if s.I ≤ a ∧ a < s.I + (X + 1) then s.V (0 + (a - s.I)) else s.ram a) := by
    intro h1 h2
    obtain ⟨a1, a2, -, a4⟩ := store_loop_spec (X + 1) 0 (fetch_decode s)
      (by show s.I < 65536; omega) (by show s.I + (X + 1) ≤ 65536; omega)
    rw [emulate_FX55 s config rand X hX h1 h2]
    refine ⟨?_, a2, a4⟩
    rw [a1]
    show (s.I + (X + 1)) % 65536 = s.I + (X + 1)
    omega
  have hload : ∀ (t : chip8_t) (r : Nat), t.I + X ≤ 4095 → t.ram t.PC = 0xF0 + X →
      t.ram (t.PC + 1) = 0x65 →
      (emulate_instruction t config r).I = t.I + (X + 1) ∧
      (emulate_instruction t config r).ram = t.ram ∧
      (∀ j, (emulate_instruction t config r).V j =
        if 0 ≤ j ∧ j < 0 + (X + 1) then t.ram (t.I + (j - 0)) else t.V j) := by
    intro t r htI h1 h2
    obtain ⟨a1, a2, -, a4⟩ := load_loop_spec (X + 1) 0 (fetch_decode t)
      (by show t.I < 65536; omega) (by show t.I + (X + 1) ≤ 65536; omega)
    rw [emulate_FX65 t config r X hX h1 h2]
    refine ⟨?_, a2, a4⟩
    rw [a1]
    show (t.I + (X + 1)) % 65536 = t.I + (X + 1)
    omega
  refine ⟨fun h1 h2 => ?_, fun h1 h2 => ?_, fun h1 h2 s2 rand2 hram hI2 h3 h4 i hi => ?_⟩
  · obtain ⟨b1, b2, b3⟩ := hstore h1 h2
    refine ⟨fun i hi => ?_, fun a ha => ?_, b2, b1⟩
    · rw [b3]
      have hc : s.I ≤ s.I + i ∧ s.I + i < s.I + (X + 1) := by omega
      have he : 0 + (s.I + i - s.I) = i := by omega
      simp only [hc, he, and_self, if_true]
    · rw [b3]
      have hc : ¬ (s.I ≤ a ∧ a < s.I + (X + 1)) := by omega
      simp only [hc, if_false]
  · obtain ⟨b1, b2, b3⟩ := hload s rand hI h1 h2
    refine ⟨fun i hi => ?_, fun j hj => ?_, b2, b1⟩
    · rw [b3]
      have hc : 0 ≤ i ∧ i < 0 + (X + 1) := by omega
      simp only [hc, and_self, if_true, Nat.sub_zero]
    · rw [b3]
      have hc : ¬ (0 ≤ j ∧ j < 0 + (X + 1)) := by omega
      simp only [hc, if_false]
  · obtain ⟨-, -, b3⟩ := hstore h1 h2
    obtain ⟨-, -, c3⟩ := hload s2 rand2 (by omega) h3 h4
    rw [c3]
    have hc : 0 ≤ i ∧ i < 0 + (X + 1) := by omega
    simp only [hc, and_self, if_true, Nat.sub_zero]
    rw [hram, b3, hI2]
    have hc2 : s.I ≤ s.I + i ∧ s.I + i < s.I + (X + 1) := by omega
    have he : 0 + (s.I + i - s.I) = i := by omega
    simp only [hc2, he, and_self, if_true]

/-- Witness of C9 with `X = 1`: `F155` then `F165` at `0x200` with
`I = 0x300`, and `F165` alone with `I = 0`. -/
theorem bulk_store_load_witness :
    ((∀ i, i ≤ 1 →
        (emulate_instruction ex_F155_F165 set_config_from_args 0).ram (ex_F155_F165.I + i)
          = ex_F155_F165.V i) ∧
      (emulate_instruction ex_F155_F165 set_config_from_args 0).I = ex_F155_F165.I + (1 + 1)) ∧
    ((∀ i, i ≤ 1 →
        (emulate_instruction ex_F165 set_config_from_args 0).V i = ex_F165.ram (ex_F165.I + i)) ∧
      (emulate_instruction ex_F165 set_config_from_args 0).I = ex_F165.I + (1 + 1)) ∧
    (∀ i, i ≤ 1 →
      (emulate_instruction
        { emulate_instruction ex_F155_F165 set_config_from_args 0 with
          I := ex_F155_F165.I, V := zeroed.V } set_config_from_args 0).V i
        = ex_F155_F165.V i) :=
  ⟨⟨((bulk_store_load ex_F155_F165 set_config_from_args 0 1 (by decide) (by decide)).1
        rfl rfl).1,
    ((bulk_store_load ex_F155_F165 set_config_from_args 0 1 (by decide) (by decide)).1
        rfl rfl).2.2.2⟩,
   ⟨((bulk_store_load ex_F165 set_config_from_args 0 1 (by decide) (by decide)).2.1
        rfl rfl).1,
    ((bulk_store_load ex_F165 set_config_from_args 0 1 (by decide) (by decide)).2.1
        rfl rfl).2.2.2⟩,
   (bulk_store_load ex_F155_F165 set_config_from_args 0 1 (by decide) (by decide)).2.2
      rfl rfl
      { emulate_instruction ex_F155_F165 set_config_from_args 0 with
        I := ex_F155_F165.I, V := zeroed.V } 0 rfl rfl (by decide) (by decide)⟩

/-! ## Call and return -/

/-- One cycle on `2NNN`, the low byte of the instruction being `lo`. -/
theorem emulate_2NNN (s : chip8_t) (config : config_t) (rand X lo : Nat) (hX : X < 16)
    (hlo : lo < 256) (h1 : s.ram s.PC = 0x20 + X) (h2 : s.ram (s.PC + 1) = lo) :
    emulate_instruction s config rand =
      { fetch_decode s with
        stack := upd s.stack s.stack_ptr ((s.PC + 2) % 65536)
        stack_ptr := s.stack_ptr + 1
        PC := 256 * X + lo } := by
  obtain ⟨hfam, -, hNNN, -, -, -, -⟩ := decode s _ _ h1 h2 (by omega) hlo
  have e1 : (0x20 + X) / 16 = 2 := by omega
  have e2 : (256 * (0x20 + X) + lo) % 4096 = 256 * X + lo := by omega
  rw [e1] at hfam
  rw [e2] at hNNN
  have hst : (fetch_decode s).stack = s.stack := rfl
  have hsp : (fetch_decode s).stack_ptr = s.stack_ptr := rfl
  have hpc : (fetch_decode s).PC = (s.PC + 2) % 65536 := rfl
  simp [emulate_instruction, execute, hfam, hNNN, hst, hsp, hpc]

/-- One cycle on `00EE`. -/
theorem emulate_00EE (s : chip8_t) (config : config_t) (rand : Nat)
    (h1 : s.ram s.PC = 0x00) (h2 : s.ram (s.PC + 1) = 0xEE) :
    emulate_instruction s config rand =
      { fetch_decode s with
        stack_ptr := s.stack_ptr - 1
        PC := s.stack (s.stack_ptr - 1) } := by
  obtain ⟨hfam, -, -, hNN, -, -, -⟩ := decode s _ _ h1 h2 (by omega) (by omega)
  have e1 : 0x00 / 16 = 0 := by omega
  rw [e1] at hfam
  have hst : (fetch_decode s).stack = s.stack := rfl
  have hsp : (fetch_decode s).stack_ptr = s.stack_ptr := rfl
  simp [emulate_instruction, execute, hfam, hNN, hst, hsp]

/-- C10 (call/return round trip): for every state whose call stack holds
fewer than 12 entries and whose `PC = A <= 4094` holds a call `2NNN`, with
the return `00EE` stored at `NNN`: after the first cycle `PC = NNN` and the
top stack entry is `A + 2`; after the second cycle `PC = A + 2` and the stack
depth is the one before the call. -/
theorem call_return (s : chip8_t) (config : config_t) (rand rand2 X lo : Nat)
    (hX : X < 16) (hlo : lo < 256)
    (_hsp0 : 0 ≤ s.stack_ptr) (_hsp : s.stack_ptr < 12) (hPC : s.PC ≤ 4094)
    (h1 : s.ram s.PC = 0x20 + X) (h2 : s.ram (s.PC + 1) = lo)
    (h3 : s.ram (256 * X + lo) = 0x00) (h4 : s.ram (256 * X + lo + 1) = 0xEE) :
    (emulate_instruction s config rand).PC = 256 * X + lo ∧
    (emulate_instruction s config rand).stack_ptr = s.stack_ptr + 1 ∧
    (emulate_instruction s config rand).stack
      ((emulate_instruction s config rand).stack_ptr - 1) = s.PC + 2 ∧
    (emulate_instruction (emulate_instruction s config rand) config rand2).PC = s.PC + 2 ∧
    (emulate_instruction (emulate_instruction s config rand) config rand2).stack_ptr
      = s.stack_ptr := by
  have hcall := emulate_2NNN s config rand X lo hX hlo h1 h2
  have hpc2 : (s.PC + 2) % 65536 = s.PC + 2 := by omega
  rw [hpc2] at hcall
  have hret := emulate_00EE (emulate_instruction s config rand) config rand2
    (by rw [hcall]; exact h3) (by rw [hcall]; exact h4)
  rw [hret, hcall]
  refine ⟨rfl, rfl, ?_, ?_, ?_⟩
  · show upd s.stack s.stack_ptr (s.PC + 2) (s.stack_ptr + 1 - 1) = s.PC + 2
    rw [Int.add_sub_cancel, upd_same]
  · show upd s.stack s.stack_ptr (s.PC + 2) (s.stack_ptr + 1 - 1) = s.PC + 2
    rw [Int.add_sub_cancel, upd_same]
  · show s.stack_ptr + 1 - 1 = s.stack_ptr
    omega

/-- Witness of C10: `2300` at `0x200`, `00EE` at `0x300`, stack depth 2. -/
theorem call_return_witness :
    (emulate_instruction ex_call_ret set_config_from_args 0).PC = 256 * 3 + 0 ∧
    (emulate_instruction ex_call_ret set_config_from_args 0).stack_ptr
      = ex_call_ret.stack_ptr + 1 ∧
    (emulate_instruction ex_call_ret set_config_from_args 0).stack
      ((emulate_instruction ex_call_ret set_config_from_args 0).stack_ptr - 1)
      = ex_call_ret.PC + 2 ∧
    (emulate_instruction (emulate_instruction ex_call_ret set_config_from_args 0)
      set_config_from_args 0).PC = ex_call_ret.PC + 2 ∧
    (emulate_instruction (emulate_instruction ex_call_ret set_config_from_args 0)
      set_config_from_args 0).stack_ptr = ex_call_ret.stack_ptr :=
  call_return ex_call_ret set_config_from_args 0 0 3 0 (by decide) (by decide)
    (by decide) (by decide) (by decide) rfl rfl rfl rfl

/-! ## Sprite drawing -/

theorem draw_cols_succ (config : config_t) (d y j x : Nat) (c : chip8_t) :
    draw_cols config d y (j + 1) x c =
      if (x + 1) % 256 ≥ config.window_width then xor_pixel config d y j x c
      else draw_cols config d y j ((x + 1) % 256) (xor_pixel config d y j x c) := rfl

/-- One step of the column loop on the 64x32 display. -/
theorem draw_cols_step (d y j x : Nat) (c : chip8_t) (hx : x < 64) :
    draw_cols set_config_from_args d y (j + 1) x c =
      if x = 63 then xor_pixel set_config_from_args d y j x c
      else draw_cols set_config_from_args d y j (x + 1)
        (xor_pixel set_config_from_args d y j x c) := by
  rw [draw_cols_succ]
  have h1 : (x + 1) % 256 = x + 1 := by omega
  rw [h1]
  show (if x + 1 ≥ 64 then _ else _) = _
  by_cases h : x = 63
  · have h2 : x + 1 ≥ 64 := by omega
    rw [if_pos h2, if_pos h]
  · have h2 : ¬ (x + 1 ≥ 64) := by omega
    rw [if_neg h2, if_neg h]

theorem xor_pixel_ram (config : config_t) (d y j x : Nat) (c : chip8_t) :
    (xor_pixel config d y j x c).ram = c.ram ∧ (xor_pixel config d y j x c).I = c.I := by
  unfold xor_pixel
  constructor <;> (simp only []; split <;> rfl)

theorem xor_pixel_display (d y j x : Nat) (c : chip8_t) (hx : x < 64) (hy : y < 32) :
    (xor_pixel set_config_from_args d y j x c).display =
      upd c.display (64 * y + x) (xor (c.display (64 * y + x)) (d.testBit j)) := by
  have hidx : (y * set_config_from_args.window_width + x) % 4294967296 = 64 * y + x := by
    show (y * 64 + x) % 4294967296 = 64 * y + x
    omega
  unfold xor_pixel
  simp only [hidx, and_shl_ne_zero]
  split <;> rfl

theorem xor_pixel_V (d y j x : Nat) (c : chip8_t) (hx : x < 64) (hy : y < 32) :
    (xor_pixel set_config_from_args d y j x c).V =
      if (d.testBit j && c.display (64 * y + x)) = true then upd c.V 0xF 1 else c.V := by
  have hidx : (y * set_config_from_args.window_width + x) % 4294967296 = 64 * y + x := by
    show (y * 64 + x) % 4294967296 = 64 * y + x
    omega
  unfold xor_pixel
  simp only [hidx, and_shl_ne_zero]
  split <;> rfl

theorem xor_pixel_V_other (config : config_t) (d y j x k : Nat) (c : chip8_t) (hk : k ≠ 0xF) :
    (xor_pixel config d y j x c).V k = c.V k := by
  unfold xor_pixel
  simp only []
  split
  · exact upd_of_ne _ _ _ _ hk
  · rfl

/-- The column loop changes neither memory nor the index register nor any
register other than `V[F]`. -/
theorem draw_cols_frame (config : config_t) (d y n x : Nat) (c : chip8_t) :
    (draw_cols config d y n x c).ram = c.ram ∧
    (draw_cols config d y n x c).I = c.I ∧
    (∀ k, k ≠ 0xF → (draw_cols config d y n x c).V k = c.V k) := by
  induction n generalizing x c with
  | zero => exact ⟨rfl, rfl, fun _ _ => rfl⟩
  | succ n ih =>
    rw [draw_cols_succ]
    have hp := xor_pixel_ram config d y n x c
    split
    · exact ⟨hp.1, hp.2, fun k hk => xor_pixel_V_other config d y n x k c hk⟩
    · obtain ⟨h1, h2, h3⟩ := ih ((x + 1) % 256) (xor_pixel config d y n x c)
      exact ⟨h1.trans hp.1, h2.trans hp.2,
        fun k hk => (h3 k hk).trans (xor_pixel_V_other config d y n x k c hk)⟩

/-- The cells the column loop leaves behind on the 64x32 display. -/
theorem draw_cols_display (d y : Nat) (hy : y < 32) (n x : Nat) (c : chip8_t) (hx : x < 64)
    (p : Nat) :
    (draw_cols set_config_from_args d y n x c).display p =
      if p / 64 = y ∧ x ≤ p % 64 ∧ p % 64 < x + n then
        xor (c.display p) (d.testBit (x + n - 1 - p % 64))
      else c.display p := by
  induction n generalizing x c with
  | zero =>
    have hc : ¬ (p / 64 = y ∧ x ≤ p % 64 ∧ p % 64 < x + 0) := by omega
    rw [if_neg hc]
    rfl
  | succ n ih =>
    rw [draw_cols_step d y n x c hx]
    have hd := xor_pixel_display d y n x c hx hy
    by_cases h63 : x = 63
    · rw [if_pos h63, hd, upd_apply]
      by_cases hp : p = 64 * y + x
      · have hc : p / 64 = y ∧ x ≤ p % 64 ∧ p % 64 < x + (n + 1) := by omega
        have he : x + (n + 1) - 1 - p % 64 = n := by omega
        rw [if_pos hp, if_pos hc, he, hp]
      · have hc : ¬ (p / 64 = y ∧ x ≤ p % 64 ∧ p % 64 < x + (n + 1)) := by omega
        rw [if_neg hp, if_neg hc]
    · rw [if_neg h63, ih (x + 1) _ (by omega), hd, upd_apply]
      by_cases hp : p = 64 * y + x
      · have hc : p / 64 = y ∧ x ≤ p % 64 ∧ p % 64 < x + (n + 1) := by omega
        have hc2 : ¬ (p / 64 = y ∧ x + 1 ≤ p % 64 ∧ p % 64 < x + 1 + n) := by omega
        have he : x + (n + 1) - 1 - p % 64 = n := by omega
        rw [if_pos hp, if_pos hc, if_neg hc2, he, hp]
      · rw [if_neg hp]
        by_cases hc : p / 64 = y ∧ x ≤ p % 64 ∧ p % 64 < x + (n + 1)
        · have hc2 : p / 64 = y ∧ x + 1 ≤ p % 64 ∧ p % 64 < x + 1 + n := by omega
          have he : x + 1 + n - 1 - p % 64 = x + (n + 1) - 1 - p % 64 := by omega
          rw [if_pos hc, if_pos hc2, he]
        · have hc2 : ¬ (p / 64 = y ∧ x + 1 ≤ p % 64 ∧ p % 64 < x + 1 + n) := by omega
          rw [if_neg hc, if_neg hc2]

theorem row_hit_zero (d y x : Nat) (disp : Nat → Bool) : ¬ row_hit d y x 0 disp := by
  rintro ⟨p, -, h1, h2, -⟩
  omega

theorem row_hit_succ (d y x n : Nat) (disp : Nat → Bool) (hx : x < 64) :
    row_hit d y x (n + 1) disp ↔
      ((d.testBit n && disp (64 * y + x)) = true ∨ row_hit d y (x + 1) n disp) := by
  constructor
  · rintro ⟨p, h1, h2, h3, h4, h5⟩
    by_cases hp : p = 64 * y + x
    · left
      have he : x + (n + 1) - 1 - p % 64 = n := by omega
      rw [he] at h5
      rw [hp] at h4
      simp [h4, h5]
    · right
      have he : x + (n + 1) - 1 - p % 64 = x + 1 + n - 1 - p % 64 := by omega
      rw [he] at h5
      exact ⟨p, h1, by omega, by omega, h4, h5⟩
  · rintro (h | ⟨p, h1, h2, h3, h4, h5⟩)
    · have h' : d.testBit n = true ∧ disp (64 * y + x) = true := by simpa using h
      refine ⟨64 * y + x, by omega, by omega, by omega, h'.2, ?_⟩
      have he : x + (n + 1) - 1 - (64 * y + x) % 64 = n := by omega
      rw [he]
      exact h'.1
    · have he : x + 1 + n - 1 - p % 64 = x + (n + 1) - 1 - p % 64 := by omega
      rw [he] at h5
      exact ⟨p, h1, by omega, by omega, h4, h5⟩

theorem row_hit_congr (d y x n : Nat) (disp1 disp2 : Nat → Bool)
    (h : ∀ p, p / 64 = y → x ≤ p % 64 → disp1 p = disp2 p) :
    row_hit d y x n disp1 ↔ row_hit d y x n disp2 := by
  constructor
  · rintro ⟨p, h1, h2, h3, h4, h5⟩
    exact ⟨p, h1, h2, h3, by rw [← h p h1 h2]; exact h4, h5⟩
  · rintro ⟨p, h1, h2, h3, h4, h5⟩
    exact ⟨p, h1, h2, h3, by rw [h p h1 h2]; exact h4, h5⟩

/-- The flag the column loop leaves behind on the 64x32 display. -/
theorem draw_cols_flag (d y : Nat) (hy : y < 32) (n x : Nat) (c : chip8_t) (hx : x < 64) :
    ((draw_cols set_config_from_args d y n x c).V 0xF = 1 ∨
      (draw_cols set_config_from_args d y n x c).V 0xF = c.V 0xF) ∧
    ((draw_cols set_config_from_args d y n x c).V 0xF = 1 ↔
      (c.V 0xF = 1 ∨ row_hit d y x n c.display)) := by
  induction n generalizing x c with
  | zero =>
    refine ⟨Or.inr rfl, ?_⟩
    have := row_hit_zero d y x c.display
    show c.V 0xF = 1 ↔ _
    tauto
  | succ n ih =>
    rw [draw_cols_step d y n x c hx]
    have hd := xor_pixel_display d y n x c hx hy
    have hv := xor_pixel_V d y n x c hx hy
    have hs := row_hit_succ d y x n c.display hx
    have hv15 : (xor_pixel set_config_from_args d y n x c).V 0xF =
        if (d.testBit n && c.display (64 * y + x)) = true then 1 else c.V 0xF := by
      rw [hv]
      split
      · exact upd_same _ _ _
      · rfl
    by_cases h63 : x = 63
    · rw [if_pos h63]
      have hno : ¬ row_hit d y (x + 1) n c.display := by
        rintro ⟨p, -, h1, -⟩
        omega
      rw [hv15, hs]
      by_cases hit : (d.testBit n && c.display (64 * y + x)) = true
      · rw [if_pos hit]
        exact ⟨Or.inl rfl, by tauto⟩
      · rw [if_neg hit]
        exact ⟨Or.inr rfl, by tauto⟩
    · rw [if_neg h63]
      obtain ⟨i1, i2⟩ := ih (x + 1) (xor_pixel set_config_from_args d y n x c) (by omega)
      have hc := row_hit_congr d y (x + 1) n
        (xor_pixel set_config_from_args d y n x c).display c.display
        (fun p h1 h2 => by
          rw [hd]
          exact upd_of_ne _ _ _ _ (by omega))
      by_cases hit : (d.testBit n && c.display (64 * y + x)) = true
      · rw [if_pos hit] at hv15
        have hR := i2.2 (Or.inl hv15)
        exact ⟨Or.inl hR, fun _ => Or.inr (hs.2 (Or.inl hit)), fun _ => hR⟩
      · rw [if_neg hit] at hv15
        rw [hv15] at i1 i2
        refine ⟨i1, ?_⟩
        rw [i2, hc, hs]
        tauto

theorem draw_rows_succ (config : config_t) (x0 n i y : Nat) (c : chip8_t) :
    draw_rows config x0 (n + 1) i y c =
      if (y + 1) % 256 ≥ config.window_height then
        draw_cols config (c.ram (c.I + i)) y 8 x0 c
      else draw_rows config x0 n (i + 1) ((y + 1) % 256)
        (draw_cols config (c.ram (c.I + i)) y 8 x0 c) := rfl

/-- One step of the row loop on the 64x32 display. -/
theorem draw_rows_step (x0 n i y : Nat) (c : chip8_t) (hy : y < 32) :
    draw_rows set_config_from_args x0 (n + 1) i y c =
      if y = 31 then draw_cols set_config_from_args (c.ram (c.I + i)) y 8 x0 c
      else draw_rows set_config_from_args x0 n (i + 1) (y + 1)
        (draw_cols set_config_from_args (c.ram (c.I + i)) y 8 x0 c) := by
  rw [draw_rows_succ]
  have h1 : (y + 1) % 256 = y + 1 := by omega
  rw [h1]
  show (if y + 1 ≥ 32 then _ else _) = _
  by_cases h : y = 31
  · have h2 : y + 1 ≥ 32 := by omega
    rw [if_pos h2, if_pos h]
  · have h2 : ¬ (y + 1 ≥ 32) := by omega
    rw [if_neg h2, if_neg h]

/-- The row loop changes neither memory nor the index register nor any
register other than `V[F]`. -/
theorem draw_rows_frame (config : config_t) (x0 n i y : Nat) (c : chip8_t) :
    (draw_rows config x0 n i y c).ram = c.ram ∧
    (draw_rows config x0 n i y c).I = c.I ∧
    (∀ k, k ≠ 0xF → (draw_rows config x0 n i y c).V k = c.V k) := by
  induction n generalizing i y c with
  | zero => exact ⟨rfl, rfl, fun _ _ => rfl⟩
  | succ n ih =>
    rw [draw_rows_succ]
    obtain ⟨f1, f2, f3⟩ := draw_cols_frame config (c.ram (c.I + i)) y 8 x0 c
    split
    · exact ⟨f1, f2, f3⟩
    · obtain ⟨h1, h2, h3⟩ := ih (i + 1) ((y + 1) % 256)
        (draw_cols config (c.ram (c.I + i)) y 8 x0 c)
      exact ⟨h1.trans f1, h2.trans f2, fun k hk => (h3 k hk).trans (f3 k hk)⟩

/-- The cells the row loop leaves behind on the 64x32 display. -/
theorem draw_rows_display (x0 : Nat) (hx : x0 < 64) (n i y : Nat) (c : chip8_t)
    (hy : y < 32) (p : Nat) :
    (draw_rows set_config_from_args x0 n i y c).display p =
      if y ≤ p / 64 ∧ p / 64 < y + n ∧ p / 64 < 32 ∧ x0 ≤ p % 64 ∧ p % 64 < x0 + 8 then
        xor (c.display p) ((c.ram (c.I + (i + (p / 64 - y)))).testBit (x0 + 8 - 1 - p % 64))
      else c.display p := by
  induction n generalizing i y c with
  | zero =>
    have hc : ¬ (y ≤ p / 64 ∧ p / 64 < y + 0 ∧ p / 64 < 32 ∧ x0 ≤ p % 64 ∧ p % 64 < x0 + 8) := by
      omega
    rw [if_neg hc]
    rfl
  | succ n ih =>
    rw [draw_rows_step x0 n i y c hy]
    obtain ⟨f1, f2, -⟩ := draw_cols_frame set_config_from_args (c.ram (c.I + i)) y 8 x0 c
    have hd := draw_cols_display (c.ram (c.I + i)) y hy 8 x0 c hx p
    by_cases hrow : p / 64 = y ∧ x0 ≤ p % 64 ∧ p % 64 < x0 + 8
    · rw [if_pos hrow] at hd
      have hc : y ≤ p / 64 ∧ p / 64 < y + (n + 1) ∧ p / 64 < 32 ∧ x0 ≤ p % 64 ∧
          p % 64 < x0 + 8 := by omega
      have he : i + (p / 64 - y) = i := by omega
      rw [if_pos hc, he]
      by_cases h31 : y = 31
      · rw [if_pos h31, hd]
      · have hc2 : ¬ (y + 1 ≤ p / 64 ∧ p / 64 < y + 1 + n ∧ p / 64 < 32 ∧ x0 ≤ p % 64 ∧
            p % 64 < x0 + 8) := by omega
        rw [if_neg h31, ih (i + 1) (y + 1) _ (by omega), if_neg hc2, hd]
    · rw [if_neg hrow] at hd
      by_cases h31 : y = 31
      · have hc : ¬ (y ≤ p / 64 ∧ p / 64 < y + (n + 1) ∧ p / 64 < 32 ∧ x0 ≤ p % 64 ∧
            p % 64 < x0 + 8) := by omega
        rw [if_pos h31, hd, if_neg hc]
      · rw [if_neg h31, ih (i + 1) (y + 1) _ (by omega), hd, f1, f2]
        by_cases hc : y ≤ p / 64 ∧ p / 64 < y + (n + 1) ∧ p / 64 < 32 ∧ x0 ≤ p % 64 ∧
            p % 64 < x0 + 8
        · have hc2 : y + 1 ≤ p / 64 ∧ p / 64 < y + 1 + n ∧ p / 64 < 32 ∧ x0 ≤ p % 64 ∧
              p % 64 < x0 + 8 := by omega
          have he : i + 1 + (p / 64 - (y + 1)) = i + (p / 64 - y) := by omega
          rw [if_pos hc, if_pos hc2, he]
        · have hc2 : ¬ (y + 1 ≤ p / 64 ∧ p / 64 < y + 1 + n ∧ p / 64 < 32 ∧ x0 ≤ p % 64 ∧
              p % 64 < x0 + 8) := by omega
          rw [if_neg hc, if_neg hc2]

theorem rect_hit_zero (ram : Nat → Nat) (I x0 y i : Nat) (disp : Nat → Bool) :
    ¬ rect_hit ram I x0 y 0 i disp := by
  rintro ⟨p, h1, h2, -⟩
  omega

theorem rect_hit_succ (ram : Nat → Nat) (I x0 y n i : Nat) (disp : Nat → Bool) (hy : y < 32) :
    rect_hit ram I x0 y (n + 1) i disp ↔
      (row_hit (ram (I + i)) y x0 8 disp ∨ rect_hit ram I x0 (y + 1) n (i + 1) disp) := by
  constructor
  · rintro ⟨p, h1, h2, h3, h4, h5, h6, h7⟩
    by_cases hp : p / 64 = y
    · left
      have he : i + (p / 64 - y) = i := by omega
      rw [he] at h7
      exact ⟨p, hp, h4, h5, h6, h7⟩
    · right
      have he : i + (p / 64 - y) = i + 1 + (p / 64 - (y + 1)) := by omega
      rw [he] at h7
      exact ⟨p, by omega, by omega, h3, h4, h5, h6, h7⟩
  · rintro (⟨p, h1, h2, h3, h4, h5⟩ | ⟨p, h1, h2, h3, h4, h5, h6, h7⟩)
    · have he : i = i + (p / 64 - y) := by omega
      rw [he] at h5
      exact ⟨p, by omega, by omega, by omega, h2, h3, h4, h5⟩
    · have he : i + 1 + (p / 64 - (y + 1)) = i + (p / 64 - y) := by omega
      rw [he] at h7
      exact ⟨p, by omega, by omega, h3, h4, h5, h6, h7⟩

theorem rect_hit_congr (ram : Nat → Nat) (I x0 y n i : Nat) (disp1 disp2 : Nat → Bool)
    (h : ∀ p, y ≤ p / 64 → disp1 p = disp2 p) :
    rect_hit ram I x0 y n i disp1 ↔ rect_hit ram I x0 y n i disp2 := by
  constructor
  · rintro ⟨p, h1, h2, h3, h4, h5, h6, h7⟩
    exact ⟨p, h1, h2, h3, h4, h5, by rw [← h p h1]; exact h6, h7⟩
  · rintro ⟨p, h1, h2, h3, h4, h5, h6, h7⟩
    exact ⟨p, h1, h2, h3, h4, h5, by rw [h p h1]; exact h6, h7⟩

theorem iff_or_chain (P Q A B C : Prop) (h1 : P ↔ Q ∨ A) (h2 : Q ↔ C ∨ B) :
    P ↔ C ∨ (B ∨ A) := by
  rw [h1, h2]
  tauto

theorem iff_or_last (P A B C : Prop) (h1 : P ↔ C ∨ B) (hA : ¬ A) : P ↔ C ∨ (B ∨ A) := by
  rw [h1]
  tauto

/-- The flag the row loop leaves behind on the 64x32 display. -/
theorem draw_rows_flag (x0 : Nat) (hx : x0 < 64) (n i y : Nat) (c : chip8_t) (hy : y < 32) :
    ((draw_rows set_config_from_args x0 n i y c).V 0xF = 1 ∨
      (draw_rows set_config_from_args x0 n i y c).V 0xF = c.V 0xF) ∧
    ((draw_rows set_config_from_args x0 n i y c).V 0xF = 1 ↔
      (c.V 0xF = 1 ∨ rect_hit c.ram c.I x0 y n i c.display)) := by
  induction n generalizing i y c with
  | zero =>
    have hz := rect_hit_zero c.ram c.I x0 y i c.display
    exact ⟨Or.inr rfl, fun h => Or.inl h, fun h => h.elim id (fun h2 => absurd h2 hz)⟩
  | succ n ih =>
    rw [draw_rows_step x0 n i y c hy]
    obtain ⟨f1, f2, -⟩ := draw_cols_frame set_config_from_args (c.ram (c.I + i)) y 8 x0 c
    obtain ⟨j1, j2⟩ := draw_cols_flag (c.ram (c.I + i)) y hy 8 x0 c hx
    have hs := rect_hit_succ c.ram c.I x0 y n i c.display hy
    by_cases h31 : y = 31
    · rw [if_pos h31]
      have hno : ¬ rect_hit c.ram c.I x0 (y + 1) n (i + 1) c.display := by
        rintro ⟨p, h1, -, h3, -⟩
        omega
      refine ⟨j1, ?_⟩
      rw [hs]
      exact iff_or_last _ _ _ _ j2 hno
    · rw [if_neg h31]
      obtain ⟨i1, i2⟩ := ih (i + 1) (y + 1)
        (draw_cols set_config_from_args (c.ram (c.I + i)) y 8 x0 c) (by omega)
      have hc := rect_hit_congr c.ram c.I x0 (y + 1) n (i + 1)
        (draw_cols set_config_from_args (c.ram (c.I + i)) y 8 x0 c).display c.display
        (fun p h1 => by
          rw [draw_cols_display (c.ram (c.I + i)) y hy 8 x0 c hx p]
          exact if_neg (by omega))
      rw [f1, f2, hc] at i2
      constructor
      · rcases i1 with h | h
        · exact Or.inl h
        · rcases j1 with h1 | h1
          · exact Or.inl (h.trans h1)
          · exact Or.inr (h.trans h1)
      · rw [hs]
        exact iff_or_chain _ _ _ _ _ i2 j2

/-- One cycle on `DXYN` with the 64x32 configuration. -/
theorem emulate_DXYN (s : chip8_t) (rand X Y N : Nat) (hX : X < 16) (hY : Y < 16)
    (hN : N < 16) (h1 : s.ram s.PC = 0xD0 + X) (h2 : s.ram (s.PC + 1) = 0x10 * Y + N) :
    emulate_instruction s set_config_from_args rand =
      { draw_rows set_config_from_args (s.V X % 64) N 0 (s.V Y % 32)
          { fetch_decode s with V := upd s.V 0xF 0 } with draw := true } := by
  obtain ⟨hfam, -, -, -, hNf, hXf, hYf⟩ :=
    decode_nibbles s 13 X Y N (by omega) hX hY hN (by omega) (by omega)
  have hVe : (fetch_decode s).V = s.V := rfl
  have hw : set_config_from_args.window_width = 64 := rfl
  have hh : set_config_from_args.window_height = 32 := rfl
  have e1 : s.V X % 64 % 256 = s.V X % 64 := by omega
  have e2 : s.V Y % 32 % 256 = s.V Y % 32 := by omega
  simp [emulate_instruction, execute, hfam, hNf, hXf, hYf, hVe, hw, hh, e1, e2]

/-- The collision of the reference definition is the one the loops detect. -/
theorem rect_hit_iff_collision (s : chip8_t) (X Y N : Nat) :
    rect_hit s.ram s.I (s.V X % 64) (s.V Y % 32) N 0 s.display ↔ draw_collision s X Y N := by
  constructor
  · rintro ⟨p, h1, h2, h3, h4, h5, h6, h7⟩
    refine ⟨p % 64, p / 64, ⟨h4, by omega, h1, by omega⟩, ?_, ?_⟩
    · have he : 64 * (p / 64) + p % 64 = p := by omega
      rw [he]
      exact h6
    · unfold sprite_bit
      have he1 : 0 + (p / 64 - s.V Y % 32) = p / 64 - s.V Y % 32 := by omega
      have he2 : s.V X % 64 + 8 - 1 - p % 64 = 7 - (p % 64 - s.V X % 64) := by omega
      rw [he1, he2] at h7
      exact h7
  · rintro ⟨x, y, ⟨a1, a2, a3, a4⟩, h6, h7⟩
    have hx : x < 64 := by omega
    have hd : (64 * y + x) / 64 = y := by omega
    have hm : (64 * y + x) % 64 = x := by omega
    refine ⟨64 * y + x, by omega, by omega, by omega, by omega, by omega, h6, ?_⟩
    unfold sprite_bit at h7
    rw [hd, hm]
    have he1 : 0 + (y - s.V Y % 32) = y - s.V Y % 32 := by omega
    have he2 : s.V X % 64 + 8 - 1 - x = 7 - (x - s.V X % 64) := by omega
    rw [he1, he2]
    exact h7

/-- The display, flag and frame of one cycle on `DXYN`. -/
theorem draw_spec (s : chip8_t) (rand X Y N : Nat) (hX : X < 16) (hY : Y < 16)
    (hN : N < 16) (h1 : s.ram s.PC = 0xD0 + X) (h2 : s.ram (s.PC + 1) = 0x10 * Y + N) :
    (∀ x y, x < 64 → y < 32 →
      (emulate_instruction s set_config_from_args rand).display (64 * y + x)
        = draw_reference s X Y N x y) ∧
    (draw_collision s X Y N → (emulate_instruction s set_config_from_args rand).V 0xF = 1) ∧
    (¬ draw_collision s X Y N → (emulate_instruction s set_config_from_args rand).V 0xF = 0) ∧
    (∀ k, k ≠ 0xF → (emulate_instruction s set_config_from_args rand).V k = s.V k) ∧
    (emulate_instruction s set_config_from_args rand).draw = true ∧
    (emulate_instruction s set_config_from_args rand).ram = s.ram ∧
    (emulate_instruction s set_config_from_args rand).I = s.I := by
  have hx0 : s.V X % 64 < 64 := Nat.mod_lt _ (by decide)
  have hy0 : s.V Y % 32 < 32 := Nat.mod_lt _ (by decide)
  rw [emulate_DXYN s rand X Y N hX hY hN h1 h2]
  obtain ⟨f1, f2, f3⟩ := draw_rows_frame set_config_from_args (s.V X % 64) N 0 (s.V Y % 32)
    { fetch_decode s with V := upd s.V 0xF 0 }
  obtain ⟨g1, g2⟩ := draw_rows_flag (s.V X % 64) hx0 N 0 (s.V Y % 32)
    { fetch_decode s with V := upd s.V 0xF 0 } hy0
  have hcol := rect_hit_iff_collision s X Y N
  have hV0 : ({ fetch_decode s with V := upd s.V 0xF 0 } : chip8_t).V 0xF = 0 := by
    show upd s.V 0xF 0 0xF = 0
    exact upd_same _ _ _
  refine ⟨fun x y hx hy => ?_, fun h => ?_, fun h => ?_, fun k hk => ?_, rfl, f1, f2⟩
  · have hd := draw_rows_display (s.V X % 64) hx0 N 0 (s.V Y % 32)
      { fetch_decode s with V := upd s.V 0xF 0 } hy0 (64 * y + x)
    have hdiv : (64 * y + x) / 64 = y := by omega
    have hmod : (64 * y + x) % 64 = x := by omega
    rw [hdiv, hmod] at hd
    show (draw_rows set_config_from_args (s.V X % 64) N 0 (s.V Y % 32)
      { fetch_decode s with V := upd s.V 0xF 0 }).display (64 * y + x) = _
    rw [hd]
    unfold draw_reference sprite_bit
    by_cases hc : s.V X % 64 ≤ x ∧ x < min (s.V X % 64 + 8) 64 ∧ s.V Y % 32 ≤ y ∧
        y < min (s.V Y % 32 + N) 32
    · have hc2 : s.V Y % 32 ≤ y ∧ y < s.V Y % 32 + N ∧ y < 32 ∧ s.V X % 64 ≤ x ∧
          x < s.V X % 64 + 8 := by omega
      have he1 : 0 + (y - s.V Y % 32) = y - s.V Y % 32 := by omega
      have he2 : s.V X % 64 + 8 - 1 - x = 7 - (x - s.V X % 64) := by omega
      rw [if_pos hc, if_pos hc2, he1, he2]
      rfl
    · have hc2 : ¬ (s.V Y % 32 ≤ y ∧ y < s.V Y % 32 + N ∧ y < 32 ∧ s.V X % 64 ≤ x ∧
          x < s.V X % 64 + 8) := by omega
      rw [if_neg hc, if_neg hc2]
      rfl
  · exact g2.2 (Or.inr (hcol.2 h))
  · rcases g1 with h1 | h1
    · rcases g2.1 h1 with h3 | h3
      · rw [hV0] at h3
        exact absurd h3 (by decide)
      · exact absurd (hcol.1 h3) h
    · exact h1.trans hV0
  · exact (f3 k hk).trans (upd_of_ne _ _ _ _ hk)

/-- Drawing the same sprite again on the state the first draw left restores
every cell of the display. -/
theorem draw_twice (s s2 : chip8_t) (rand rand2 X Y N : Nat)
    (hX : X < 16) (hXF : X ≠ 0xF) (hY : Y < 16) (hYF : Y ≠ 0xF) (hN : N < 16)
    (h1 : s.ram s.PC = 0xD0 + X) (h2 : s.ram (s.PC + 1) = 0x10 * Y + N)
    (hdisp : s2.display = (emulate_instruction s set_config_from_args rand).display)
    (hram : s2.ram = (emulate_instruction s set_config_from_args rand).ram)
    (hI2 : s2.I = (emulate_instruction s set_config_from_args rand).I)
    (hV : s2.V = (emulate_instruction s set_config_from_args rand).V)
    (h3 : s2.ram s2.PC = 0xD0 + X) (h4 : s2.ram (s2.PC + 1) = 0x10 * Y + N) :
    ∀ p, p < 2048 → (emulate_instruction s2 set_config_from_args rand2).display p
      = s.display p := by
  intro p hp
  obtain ⟨a1, -, -, a4, -, a6, a7⟩ := draw_spec s rand X Y N hX hY hN h1 h2
  obtain ⟨b1, -⟩ := draw_spec s2 rand2 X Y N hX hY hN h3 h4
  have hp2 : 64 * (p / 64) + p % 64 = p := by omega
  have hb := b1 (p % 64) (p / 64) (by omega) (by omega)
  have ha := a1 (p % 64) (p / 64) (by omega) (by omega)
  rw [hp2] at hb ha
  rw [hb]
  have hVX : s2.V X = s.V X := by rw [hV]; exact a4 X hXF
  have hVY : s2.V Y = s.V Y := by rw [hV]; exact a4 Y hYF
  unfold draw_reference sprite_bit
  rw [hp2, hVX, hVY, hdisp, ha, hram, a6, hI2, a7]
  unfold draw_reference sprite_bit
  rw [hp2]
  split
  · simp
  · rfl

theorem font_bit7 : ∀ d, d < 16 → d ≠ 1 → (font.getD (5 * d) 0).testBit 7 = true := by
  decide

theorem font_one_bit7 : ∀ r, r < 5 → (font.getD (5 * 1 + r) 0).testBit 7 = false := by
  decide

/-- The flag of the second of two draws of a font glyph on a cleared
display: 1 exactly when a set bit of the glyph lies inside the clipped
rectangle. -/
theorem glyph_redraw_flag (s s2 : chip8_t) (rand rand2 d X Y : Nat) (hd : d < 16)
    (hX : X < 16) (hXF : X ≠ 0xF) (hY : Y < 16) (hYF : Y ≠ 0xF)
    (hfont : ∀ a, a < 80 → s.ram a = font.getD a 0) (hI : s.I = 5 * d)
    (hclear : ∀ p, p < 2048 → s.display p = false)
    (h1 : s.ram s.PC = 0xD0 + X) (h2 : s.ram (s.PC + 1) = 0x10 * Y + 5)
    (hdisp : s2.display = (emulate_instruction s set_config_from_args rand).display)
    (hram : s2.ram = (emulate_instruction s set_config_from_args rand).ram)
    (hI2 : s2.I = (emulate_instruction s set_config_from_args rand).I)
    (hV : s2.V = (emulate_instruction s set_config_from_args rand).V)
    (h3 : s2.ram s2.PC = 0xD0 + X) (h4 : s2.ram (s2.PC + 1) = 0x10 * Y + 5) :
    (emulate_instruction s set_config_from_args rand).V 0xF = 0 ∧
    ((d ≠ 1 ∨ s.V X % 64 ≤ 61 ∨ (s.V X % 64 = 62 ∧ s.V Y % 32 ≤ 30)) →
      (emulate_instruction s2 set_config_from_args rand2).V 0xF = 1) ∧
    (¬ (d ≠ 1 ∨ s.V X % 64 ≤ 61 ∨ (s.V X % 64 = 62 ∧ s.V Y % 32 ≤ 30)) →
      (emulate_instruction s2 set_config_from_args rand2).V 0xF = 0) := by
  have hx0 : s.V X % 64 < 64 := Nat.mod_lt _ (by decide)
  have hy0 : s.V Y % 32 < 32 := Nat.mod_lt _ (by decide)
  obtain ⟨a1, -, a3, a4, -, a6, a7⟩ := draw_spec s rand X Y 5 hX hY (by decide) h1 h2
  obtain ⟨-, b2, b3, -⟩ := draw_spec s2 rand2 X Y 5 hX hY (by decide) h3 h4
  have hVX : s2.V X = s.V X := by rw [hV]; exact a4 X hXF
  have hVY : s2.V Y = s.V Y := by rw [hV]; exact a4 Y hYF
  -- no collision on the cleared display
  have hno : ¬ draw_collision s X Y 5 := by
    rintro ⟨x, y, ⟨c1, c2, c3, c4⟩, c5, -⟩
    rw [hclear (64 * y + x) (by omega)] at c5
    exact Bool.noConfusion c5
  -- the sprite bits are read from the font
  have hbit : ∀ x y, y - s.V Y % 32 < 5 →
      sprite_bit s2 (s.V X % 64) (s.V Y % 32) x y
        = (font.getD (5 * d + (y - s.V Y % 32)) 0).testBit (7 - (x - s.V X % 64)) := by
    intro x y hr
    unfold sprite_bit
    rw [hram, a6, hI2, a7, hI, hfont _ (by omega)]
  -- after the first draw a cell of the rectangle holds its sprite bit
  have hcell : ∀ x y, in_sprite (s.V X % 64) (s.V Y % 32) 5 x y →
      s2.display (64 * y + x)
        = (font.getD (5 * d + (y - s.V Y % 32)) 0).testBit (7 - (x - s.V X % 64)) := by
    intro x y hin
    have hin2 := hin
    obtain ⟨c1, c2, c3, c4⟩ := hin
    rw [hdisp, a1 x y (by omega) (by omega)]
    unfold draw_reference
    unfold in_sprite at hin2
    rw [if_pos hin2, hclear (64 * y + x) (by omega)]
    unfold sprite_bit
    rw [hI, hfont _ (by omega)]
    simp
  -- a collision of the second draw is a set glyph bit inside the rectangle
  have hiff : draw_collision s2 X Y 5 ↔
      ∃ x y, in_sprite (s.V X % 64) (s.V Y % 32) 5 x y ∧
        (font.getD (5 * d + (y - s.V Y % 32)) 0).testBit (7 - (x - s.V X % 64)) = true := by
    unfold draw_collision
    rw [hVX, hVY]
    constructor
    · rintro ⟨x, y, hin, -, c6⟩
      have hr : y - s.V Y % 32 < 5 := by
        obtain ⟨-, -, c3, c4⟩ := hin
        omega
      rw [hbit x y hr] at c6
      exact ⟨x, y, hin, c6⟩
    · rintro ⟨x, y, hin, c6⟩
      have hr : y - s.V Y % 32 < 5 := by
        obtain ⟨-, -, c3, c4⟩ := hin
        omega
      refine ⟨x, y, hin, ?_, ?_⟩
      · rw [hcell x y hin]; exact c6
      · rw [hbit x y hr]; exact c6
  refine ⟨a3 hno, fun hc => b2 (hiff.2 ?_), fun hc => b3 (fun hcol => ?_)⟩
  · by_cases hd1 : d = 1
    · subst hd1
      by_cases h61 : s.V X % 64 ≤ 61
      · refine ⟨s.V X % 64 + 2, s.V Y % 32, ⟨by omega, by omega, by omega, by omega⟩, ?_⟩
        have e1 : s.V Y % 32 - s.V Y % 32 = 0 := by omega
        have e2 : 7 - (s.V X % 64 + 2 - s.V X % 64) = 5 := by omega
        rw [e1, e2]
        decide
      · have h62 : s.V X % 64 = 62 ∧ s.V Y % 32 ≤ 30 := by omega
        refine ⟨s.V X % 64 + 1, s.V Y % 32 + 1, ⟨by omega, by omega, by omega, by omega⟩, ?_⟩
        have e1 : s.V Y % 32 + 1 - s.V Y % 32 = 1 := by omega
        have e2 : 7 - (s.V X % 64 + 1 - s.V X % 64) = 6 := by omega
        rw [e1, e2]
        decide
    · refine ⟨s.V X % 64, s.V Y % 32, ⟨by omega, by omega, by omega, by omega⟩, ?_⟩
      have e1 : s.V Y % 32 - s.V Y % 32 = 0 := by omega
      have e2 : 7 - (s.V X % 64 - s.V X % 64) = 7 := by omega
      rw [e1, e2]
      exact font_bit7 d hd hd1
  · obtain ⟨x, y, ⟨c1, c2, c3, c4⟩, c6⟩ := hiff.1 hcol
    have hd1 : d = 1 := by omega
    subst hd1
    by_cases h63 : s.V X % 64 = 63
    · have e2 : 7 - (x - s.V X % 64) = 7 := by omega
      rw [e2, font_one_bit7 (y - s.V Y % 32) (by omega)] at c6
      exact Bool.noConfusion c6
    · have h62 : s.V X % 64 = 62 ∧ s.V Y % 32 = 31 := by omega
      have e1 : y - s.V Y % 32 = 0 := by omega
      rw [e1] at c6
      by_cases hx : x = 62
      · have e2 : 7 - (x - s.V X % 64) = 7 := by omega
        rw [e2] at c6
        revert c6
        decide
      · have e2 : 7 - (x - s.V X % 64) = 6 := by omega
        rw [e2] at c6
        revert c6
        decide

/-- C4 (sprite draw `DXYN` on the 64x32 display equals its reference
definition): with `x0 = V[X] mod 64`, `y0 = V[Y] mod 32` and `I + N <= 4096`,
after one cycle every cell `(x, y)` of the sprite rectangle
(`x0 <= x < min(x0+8, 64)`, `y0 <= y < min(y0+N, 32)`) holds its old value
XOR bit `7 - (x - x0)` of `ram[I + (y - y0)]` and every other cell is
unchanged; `V[F]` is 1 iff some cell of the rectangle was set and had sprite
bit 1, and 0 otherwise; the redraw flag is true; memory and the index
register are unchanged. -/
theorem sprite_draw (s : chip8_t) (rand X Y N : Nat) (hX : X < 16) (hY : Y < 16)
    (hN : N < 16) (_hI : s.I + N ≤ 4096)
    (h1 : s.ram s.PC = 0xD0 + X) (h2 : s.ram (s.PC + 1) = 0x10 * Y + N) :
    (∀ x y, x < 64 → y < 32 →
      (emulate_instruction s set_config_from_args rand).display (64 * y + x)
        = draw_reference s X Y N x y) ∧
    (draw_collision s X Y N → (emulate_instruction s set_config_from_args rand).V 0xF = 1) ∧
    (¬ draw_collision s X Y N → (emulate_instruction s set_config_from_args rand).V 0xF = 0) ∧
    (emulate_instruction s set_config_from_args rand).draw = true ∧
    (emulate_instruction s set_config_from_args rand).ram = s.ram ∧
    (emulate_instruction s set_config_from_args rand).I = s.I := by
  obtain ⟨a1, a2, a3, -, a5, a6, a7⟩ := draw_spec s rand X Y N hX hY hN h1 h2
  exact ⟨a1, a2, a3, a5, a6, a7⟩

/-- Witness of C4: `D015` at `(62, 30)`, so that the glyph of digit 0 is
clipped at both edges, on a framebuffer whose cell `(62, 30)` is set; the
draw collides. -/
theorem sprite_draw_witness :
    draw_collision ex_D015 0 1 5 ∧
    (∀ x y, x < 64 → y < 32 →
      (emulate_instruction ex_D015 set_config_from_args 0).display (64 * y + x)
        = draw_reference ex_D015 0 1 5 x y) ∧
    (emulate_instruction ex_D015 set_config_from_args 0).V 0xF = 1 ∧
    (emulate_instruction ex_D015 set_config_from_args 0).draw = true :=
  have hcol : draw_collision ex_D015 0 1 5 :=
    ⟨62, 30, ⟨by decide, by decide, by decide, by decide⟩, by decide, by decide⟩
  have h := sprite_draw ex_D015 0 0 1 5 (by decide) (by decide) (by decide) (by decide)
    (by decide) (by decide)
  ⟨hcol, h.1, h.2.1 hcol, h.2.2.2.1⟩

/-- C6 (sprite drawing is an involution on the framebuffer): for `X`, `Y`
other than `F`, `N` in 0..15 and `I + N <= 4096`, running `DXYN` on a state
`s` and running the same `DXYN` again on the state the first draw left
(`s2` has its framebuffer, memory, index register and registers) leaves each
of the 2048 cells equal to its value in `s`. -/
theorem draw_involution (s s2 : chip8_t) (rand rand2 X Y N : Nat)
    (hX : X < 16) (hXF : X ≠ 0xF) (hY : Y < 16) (hYF : Y ≠ 0xF) (hN : N < 16)
    (_hI : s.I + N ≤ 4096)
    (h1 : s.ram s.PC = 0xD0 + X) (h2 : s.ram (s.PC + 1) = 0x10 * Y + N)
    (hdisp : s2.display = (emulate_instruction s set_config_from_args rand).display)
    (hram : s2.ram = (emulate_instruction s set_config_from_args rand).ram)
    (hI2 : s2.I = (emulate_instruction s set_config_from_args rand).I)
    (hV : s2.V = (emulate_instruction s set_config_from_args rand).V)
    (h3 : s2.ram s2.PC = 0xD0 + X) (h4 : s2.ram (s2.PC + 1) = 0x10 * Y + N) :
    ∀ p, p < 2048 → (emulate_instruction s2 set_config_from_args rand2).display p
      = s.display p :=
  draw_twice s s2 rand rand2 X Y N hX hXF hY hYF hN h1 h2 hdisp hram hI2 hV h3 h4

/-- Witness of C6: `D015` drawn twice at `(3, 4)` with `I = 10`, read at the
cell `(3, 4)` the glyph toggles. -/
theorem draw_involution_witness :
    (emulate_instruction
      { emulate_instruction ex_glyph2 set_config_from_args 0 with PC := ex_glyph2.PC }
      set_config_from_args 0).display (64 * 4 + 3) = ex_glyph2.display (64 * 4 + 3) :=
  draw_involution ex_glyph2
    { emulate_instruction ex_glyph2 set_config_from_args 0 with PC := ex_glyph2.PC }
    0 0 0 1 5 (by decide) (by decide) (by decide) (by decide) (by decide) (by decide)
    (by decide) (by decide) rfl rfl rfl rfl
    (by
      rw [(draw_spec ex_glyph2 0 0 1 5 (by decide) (by decide) (by decide)
        (by decide) (by decide)).2.2.2.2.2.1]
      decide)
    (by
      rw [(draw_spec ex_glyph2 0 0 1 5 (by decide) (by decide) (by decide)
        (by decide) (by decide)).2.2.2.2.2.1]
      decide)
    (64 * 4 + 3) (by decide)

/-- After `init_chip8` the first 80 bytes of memory hold the font, whatever
the ROM. -/
theorem init_ram_font (config : config_t) (rom : Option (List Nat)) (a : Nat) (ha : a < 80) :
    (init_chip8 config rom).2.ram a = font.getD a 0 := by
  have hlen : font.length = 80 := rfl
  unfold init_chip8
  cases rom with
  | none => simp [hlen, ha]
  | some bytes =>
    simp only []
    split
    · simp [hlen, ha]
    · split
      · simp [hlen, ha]
      · have hn : ¬ (0x200 ≤ a ∧ a < 0x200 + bytes.length) := by omega
        simp [hlen, ha, hn]

/-- C5 as the code has it: for every font digit `d` (`I = 5 * d`, memory
freshly initialised, `N = 5`), all `X`, `Y` other than `F` and all values of
`V[X]`, `V[Y]`, drawing the glyph on an all-false framebuffer leaves
`V[F] = 0`; drawing it again at the same place leaves every cell false, and
leaves `V[F] = 1` when `d` is not 1, or `V[X] mod 64 <= 61`, or
`V[X] mod 64 = 62` and `V[Y] mod 32 <= 30`, and `V[F] = 0` otherwise (the
set bits of the glyph of digit 1 are all clipped away). -/
theorem glyph_two_draws (s s2 : chip8_t) (rand rand2 d X Y : Nat) (hd : d < 16)
    (hX : X < 16) (hXF : X ≠ 0xF) (hY : Y < 16) (hYF : Y ≠ 0xF)
    (hfont : ∀ a, a < 80 → s.ram a = font.getD a 0) (hI : s.I = 5 * d)
    (hclear : ∀ p, p < 2048 → s.display p = false)
    (h1 : s.ram s.PC = 0xD0 + X) (h2 : s.ram (s.PC + 1) = 0x10 * Y + 5)
    (hdisp : s2.display = (emulate_instruction s set_config_from_args rand).display)
    (hram : s2.ram = (emulate_instruction s set_config_from_args rand).ram)
    (hI2 : s2.I = (emulate_instruction s set_config_from_args rand).I)
    (hV : s2.V = (emulate_instruction s set_config_from_args rand).V)
    (h3 : s2.ram s2.PC = 0xD0 + X) (h4 : s2.ram (s2.PC + 1) = 0x10 * Y + 5) :
    (emulate_instruction s set_config_from_args rand).V 0xF = 0 ∧
    (∀ p, p < 2048 → (emulate_instruction s2 set_config_from_args rand2).display p = false) ∧
    ((d ≠ 1 ∨ s.V X % 64 ≤ 61 ∨ (s.V X % 64 = 62 ∧ s.V Y % 32 ≤ 30)) →
      (emulate_instruction s2 set_config_from_args rand2).V 0xF = 1) ∧
    (¬ (d ≠ 1 ∨ s.V X % 64 ≤ 61 ∨ (s.V X % 64 = 62 ∧ s.V Y % 32 ≤ 30)) →
      (emulate_instruction s2 set_config_from_args rand2).V 0xF = 0) := by
  obtain ⟨a1, a2, a3⟩ := glyph_redraw_flag s s2 rand rand2 d X Y hd hX hXF hY hYF hfont hI
    hclear h1 h2 hdisp hram hI2 hV h3 h4
  refine ⟨a1, fun p hp => ?_, a2, a3⟩
  rw [draw_twice s s2 rand rand2 X Y 5 hX hXF hY hYF (by decide) h1 h2 hdisp hram hI2 hV
    h3 h4 p hp]
  exact hclear p hp

/-- Witness of the amended C5: the glyph of digit 2 drawn twice at `(3, 4)`. -/
theorem glyph_two_draws_witness :
    (emulate_instruction ex_glyph2 set_config_from_args 0).V 0xF = 0 ∧
    (∀ p, p < 2048 →
      (emulate_instruction
        { emulate_instruction ex_glyph2 set_config_from_args 0 with PC := ex_glyph2.PC }
        set_config_from_args 0).display p = false) ∧
    (emulate_instruction
      { emulate_instruction ex_glyph2 set_config_from_args 0 with PC := ex_glyph2.PC }
      set_config_from_args 0).V 0xF = 1 :=
  have hr := (draw_spec ex_glyph2 0 0 1 5 (by decide) (by decide) (by decide)
    (by decide) (by decide)).2.2.2.2.2.1
  have h := glyph_two_draws ex_glyph2
    { emulate_instruction ex_glyph2 set_config_from_args 0 with PC := ex_glyph2.PC }
    0 0 2 0 1 (by decide) (by decide) (by decide) (by decide) (by decide)
    (fun a ha => init_ram_font set_config_from_args (some [0xD0, 0x15]) a ha)
    rfl (fun _ _ => rfl) (by decide) (by decide) rfl rfl rfl rfl
    (by rw [hr]; decide) (by rw [hr]; decide)
  ⟨h.1, h.2.1, h.2.2.1 (Or.inl (by decide))⟩

/-- Counterexample to C5 as stated: the glyph of digit 1 (`I = 5`) drawn with
`D015` at `V[0] = 63`, `V[1] = 0` on an all-false framebuffer in freshly
initialised memory; only column 63 is inside the display and bit 7 of every
row of the glyph is 0, so the second draw leaves `V[F] = 0`, not 1. -/
theorem glyph_two_draws_counterexample :
    (∀ a, a < 80 → ex_glyph1_clipped.ram a = font.getD a 0) ∧
    ex_glyph1_clipped.I = 5 * 1 ∧
    (∀ p, p < 2048 → ex_glyph1_clipped.display p = false) ∧
    ex_glyph1_clipped.ram ex_glyph1_clipped.PC = 0xD0 + 0 ∧
    ex_glyph1_clipped.ram (ex_glyph1_clipped.PC + 1) = 0x10 * 1 + 5 ∧
    (emulate_instruction
      { emulate_instruction ex_glyph1_clipped set_config_from_args 0 with
        PC := ex_glyph1_clipped.PC }
      set_config_from_args 0).V 0xF = 0 := by
  have hr := (draw_spec ex_glyph1_clipped 0 0 1 5 (by decide) (by decide) (by decide)
    (by decide) (by decide)).2.2.2.2.2.1
  have hf : ∀ a, a < 80 → ex_glyph1_clipped.ram a = font.getD a 0 :=
    fun a ha => init_ram_font set_config_from_args (some [0xD0, 0x15]) a ha
  have h := glyph_redraw_flag ex_glyph1_clipped
    { emulate_instruction ex_glyph1_clipped set_config_from_args 0 with
      PC := ex_glyph1_clipped.PC }
    0 0 1 0 1 (by decide) (by decide) (by decide) (by decide) (by decide)
    hf rfl (fun _ _ => rfl) (by decide) (by decide) rfl rfl rfl rfl
    (by rw [hr]; decide) (by rw [hr]; decide)
  exact ⟨hf, rfl, fun _ _ => rfl, by decide, by decide, h.2.2 (by decide)⟩

/-! ## Jump, clear screen, decimal digits -/

theorem same_data_refl (s : chip8_t) : same_data s s :=
  ⟨rfl, rfl, rfl, rfl, rfl, rfl, rfl, rfl, rfl, rfl, rfl, rfl, rfl, rfl⟩

/-- Writing `PC` after the fetch leaves every other field but `inst` alone. -/
theorem same_data_fetch (s : chip8_t) (pc : Nat) :
    same_data s { fetch_decode s with PC := pc } :=
  ⟨rfl, rfl, rfl, rfl, rfl, rfl, rfl, rfl, rfl, rfl, rfl, rfl, rfl, rfl⟩

/-- One cycle on `1NNN`, the low byte of the instruction being `lo`. -/
theorem emulate_1NNN (s : chip8_t) (config : config_t) (rand X lo : Nat) (hX : X < 16)
    (hlo : lo < 256) (h1 : s.ram s.PC = 0x10 + X) (h2 : s.ram (s.PC + 1) = lo) :
    emulate_instruction s config rand = { fetch_decode s with PC := 256 * X + lo } := by
  obtain ⟨hfam, -, hNNN, -, -, -, -⟩ := decode s _ _ h1 h2 (by omega) hlo
  have e1 : (0x10 + X) / 16 = 1 := by omega
  have e2 : (256 * (0x10 + X) + lo) % 4096 = 256 * X + lo := by omega
  rw [e1] at hfam
  rw [e2] at hNNN
  simp [emulate_instruction, execute, hfam, hNNN]

/-- One cycle on `00E0`. -/
theorem emulate_00E0 (s : chip8_t) (config : config_t) (rand : Nat)
    (h1 : s.ram s.PC = 0x00) (h2 : s.ram (s.PC + 1) = 0xE0) :
    emulate_instruction s config rand =
      { fetch_decode s with
        display := fun i => if i < 64 * 32 then false else s.display i
        draw := true } := by
  obtain ⟨hfam, -, -, hNN, -, -, -⟩ := decode s _ _ h1 h2 (by omega) (by omega)
  have e1 : 0x00 / 16 = 0 := by omega
  rw [e1] at hfam
  have hd : (fetch_decode s).display = s.display := rfl
  simp [emulate_instruction, execute, hfam, hNN, hd]

/-- One cycle on `FX33`. -/
theorem emulate_FX33 (s : chip8_t) (config : config_t) (rand X : Nat) (hX : X < 16)
    (h1 : s.ram s.PC = 0xF0 + X) (h2 : s.ram (s.PC + 1) = 0x33) :
    emulate_instruction s config rand =
      { fetch_decode s with
        ram := upd (upd (upd s.ram (s.I + 2) (s.V X % 10)) (s.I + 1) (s.V X / 10 % 10))
          s.I (s.V X / 10 / 10) } := by
  obtain ⟨hfam, -, -, hNN, -, hXf, -⟩ :=
    decode_nibbles s 15 X 3 3 (by omega) hX (by omega) (by omega) (by omega) (by omega)
  have hV : (fetch_decode s).V = s.V := rfl
  have hI : (fetch_decode s).I = s.I := rfl
  have hr : (fetch_decode s).ram = s.ram := rfl
  simp [emulate_instruction, execute, hfam, hNN, hXf, hV, hI, hr]

/-- C11 (jump frame property): for every 12-bit address `NNN` and every
state whose instruction at `PC` is `1NNN`, after one cycle the program
counter is `NNN` and memory, the registers, the index register, the call
stack and its depth, both timers, the keypad, the framebuffer, the redraw
flag and the lifecycle state are unchanged; only `PC` and the decoded
instruction record are written. -/
theorem jump_frame (s : chip8_t) (config : config_t) (rand X lo : Nat) (hX : X < 16)
    (hlo : lo < 256) (h1 : s.ram s.PC = 0x10 + X) (h2 : s.ram (s.PC + 1) = lo) :
    (emulate_instruction s config rand).PC = 256 * X + lo ∧
    same_data s (emulate_instruction s config rand) := by
  rw [emulate_1NNN s config rand X lo hX hlo h1 h2]
  exact ⟨rfl, same_data_fetch s _⟩

/-- Witness of C11: the ROM consisting of the jump `1300`. -/
theorem jump_frame_witness :
    (emulate_instruction ex_1300 set_config_from_args 0).PC = 256 * 3 + 0 ∧
    same_data ex_1300 (emulate_instruction ex_1300 set_config_from_args 0) :=
  jump_frame ex_1300 set_config_from_args 0 3 0 (by decide) (by decide) (by decide)
    (by decide)

/-- C14 (clear screen, opcode `00E0`): after one cycle every one of the
`64 * 32` framebuffer cells is false and the redraw flag is true; the
registers, memory, the index register, the stack and the timers are
unchanged. -/
theorem clear_display (s : chip8_t) (config : config_t) (rand : Nat)
    (h1 : s.ram s.PC = 0x00) (h2 : s.ram (s.PC + 1) = 0xE0) :
    (∀ p, p < 64 * 32 → (emulate_instruction s config rand).display p = false) ∧
    (emulate_instruction s config rand).draw = true ∧
    (emulate_instruction s config rand).V = s.V ∧
    (emulate_instruction s config rand).ram = s.ram ∧
    (emulate_instruction s config rand).I = s.I ∧
    (emulate_instruction s config rand).stack = s.stack ∧
    (emulate_instruction s config rand).stack_ptr = s.stack_ptr ∧
    (emulate_instruction s config rand).delay_timer = s.delay_timer ∧
    (emulate_instruction s config rand).sound_timer = s.sound_timer := by
  rw [emulate_00E0 s config rand h1 h2]
  refine ⟨fun p hp => ?_, rfl, rfl, rfl, rfl, rfl, rfl, rfl, rfl⟩
  show (if p < 64 * 32 then false else s.display p) = false
  rw [if_pos hp]

/-- Witness of C14: `00E0` on a framebuffer whose cell 5 is set. -/
theorem clear_display_witness :
    ex_00E0.display 5 = true ∧
    (emulate_instruction ex_00E0 set_config_from_args 0).display 5 = false ∧
    (emulate_instruction ex_00E0 set_config_from_args 0).draw = true :=
  ⟨rfl,
   (clear_display ex_00E0 set_config_from_args 0 (by decide) (by decide)).1 5 (by decide),
   (clear_display ex_00E0 set_config_from_args 0 (by decide) (by decide)).2.1⟩

/-- C13 (binary-coded-decimal store, opcode `FX33`): with `v = V[X]` and
`I + 2 <= 4095`, after one cycle `ram[I] = v / 100`,
`ram[I+1] = (v / 10) mod 10`, `ram[I+2] = v mod 10`, so that
`100 * ram[I] + 10 * ram[I+1] + ram[I+2] = v` with `ram[I] <= 2` and the other
two digits `<= 9`; the registers, the index register and every other memory
byte are unchanged. -/
theorem bcd_store (s : chip8_t) (config : config_t) (rand X : Nat) (hX : X < 16)
    (hs : wf s) (_hI : s.I + 2 ≤ 4095)
    (h1 : s.ram s.PC = 0xF0 + X) (h2 : s.ram (s.PC + 1) = 0x33) :
    (emulate_instruction s config rand).ram s.I = s.V X / 100 ∧
    (emulate_instruction s config rand).ram (s.I + 1) = s.V X / 10 % 10 ∧
    (emulate_instruction s config rand).ram (s.I + 2) = s.V X % 10 ∧
    100 * (emulate_instruction s config rand).ram s.I
      + 10 * (emulate_instruction s config rand).ram (s.I + 1)
      + (emulate_instruction s config rand).ram (s.I + 2) = s.V X ∧
    (emulate_instruction s config rand).ram s.I ≤ 2 ∧
    (emulate_instruction s config rand).ram (s.I + 1) ≤ 9 ∧
    (emulate_instruction s config rand).ram (s.I + 2) ≤ 9 ∧
    (emulate_instruction s config rand).V = s.V ∧
    (emulate_instruction s config rand).I = s.I ∧
    (∀ a, a ≠ s.I → a ≠ s.I + 1 → a ≠ s.I + 2 →
      (emulate_instruction s config rand).ram a = s.ram a) := by
  have hv := hs.V_u8 X hX
  rw [emulate_FX33 s config rand X hX h1 h2]
  have r0 : upd (upd (upd s.ram (s.I + 2) (s.V X % 10)) (s.I + 1) (s.V X / 10 % 10))
      s.I (s.V X / 10 / 10) s.I = s.V X / 100 := by
    rw [upd_same]; omega
  have r1 : upd (upd (upd s.ram (s.I + 2) (s.V X % 10)) (s.I + 1) (s.V X / 10 % 10))
      s.I (s.V X / 10 / 10) (s.I + 1) = s.V X / 10 % 10 := by
    rw [upd_of_ne _ _ _ _ (by omega), upd_same]
  have r2 : upd (upd (upd s.ram (s.I + 2) (s.V X % 10)) (s.I + 1) (s.V X / 10 % 10))
      s.I (s.V X / 10 / 10) (s.I + 2) = s.V X % 10 := by
    rw [upd_of_ne _ _ _ _ (by omega), upd_of_ne _ _ _ _ (by omega), upd_same]
  refine ⟨r0, r1, r2, ?_, ?_, ?_, ?_, rfl, rfl, fun a a0 a1 a2 => ?_⟩
  · show 100 * upd _ _ _ s.I + 10 * upd _ _ _ (s.I + 1) + upd _ _ _ (s.I + 2) = s.V X
    rw [r0, r1, r2]; omega
  · show upd _ _ _ s.I ≤ 2
    rw [r0]; omega
  · show upd _ _ _ (s.I + 1) ≤ 9
    rw [r1]; omega
  · show upd _ _ _ (s.I + 2) ≤ 9
    rw [r2]; omega
  · show upd _ _ _ a = s.ram a
    rw [upd_of_ne _ _ _ _ a0, upd_of_ne _ _ _ _ a1, upd_of_ne _ _ _ _ a2]

/-- Witness of C13: `F233` with `V[2] = 255` stores the digits 2, 5, 5. -/
theorem bcd_store_witness :
    wf ex_F233 ∧
    (emulate_instruction ex_F233 set_config_from_args 0).ram ex_F233.I = ex_F233.V 2 / 100 ∧
    (emulate_instruction ex_F233 set_config_from_args 0).ram (ex_F233.I + 1)
      = ex_F233.V 2 / 10 % 10 ∧
    (emulate_instruction ex_F233 set_config_from_args 0).ram (ex_F233.I + 2)
      = ex_F233.V 2 % 10 :=
  have hw : wf ex_F233 :=
    ⟨(wf_prog 0xF2 0x33 (regs2 2 255 3 0) (by decide) (by decide)
        (regs2_u8 _ _ _ _ (by decide) (by decide))).ram_u8,
      regs2_u8 _ _ _ _ (by decide) (by decide), by decide, by decide,
      fun _ _ _ => (by decide : (0 : Nat) < 65536), by decide, by decide, by decide⟩
  have h := bcd_store ex_F233 set_config_from_args 0 2 (by decide) hw (by decide)
    (by decide) (by decide)
  ⟨hw, h.1, h.2.1, h.2.2.1⟩

/-! ## Timers -/

/-- A tick that finds the sound timer above 0 decrements it and lets the
audio device play. -/
theorem update_timers_pos (c : chip8_t) (h : c.sound_timer > 0) :
    (update_timers c).1.sound_timer = c.sound_timer - 1 ∧ (update_timers c).2 = 0 := by
  unfold update_timers
  by_cases hd : c.delay_timer > 0
  · simp [hd, h]
  · simp [hd, h]

/-- A tick that finds the sound timer at 0 leaves it there and pauses the
audio device. -/
theorem update_timers_zero (c : chip8_t) (h : c.sound_timer = 0) :
    (update_timers c).1.sound_timer = 0 ∧ (update_timers c).2 = 1 := by
  unfold update_timers
  by_cases hd : c.delay_timer > 0
  · simp [hd, h]
  · simp [hd, h]

/-- C12 as the code has it: for every sound timer value `s > 0`, one call of
`update_timers` leaves the sound timer at `s - 1` and tells the audio device
to play (`pause_on = 0`), also when `s - 1 = 0`: the signal is "the sound
timer was > 0 before the decrement".  The device is paused (`pause_on = 1`)
by a tick that finds the sound timer at 0, so from sound timer 1 the first
tick yields timer 0 with the audio still active and the second tick pauses
it. -/
theorem timer_tick_audio (c : chip8_t) (hpos : c.sound_timer > 0) :
    (update_timers c).1.sound_timer = c.sound_timer - 1 ∧
    (update_timers c).2 = 0 ∧
    (c.sound_timer = 1 →
      (update_timers c).1.sound_timer = 0 ∧
      (update_timers (update_timers c).1).1.sound_timer = 0 ∧
      (update_timers (update_timers c).1).2 = 1) := by
  obtain ⟨h1, h2⟩ := update_timers_pos c hpos
  refine ⟨h1, h2, fun h => ?_⟩
  have h0 : (update_timers c).1.sound_timer = 0 := by rw [h1]; omega
  obtain ⟨h3, h4⟩ := update_timers_zero (update_timers c).1 h0
  exact ⟨h0, h3, h4⟩

/-- Witness of the amended C12: sound timer 7, and sound timer 1 followed by
a second tick. -/
theorem timer_tick_audio_witness :
    ((update_timers ex_sound7).1.sound_timer = ex_sound7.sound_timer - 1 ∧
      (update_timers ex_sound7).2 = 0) ∧
    ((update_timers ex_sound1).1.sound_timer = 0 ∧
      (update_timers (update_timers ex_sound1).1).1.sound_timer = 0 ∧
      (update_timers (update_timers ex_sound1).1).2 = 1) :=
  ⟨⟨(timer_tick_audio ex_sound7 (by decide)).1, (timer_tick_audio ex_sound7 (by decide)).2.1⟩,
   (timer_tick_audio ex_sound1 (by decide)).2.2 rfl⟩

/-- Counterexample to C12 as stated: from sound timer 1 one tick yields timer
0, and `s - 1 > 0` is false, yet the tick calls `SDL_PauseAudioDevice` with
`pause_on = 0`, so the audio stays active. -/
theorem timer_tick_audio_counterexample :
    ex_sound1.sound_timer = 1 ∧
    (update_timers ex_sound1).1.sound_timer = 0 ∧
    ¬ ((update_timers ex_sound1).1.sound_timer > 0) ∧
    (update_timers ex_sound1).2 = 0 := by
  decide

/-! ## Decoding -/

/-- C15 (instruction decoding): for every state with `PC <= 4094`, the cycle
decodes the word `w = 256 * ram[PC] + ram[PC+1]` into `opcode = w`,
`NNN = w mod 4096`, `NN = w mod 256`, `N = w mod 16`, `X = (w / 256) mod 16`,
`Y = (w / 16) mod 16`, dispatches on `w / 4096`, the fields recompose the
word, and the instruction executes on the record whose program counter has
already advanced by 2. -/
theorem instruction_decoding (s : chip8_t) (config : config_t) (rand : Nat) (hs : wf s)
    (hPC : s.PC ≤ 4094) :
    (fetch_decode s).inst.opcode = 256 * s.ram s.PC + s.ram (s.PC + 1) ∧
    (fetch_decode s).inst.NNN = (256 * s.ram s.PC + s.ram (s.PC + 1)) % 4096 ∧
    (fetch_decode s).inst.NN = (256 * s.ram s.PC + s.ram (s.PC + 1)) % 256 ∧
    (fetch_decode s).inst.N = (256 * s.ram s.PC + s.ram (s.PC + 1)) % 16 ∧
    (fetch_decode s).inst.X = (256 * s.ram s.PC + s.ram (s.PC + 1)) / 256 % 16 ∧
    (fetch_decode s).inst.Y = (256 * s.ram s.PC + s.ram (s.PC + 1)) / 16 % 16 ∧
    ((fetch_decode s).inst.opcode >>> 12) &&& 0x0F
      = (256 * s.ram s.PC + s.ram (s.PC + 1)) / 4096 ∧
    256 * s.ram s.PC + s.ram (s.PC + 1)
      = 4096 * ((256 * s.ram s.PC + s.ram (s.PC + 1)) / 4096) + (fetch_decode s).inst.NNN ∧
    (fetch_decode s).inst.NNN = 256 * (fetch_decode s).inst.X + (fetch_decode s).inst.NN ∧
    (fetch_decode s).inst.NN = 16 * (fetch_decode s).inst.Y + (fetch_decode s).inst.N ∧
    (fetch_decode s).PC = s.PC + 2 ∧
    emulate_instruction s config rand = execute (fetch_decode s) config rand := by
  have b1 := hs.ram_u8 s.PC (by omega)
  have b2 := hs.ram_u8 (s.PC + 1) (by omega)
  obtain ⟨a1, a2, a3, a4, a5, a6, a7⟩ := decode s _ _ rfl rfl b1 b2
  have hpc : (fetch_decode s).PC = s.PC + 2 := by
    show (s.PC + 2) % 65536 = s.PC + 2
    omega
  rw [a1, a2, a3, a4, a5, a6, a7]
  refine ⟨rfl, rfl, ?_, ?_, ?_, ?_, ?_, ?_, ?_, ?_, hpc, rfl⟩ <;> omega

/-- Witness of C15: `A2F0` at `0xFFE`. -/
theorem instruction_decoding_witness :
    wf ex_A2F0 ∧ ex_A2F0.PC ≤ 4094 ∧
    (fetch_decode ex_A2F0).inst.opcode
      = 256 * ex_A2F0.ram ex_A2F0.PC + ex_A2F0.ram (ex_A2F0.PC + 1) ∧
    (fetch_decode ex_A2F0).PC = ex_A2F0.PC + 2 :=
  have hw : wf ex_A2F0 :=
    ⟨fun a _ => by
        simp only [ex_A2F0, upd, zeroed]
        split
        · decide
        · split
          · decide
          · decide,
      fun _ _ => (by decide : (0 : Nat) < 256), by decide, by decide,
      fun _ _ _ => (by decide : (0 : Nat) < 65536), by decide, by decide, by decide⟩
  have h := instruction_decoding ex_A2F0 set_config_from_args 0 hw (by decide)
  ⟨hw, by decide, h.1, h.2.2.2.2.2.2.2.2.2.2.1⟩

/-! ## Conditional skips -/

/-- One cycle on `3XNN`. -/
theorem emulate_3XNN (s : chip8_t) (config : config_t) (rand X NN : Nat) (hX : X < 16)
    (hNN : NN < 256) (h1 : s.ram s.PC = 0x30 + X) (h2 : s.ram (s.PC + 1) = NN) :
    emulate_instruction s config rand =
      if s.V X = NN then { fetch_decode s with PC := ((s.PC + 2) % 65536 + 2) % 65536 }
      else fetch_decode s := by
  obtain ⟨hfam, -, -, hNNf, -, hXf, -⟩ := decode s _ _ h1 h2 (by omega) hNN
  have e1 : (0x30 + X) / 16 = 3 := by omega
  have e2 : (0x30 + X) % 16 = X := by omega
  rw [e1] at hfam
  rw [e2] at hXf
  have hV : (fetch_decode s).V = s.V := rfl
  have hpc : (fetch_decode s).PC = (s.PC + 2) % 65536 := rfl
  simp [emulate_instruction, execute, hfam, hNNf, hXf, hV, hpc]

/-- One cycle on `4XNN`. -/
theorem emulate_4XNN (s : chip8_t) (config : config_t) (rand X NN : Nat) (hX : X < 16)
    (hNN : NN < 256) (h1 : s.ram s.PC = 0x40 + X) (h2 : s.ram (s.PC + 1) = NN) :
    emulate_instruction s config rand =
      if s.V X ≠ NN then { fetch_decode s with PC := ((s.PC + 2) % 65536 + 2) % 65536 }
      else fetch_decode s := by
  obtain ⟨hfam, -, -, hNNf, -, hXf, -⟩ := decode s _ _ h1 h2 (by omega) hNN
  have e1 : (0x40 + X) / 16 = 4 := by omega
  have e2 : (0x40 + X) % 16 = X := by omega
  rw [e1] at hfam
  rw [e2] at hXf
  have hV : (fetch_decode s).V = s.V := rfl
  have hpc : (fetch_decode s).PC = (s.PC + 2) % 65536 := rfl
  simp [emulate_instruction, execute, hfam, hNNf, hXf, hV, hpc]

/-- One cycle on `5XY0`. -/
theorem emulate_5XY0 (s : chip8_t) (config : config_t) (rand X Y : Nat) (hX : X < 16)
    (hY : Y < 16) (h1 : s.ram s.PC = 0x50 + X) (h2 : s.ram (s.PC + 1) = 0x10 * Y) :
    emulate_instruction s config rand =
      if s.V X = s.V Y then { fetch_decode s with PC := ((s.PC + 2) % 65536 + 2) % 65536 }
      else fetch_decode s := by
  obtain ⟨hfam, -, -, -, hN, hXf, hYf⟩ :=
    decode_nibbles s 5 X Y 0 (by omega) hX hY (by omega) (by omega) (by omega)
  have hV : (fetch_decode s).V = s.V := rfl
  have hpc : (fetch_decode s).PC = (s.PC + 2) % 65536 := rfl
  simp [emulate_instruction, execute, hfam, hN, hXf, hYf, hV, hpc]

/-- One cycle on `9XY0`. -/
theorem emulate_9XY0 (s : chip8_t) (config : config_t) (rand X Y : Nat) (hX : X < 16)
    (hY : Y < 16) (h1 : s.ram s.PC = 0x90 + X) (h2 : s.ram (s.PC + 1) = 0x10 * Y) :
    emulate_instruction s config rand =
      if s.V X ≠ s.V Y then { fetch_decode s with PC := ((s.PC + 2) % 65536 + 2) % 65536 }
      else fetch_decode s := by
  obtain ⟨hfam, -, -, -, hN, hXf, hYf⟩ :=
    decode_nibbles s 9 X Y 0 (by omega) hX hY (by omega) (by omega) (by omega)
  have hV : (fetch_decode s).V = s.V := rfl
  have hpc : (fetch_decode s).PC = (s.PC + 2) % 65536 := rfl
  simp [emulate_instruction, execute, hfam, hN, hXf, hYf, hV, hpc]

/-- A skip instruction whose condition is `c`, on a state whose instruction
lies inside memory: the program counter advances by 4 or 2 and nothing else
but `inst` is written. -/
theorem skip_result (s t : chip8_t) (c : Prop) [Decidable c] (hPC : s.PC ≤ 4094)
    (h : t = if c then { fetch_decode s with PC := ((s.PC + 2) % 65536 + 2) % 65536 }
      else fetch_decode s) :
    t.PC = (if c then s.PC + 4 else s.PC + 2) ∧ same_data s t := by
  subst h
  by_cases hc : c
  · rw [if_pos hc, if_pos hc]
    refine ⟨?_, same_data_fetch s _⟩
    show ((s.PC + 2) % 65536 + 2) % 65536 = s.PC + 4
    omega
  · rw [if_neg hc, if_neg hc]
    refine ⟨?_, ⟨rfl, rfl, rfl, rfl, rfl, rfl, rfl, rfl, rfl, rfl, rfl, rfl, rfl, rfl⟩⟩
    show (s.PC + 2) % 65536 = s.PC + 2
    omega

/-- C16 (conditional skip family): for every state whose instruction lies
inside memory (`PC <= 4094`), after one cycle the program counter is the old
`PC + 4` when the condition holds and the old `PC + 2` otherwise, the
condition being `V[X] = NN` for `3XNN`, `V[X] != NN` for `4XNN`,
`V[X] = V[Y]` for `5XY0` and `V[X] != V[Y]` for `9XY0`; no register, memory
byte, stack entry, timer or framebuffer cell changes. -/
theorem conditional_skip (s : chip8_t) (config : config_t) (rand X Y NN : Nat)
    (hX : X < 16) (hY : Y < 16) (hNN : NN < 256) (hPC : s.PC ≤ 4094) :
    (s.ram s.PC = 0x30 + X → s.ram (s.PC + 1) = NN →
      (emulate_instruction s config rand).PC = (if s.V X = NN then s.PC + 4 else s.PC + 2) ∧
      same_data s (emulate_instruction s config rand)) ∧
    (s.ram s.PC = 0x40 + X → s.ram (s.PC + 1) = NN →
      (emulate_instruction s config rand).PC = (if s.V X ≠ NN then s.PC + 4 else s.PC + 2) ∧
      same_data s (emulate_instruction s config rand)) ∧
    (s.ram s.PC = 0x50 + X → s.ram (s.PC + 1) = 0x10 * Y →
      (emulate_instruction s config rand).PC
        = (if s.V X = s.V Y then s.PC + 4 else s.PC + 2) ∧
      same_data s (emulate_instruction s config rand)) ∧
    (s.ram s.PC = 0x90 + X → s.ram (s.PC + 1) = 0x10 * Y →
      (emulate_instruction s config rand).PC
        = (if s.V X ≠ s.V Y then s.PC + 4 else s.PC + 2) ∧
      same_data s (emulate_instruction s config rand)) :=
  ⟨fun h1 h2 => skip_result s _ _ hPC (emulate_3XNN s config rand X NN hX hNN h1 h2),
   fun h1 h2 => skip_result s _ _ hPC (emulate_4XNN s config rand X NN hX hNN h1 h2),
   fun h1 h2 => skip_result s _ _ hPC (emulate_5XY0 s config rand X Y hX hY h1 h2),
   fun h1 h2 => skip_result s _ _ hPC (emulate_9XY0 s config rand X Y hX hY h1 h2)⟩

/-- Witness of C16: `3107` and `5120` skip, `4107` and `9120` do not. -/
theorem conditional_skip_witness :
    (emulate_instruction ex_3107 set_config_from_args 0).PC
      = (if ex_3107.V 1 = 7 then ex_3107.PC + 4 else ex_3107.PC + 2) ∧
    (emulate_instruction ex_4107 set_config_from_args 0).PC
      = (if ex_4107.V 1 ≠ 7 then ex_4107.PC + 4 else ex_4107.PC + 2) ∧
    (emulate_instruction ex_5120 set_config_from_args 0).PC
      = (if ex_5120.V 1 = ex_5120.V 2 then ex_5120.PC + 4 else ex_5120.PC + 2) ∧
    (emulate_instruction ex_9120 set_config_from_args 0).PC
      = (if ex_9120.V 1 ≠ ex_9120.V 2 then ex_9120.PC + 4 else ex_9120.PC + 2) :=
  ⟨((conditional_skip ex_3107 set_config_from_args 0 1 0 7 (by decide) (by decide)
      (by decide) (by decide)).1 rfl rfl).1,
   ((conditional_skip ex_4107 set_config_from_args 0 1 0 7 (by decide) (by decide)
      (by decide) (by decide)).2.1 rfl rfl).1,
   ((conditional_skip ex_5120 set_config_from_args 0 1 2 0 (by decide) (by decide)
      (by decide) (by decide)).2.2.1 rfl rfl).1,
   ((conditional_skip ex_9120 set_config_from_args 0 1 2 0 (by decide) (by decide)
      (by decide) (by decide)).2.2.2 rfl rfl).1⟩

/-! ## Draw with `N = 0` -/

/-- One cycle on `DXY0`: the row loop does not run. -/
theorem emulate_DXY0 (s : chip8_t) (config : config_t) (rand X Y : Nat) (hX : X < 16)
    (hY : Y < 16) (h1 : s.ram s.PC = 0xD0 + X) (h2 : s.ram (s.PC + 1) = 0x10 * Y) :
    emulate_instruction s config rand =
      { fetch_decode s with V := upd s.V 0xF 0, draw := true } := by
  obtain ⟨hfam, -, -, -, hNf, hXf, hYf⟩ :=
    decode_nibbles s 13 X Y 0 (by omega) hX hY (by omega) (by omega) (by omega)
  have hVe : (fetch_decode s).V = s.V := rfl
  simp [emulate_instruction, execute, hfam, hNf, hXf, hYf, hVe, draw_rows]

/-- C19 as the code has it: a draw instruction `DXY0` (`N = 0`) draws a
sprite of zero rows: one cycle changes no framebuffer cell, sets `V[F] = 0`
and the redraw flag, and leaves the other registers, memory and the index
register unchanged. -/
theorem draw_zero_rows (s : chip8_t) (config : config_t) (rand X Y : Nat) (hX : X < 16)
    (hY : Y < 16) (h1 : s.ram s.PC = 0xD0 + X) (h2 : s.ram (s.PC + 1) = 0x10 * Y) :
    (emulate_instruction s config rand).display = s.display ∧
    (emulate_instruction s config rand).V 0xF = 0 ∧
    (∀ k, k ≠ 0xF → (emulate_instruction s config rand).V k = s.V k) ∧
    (emulate_instruction s config rand).draw = true ∧
    (emulate_instruction s config rand).ram = s.ram ∧
    (emulate_instruction s config rand).I = s.I := by
  rw [emulate_DXY0 s config rand X Y hX hY h1 h2]
  refine ⟨rfl, ?_, fun k hk => ?_, rfl, rfl, rfl⟩
  · show upd s.V 0xF 0 0xF = 0
    exact upd_same _ _ _
  · show upd s.V 0xF 0 k = s.V k
    exact upd_of_ne _ _ _ _ hk

/-- Witness of the amended C19: `D010` on the freshly loaded machine. -/
theorem draw_zero_rows_witness :
    (emulate_instruction ex_D010 set_config_from_args 0).display = ex_D010.display ∧
    (emulate_instruction ex_D010 set_config_from_args 0).V 0xF = 0 ∧
    (emulate_instruction ex_D010 set_config_from_args 0).draw = true :=
  have h := draw_zero_rows ex_D010 set_config_from_args 0 0 1 (by decide) (by decide)
    (by decide) (by decide)
  ⟨h.1, h.2.1, h.2.2.2.1⟩

/-- Counterexample to C19 as stated: `D010` with `I = 0`, `V[0] = V[1] = 0` on
an all-false framebuffer.  A sprite of 16 rows would XOR bit 7 of `ram[0]`
(`0xF0`, bit 7 set) into cell `(0, 0)`, which the reference definition with 16
rows makes true; the code leaves the cell false. -/
theorem draw_zero_rows_counterexample :
    ex_D010.ram ex_D010.PC = 0xD0 + 0 ∧ ex_D010.ram (ex_D010.PC + 1) = 0x10 * 1 + 0 ∧
    ex_D010.V 0 % 64 = 0 ∧ ex_D010.V 1 % 32 = 0 ∧
    (ex_D010.ram ex_D010.I).testBit 7 = true ∧
    ex_D010.display (64 * 0 + 0) = false ∧
    draw_reference ex_D010 0 1 16 0 0 = true ∧
    (emulate_instruction ex_D010 set_config_from_args 0).display (64 * 0 + 0) = false := by
  refine ⟨by decide, by decide, by decide, by decide, by decide, rfl, by decide, ?_⟩
  rw [emulate_DXY0 ex_D010 set_config_from_args 0 0 1 (by decide) (by decide)
    (by decide) (by decide)]
  rfl

/-! ## Loading the ROM -/

/-- The memory `init_chip8` leaves when it fails on the size test or before:
the font and nothing else. -/
theorem font_only_ram (a : Nat) :
    ({ zeroed with
        ram := fun a => if a < font.length then font.getD a 0 else zeroed.ram a } :
      chip8_t).ram a = if a < 80 then font.getD a 0 else 0 := rfl

/-- C18 (ROM loading): whenever `init_chip8` succeeds on a ROM of `L` bytes,
`L <= 3584`, memory bytes 0..79 hold the font, `ram[512 + i]` is the `i`-th
ROM byte for `i < L`, every other memory byte is 0, the program counter is
512, all registers, timers and framebuffer cells are zero/false, the call
stack is empty and the lifecycle state is `RUNNING`; for every ROM longer
than 3584 bytes `init_chip8` returns false, memory holds the font and no ROM
byte, and the state is not `RUNNING`. -/
theorem rom_loading (config : config_t) (bytes : List Nat) :
    ((init_chip8 config (some bytes)).1 = true →
      bytes.length ≤ 3584 ∧
      (∀ a, a < 80 → (init_chip8 config (some bytes)).2.ram a = font.getD a 0) ∧
      (∀ i, i < bytes.length →
        (init_chip8 config (some bytes)).2.ram (512 + i) = bytes.getD i 0) ∧
      (∀ a, 80 ≤ a → ¬ (512 ≤ a ∧ a < 512 + bytes.length) →
        (init_chip8 config (some bytes)).2.ram a = 0) ∧
      (init_chip8 config (some bytes)).2.PC = 512 ∧
      (init_chip8 config (some bytes)).2.I = 0 ∧
      (∀ i, (init_chip8 config (some bytes)).2.V i = 0) ∧
      (init_chip8 config (some bytes)).2.delay_timer = 0 ∧
      (init_chip8 config (some bytes)).2.sound_timer = 0 ∧
      (∀ p, (init_chip8 config (some bytes)).2.display p = false) ∧
      (init_chip8 config (some bytes)).2.stack_ptr = 0 ∧
      (init_chip8 config (some bytes)).2.state = emulator_state_t.RUNNING) ∧
    (bytes.length > 3584 →
      (init_chip8 config (some bytes)).1 = false ∧
      (∀ a, (init_chip8 config (some bytes)).2.ram a
        = if a < 80 then font.getD a 0 else 0) ∧
      (init_chip8 config (some bytes)).2.state ≠ emulator_state_t.RUNNING) := by
  have hlen : font.length = 80 := rfl
  constructor
  · intro hok
    by_cases hbig : bytes.length > 4096 - 0x200
    · have : (init_chip8 config (some bytes)).1 = false := by
        simp [init_chip8, hbig]
      rw [this] at hok
      exact Bool.noConfusion hok
    · by_cases hz : bytes.length = 0
      · have : (init_chip8 config (some bytes)).1 = false := by
          simp [init_chip8, hz]
        rw [this] at hok
        exact Bool.noConfusion hok
      · have hinit : init_chip8 config (some bytes) =
            (true,
              { zeroed with
                state := emulator_state_t.RUNNING
                PC := 0x200
                stack_ptr := 0
                ram := fun a =>
                  if 0x200 ≤ a ∧ a < 0x200 + bytes.length then bytes.getD (a - 0x200) 0
                  else if a < font.length then font.getD a 0 else zeroed.ram a
                pixel_color := fun i =>
                  if i < 64 * 32 then (config.bg_color % 256) * 0x01010101
                  else zeroed.pixel_color i }) := by
          simp only [init_chip8, hbig, hz, if_false]
        rw [hinit]
        refine ⟨by omega, fun a ha => ?_, fun i hi => ?_, fun a ha hn => ?_, rfl, rfl,
          fun _ => rfl, rfl, rfl, fun _ => rfl, rfl, rfl⟩
        · have hn : ¬ (0x200 ≤ a ∧ a < 0x200 + bytes.length) := by omega
          show (if 0x200 ≤ a ∧ a < 0x200 + bytes.length then bytes.getD (a - 0x200) 0
            else if a < font.length then font.getD a 0 else zeroed.ram a) = _
          rw [if_neg hn, hlen, if_pos ha]
        · have hy : 0x200 ≤ 512 + i ∧ 512 + i < 0x200 + bytes.length := by omega
          have he : 512 + i - 0x200 = i := by omega
          show (if 0x200 ≤ 512 + i ∧ 512 + i < 0x200 + bytes.length
            then bytes.getD (512 + i - 0x200) 0
            else if 512 + i < font.length then font.getD (512 + i) 0
              else zeroed.ram (512 + i)) = _
          rw [if_pos hy, he]
        · have hn2 : ¬ (0x200 ≤ a ∧ a < 0x200 + bytes.length) := by omega
          have hn3 : ¬ (a < 80) := by omega
          show (if 0x200 ≤ a ∧ a < 0x200 + bytes.length then bytes.getD (a - 0x200) 0
            else if a < font.length then font.getD a 0 else zeroed.ram a) = _
          rw [if_neg hn2, hlen, if_neg hn3]
          rfl
  · intro hbig
    have hbig2 : bytes.length > 4096 - 0x200 := by omega
    have hinit : init_chip8 config (some bytes) =
        (false,
          { zeroed with
            ram := fun a => if a < font.length then font.getD a 0 else zeroed.ram a }) := by
      simp only [init_chip8, hbig2, if_true]
    rw [hinit]
    exact ⟨rfl, fun a => font_only_ram a, fun h => emulator_state_t.noConfusion h⟩

/-- Witness of C18: the two-byte ROM `1200` loads, the ROM of 3585 bytes does
not. -/
theorem rom_loading_witness :
    ((init_chip8 set_config_from_args (some [0x12, 0x00])).1 = true ∧
      (init_chip8 set_config_from_args (some [0x12, 0x00])).2.ram (512 + 0) = 0x12 ∧
      (init_chip8 set_config_from_args (some [0x12, 0x00])).2.PC = 512 ∧
      (init_chip8 set_config_from_args (some [0x12, 0x00])).2.state
        = emulator_state_t.RUNNING) ∧
    (rom_too_big.length > 3584 ∧
      (init_chip8 set_config_from_args (some rom_too_big)).1 = false ∧
      (init_chip8 set_config_from_args (some rom_too_big)).2.state
        ≠ emulator_state_t.RUNNING) :=
  have hok : (init_chip8 set_config_from_args (some [0x12, 0x00])).1 = true := by decide
  have h1 := (rom_loading set_config_from_args [0x12, 0x00]).1 hok
  have hbig : rom_too_big.length > 3584 := by
    show (List.replicate 3585 0xFF).length > 3584
    rw [List.length_replicate]
    decide
  have h2 := (rom_loading set_config_from_args rom_too_big).2 hbig
  ⟨⟨hok, h1.2.2.1 0 (by decide), h1.2.2.2.2.1, h1.2.2.2.2.2.2.2.2.2.2.2⟩,
   ⟨hbig, h2.1, h2.2.2⟩⟩

/-! ## Registers across the loops of family F -/

theorem key_scan_V (n i : Nat) (c : chip8_t) :
    (key_scan n i c).V = c.V ∧ (key_scan n i c).inst = c.inst := by
  induction n generalizing i with
  | zero => exact ⟨rfl, rfl⟩
  | succ n ih =>
    simp only [key_scan]
    split
    · split
      · exact ⟨rfl, rfl⟩
      · exact ih _
    · exact ⟨rfl, rfl⟩

theorem store_loop_V (n i : Nat) (c : chip8_t) : (store_loop n i c).V = c.V := by
  induction n generalizing i c with
  | zero => rfl
  | succ n ih =>
    simp only [store_loop]
    rw [ih]

theorem load_loop_V_above (n i j : Nat) (c : chip8_t) (hj : i + n ≤ j) :
    (load_loop n i c).V j = c.V j := by
  induction n generalizing i c with
  | zero => rfl
  | succ n ih =>
    simp only [load_loop]
    rw [ih (i + 1) _ (by omega)]
    exact upd_of_ne _ _ _ _ (by omega)

/-- The selector of the `switch` is one of the sixteen families. -/
theorem family_cases (op : Nat) :
    (op >>> 12) &&& 0x0F = 0 ∨ (op >>> 12) &&& 0x0F = 1 ∨ (op >>> 12) &&& 0x0F = 2 ∨
    (op >>> 12) &&& 0x0F = 3 ∨ (op >>> 12) &&& 0x0F = 4 ∨ (op >>> 12) &&& 0x0F = 5 ∨
    (op >>> 12) &&& 0x0F = 6 ∨ (op >>> 12) &&& 0x0F = 7 ∨ (op >>> 12) &&& 0x0F = 8 ∨
    (op >>> 12) &&& 0x0F = 9 ∨ (op >>> 12) &&& 0x0F = 10 ∨ (op >>> 12) &&& 0x0F = 11 ∨
    (op >>> 12) &&& 0x0F = 12 ∨ (op >>> 12) &&& 0x0F = 13 ∨ (op >>> 12) &&& 0x0F = 14 ∨
    (op >>> 12) &&& 0x0F = 15 := by
  rw [and_0F]
  omega

/-- Family F leaves `V[F]` alone when the selector `X` is below 15. -/
theorem execute_V15_F (c : chip8_t) (config : config_t) (rand : Nat) (hX : c.inst.X < 15)
    (h : (c.inst.opcode >>> 12) &&& 0x0F = 15) :
    (execute c config rand).V 0xF = c.V 0xF := by
  have hne : (0xF : Nat) ≠ c.inst.X := by omega
  have hk := key_scan_V 16 0 c
  simp only [execute, h]
  simp
  split_ifs
  · exact upd_of_ne _ _ _ _ hne
  · show (key_scan 16 0 c).V 15 = c.V 15
    rw [hk.1]
  · show (key_scan 16 0 c).V 15 = c.V 15
    rw [hk.1]
  · show upd (key_scan 16 0 c).V (key_scan 16 0 c).inst.X _ 15 = c.V 15
    rw [hk.2, upd_of_ne _ _ _ _ hne, hk.1]
  · rfl
  · rfl
  · rfl
  · rfl
  · rfl
  · rw [store_loop_V]
  · exact load_loop_V_above _ _ _ _ (by omega)
  · rfl

/-- The `switch` leaves `V[F]` alone when the selector `X` is below 15 and the
instruction is neither a draw nor one of `8XY4`, `8XY5`, `8XY6`, `8XY7`,
`8XYE`. -/
theorem execute_V15 (c : chip8_t) (config : config_t) (rand : Nat) (hX : c.inst.X < 15)
    (hD : (c.inst.opcode >>> 12) &&& 0x0F ≠ 0x0D)
    (h8 : (c.inst.opcode >>> 12) &&& 0x0F = 0x08 →
      c.inst.N ≠ 4 ∧ c.inst.N ≠ 5 ∧ c.inst.N ≠ 6 ∧ c.inst.N ≠ 7 ∧ c.inst.N ≠ 0xE) :
    (execute c config rand).V 0xF = c.V 0xF := by
  have hne : (0xF : Nat) ≠ c.inst.X := by omega
  have hne2 : ¬ (c.inst.X = 15) := by omega
  have hk := key_scan_V 16 0 c
  rcases family_cases c.inst.opcode with
    h | h | h | h | h | h | h | h | h | h | h | h | h | h | h | h
  · simp only [execute, h]
    simp
    split_ifs <;> rfl
  · simp [execute, h]
  · simp [execute, h]
  · simp only [execute, h]
    simp
    split_ifs <;> rfl
  · simp only [execute, h]
    simp
    split_ifs <;> rfl
  · simp only [execute, h]
    simp
    split_ifs <;> rfl
  · simp [execute, h, upd_of_ne _ _ _ _ hne]
  · simp [execute, h, upd_of_ne _ _ _ _ hne]
  · obtain ⟨n4, n5, n6, n7, nE⟩ := h8 h
    simp only [execute, h]
    simp [n4, n5, n6, n7, nE]
    split_ifs <;> first | rfl | exact upd_of_ne _ _ _ _ hne
  · simp only [execute, h]
    simp
    split_ifs <;> rfl
  · simp [execute, h]
  · simp [execute, h]
  · simp [execute, h, upd_of_ne _ _ _ _ hne]
  · exact absurd h hD
  · simp only [execute, h]
    simp
    split_ifs <;> rfl
  · exact execute_V15_F c config rand hX h

/-! ## Words outside the instruction set -/

/-- One cycle on `0XE0`: family 0 looks at the low byte only. -/
theorem emulate_0XE0 (s : chip8_t) (config : config_t) (rand X : Nat) (hX : X < 16)
    (h1 : s.ram s.PC = X) (h2 : s.ram (s.PC + 1) = 0xE0) :
    emulate_instruction s config rand =
      { fetch_decode s with
        display := fun i => if i < 64 * 32 then false else s.display i
        draw := true } := by
  obtain ⟨hfam, -, -, hNN, -, -, -⟩ := decode s _ _ h1 h2 (by omega) (by omega)
  have e1 : X / 16 = 0 := by omega
  rw [e1] at hfam
  have hd : (fetch_decode s).display = s.display := rfl
  simp [emulate_instruction, execute, hfam, hNN, hd]

/-- One cycle on `0XEE`: family 0 looks at the low byte only. -/
theorem emulate_0XEE (s : chip8_t) (config : config_t) (rand X : Nat) (hX : X < 16)
    (h1 : s.ram s.PC = X) (h2 : s.ram (s.PC + 1) = 0xEE) :
    emulate_instruction s config rand =
      { fetch_decode s with
        stack_ptr := s.stack_ptr - 1
        PC := s.stack (s.stack_ptr - 1) } := by
  obtain ⟨hfam, -, -, hNN, -, -, -⟩ := decode s _ _ h1 h2 (by omega) (by omega)
  have e1 : X / 16 = 0 := by omega
  rw [e1] at hfam
  have hst : (fetch_decode s).stack = s.stack := rfl
  have hsp : (fetch_decode s).stack_ptr = s.stack_ptr := rfl
  simp [emulate_instruction, execute, hfam, hNN, hst, hsp]

/-- Every word outside the listed instruction set whose family is not 0 with
low byte `E0` or `EE` is a no-op: the cycle leaves the record `fetch_decode`
built, so that only `PC` (advanced by 2) and `inst` are written. -/
theorem unrecognized_noop (s : chip8_t) (config : config_t) (rand hi lo : Nat)
    (hhi : hi < 256) (hlo : lo < 256)
    (h1 : s.ram s.PC = hi) (h2 : s.ram (s.PC + 1) = lo)
    (hundef : ¬ defined_instruction hi lo)
    (h0 : ¬ (hi / 16 = 0 ∧ (lo = 0xE0 ∨ lo = 0xEE))) :
    emulate_instruction s config rand = fetch_decode s := by
  obtain ⟨hfam, -, -, hNN, hN, -, -⟩ := decode s hi lo h1 h2 hhi hlo
  unfold defined_instruction at hundef
  simp only [not_or] at hundef
  obtain ⟨-, u1, u2, u3, u4, u5, u6, u7, u8, u9, uA, uB, uC, uD, uE, uF⟩ := hundef
  unfold emulate_instruction
  rcases family_cases (fetch_decode s).inst.opcode with
    h | h | h | h | h | h | h | h | h | h | h | h | h | h | h | h
  · have hh := h
    rw [hfam] at hh
    have a1 : lo ≠ 0xE0 := fun e => h0 ⟨hh, Or.inl e⟩
    have a2 : lo ≠ 0xEE := fun e => h0 ⟨hh, Or.inr e⟩
    simp [execute, h, hNN, a1, a2]
  · rw [hfam] at h; exact absurd h u1
  · rw [hfam] at h; exact absurd h u2
  · rw [hfam] at h; exact absurd h u3
  · rw [hfam] at h; exact absurd h u4
  · have hh := h
    rw [hfam] at hh
    have a1 : lo % 16 ≠ 0 := fun e => u5 ⟨hh, e⟩
    simp [execute, h, hN, a1]
  · rw [hfam] at h; exact absurd h u6
  · rw [hfam] at h; exact absurd h u7
  · have hh := h
    rw [hfam] at hh
    have a : ¬ (lo % 16 ≤ 7 ∨ lo % 16 = 0xE) := fun e => u8 ⟨hh, e⟩
    have a0 : lo % 16 ≠ 0 := by omega
    have a1 : lo % 16 ≠ 1 := by omega
    have a2 : lo % 16 ≠ 2 := by omega
    have a3 : lo % 16 ≠ 3 := by omega
    have a4 : lo % 16 ≠ 4 := by omega
    have a5 : lo % 16 ≠ 5 := by omega
    have a6 : lo % 16 ≠ 6 := by omega
    have a7 : lo % 16 ≠ 7 := by omega
    have a8 : lo % 16 ≠ 14 := by omega
    simp [execute, h, hN, a0, a1, a2, a3, a4, a5, a6, a7, a8]
  · have hh := h
    rw [hfam] at hh
    have a1 : lo % 16 ≠ 0 := fun e => u9 ⟨hh, e⟩
    simp [execute, h, hN, a1]
  · rw [hfam] at h; exact absurd h uA
  · rw [hfam] at h; exact absurd h uB
  · rw [hfam] at h; exact absurd h uC
  · rw [hfam] at h; exact absurd h uD
  · have hh := h
    rw [hfam] at hh
    have a1 : lo ≠ 0x9E := fun e => uE ⟨hh, Or.inl e⟩
    have a2 : lo ≠ 0xA1 := fun e => uE ⟨hh, Or.inr e⟩
    simp [execute, h, hNN, a1, a2]
  · have hh := h
    rw [hfam] at hh
    have a : ¬ (lo = 0x07 ∨ lo = 0x0A ∨ lo = 0x15 ∨ lo = 0x18 ∨ lo = 0x1E ∨
        lo = 0x29 ∨ lo = 0x33 ∨ lo = 0x55 ∨ lo = 0x65) := fun e => uF ⟨hh, e⟩
    simp only [not_or] at a
    obtain ⟨a0, a1, a2, a3, a4, a5, a6, a7, a8⟩ := a
    simp [execute, h, hNN, a0, a1, a2, a3, a4, a5, a6, a7, a8]

/-- C17 at a failing input: the word `01E0` is none of the listed
instructions, yet one cycle on it clears the framebuffer cell that was set
and raises the redraw flag; the word `01EE`, also unlisted, moves the stack
pointer below the stack. -/
theorem unrecognized_opcode_failing :
    (¬ defined_instruction 0x01 0xE0 ∧
      ex_01E0.ram ex_01E0.PC = 0x01 ∧ ex_01E0.ram (ex_01E0.PC + 1) = 0xE0 ∧
      ex_01E0.display 5 = true ∧ ex_01E0.draw = false ∧
      (emulate_instruction ex_01E0 set_config_from_args 0).display 5 = false ∧
      (emulate_instruction ex_01E0 set_config_from_args 0).draw = true) ∧
    (¬ defined_instruction 0x01 0xEE ∧
      ex_01EE.ram ex_01EE.PC = 0x01 ∧ ex_01EE.ram (ex_01EE.PC + 1) = 0xEE ∧
      ex_01EE.stack_ptr = 0 ∧
      (emulate_instruction ex_01EE set_config_from_args 0).stack_ptr = -1) := by
  refine ⟨⟨?_, by decide, by decide, rfl, rfl, ?_, ?_⟩, ⟨?_, by decide, by decide, rfl, ?_⟩⟩
  · unfold defined_instruction; decide
  · rw [emulate_0XE0 ex_01E0 set_config_from_args 0 1 (by decide) (by decide) (by decide)]
    rfl
  · rw [emulate_0XE0 ex_01E0 set_config_from_args 0 1 (by decide) (by decide) (by decide)]
  · unfold defined_instruction; decide
  · rw [emulate_0XEE ex_01EE set_config_from_args 0 1 (by decide) (by decide) (by decide)]
    rfl

/-! ## Shift amount -/

/-- C24 (the shift amount is the value of register `Y`): for `X` other than
`F`, every `Y` and register contents with `V[Y] <= 22`, after `8XY6` the new
`V[X]` is the old `V[X]` divided by `2 ^ V[Y]` (rounded down) and after
`8XYE` it is the old `V[X]` times `2 ^ V[Y]` modulo 256; the result is 0
whenever `V[Y] >= 8` and `V[X]` is unchanged when `V[Y] = 0`. -/
theorem shift_amount (s : chip8_t) (config : config_t) (rand X Y : Nat)
    (hX : X < 16) (hXF : X ≠ 0xF) (hY : Y < 16) (hs : wf s) (_hVY : s.V Y ≤ 22) :
    (s.ram s.PC = 0x80 + X → s.ram (s.PC + 1) = 0x10 * Y + 0x6 →
      (emulate_instruction s config rand).V X = s.V X / 2 ^ s.V Y ∧
      (8 ≤ s.V Y → (emulate_instruction s config rand).V X = 0) ∧
      (s.V Y = 0 → (emulate_instruction s config rand).V X = s.V X)) ∧
    (s.ram s.PC = 0x80 + X → s.ram (s.PC + 1) = 0x10 * Y + 0xE →
      (emulate_instruction s config rand).V X = (s.V X * 2 ^ s.V Y) % 256 ∧
      (8 ≤ s.V Y → (emulate_instruction s config rand).V X = 0) ∧
      (s.V Y = 0 → (emulate_instruction s config rand).V X = s.V X)) := by
  have bX := hs.V_u8 X hX
  refine ⟨fun h1 h2 => ?_, fun h1 h2 => ?_⟩
  · have hval : (emulate_instruction s config rand).V X = s.V X / 2 ^ s.V Y := by
      rw [emulate_8XY6 s config rand X Y hX hY h1 h2]
      show upd (upd s.V X ((s.V X >>> s.V Y) % 256)) 0xF _ X = _
      rw [upd_of_ne _ _ _ _ hXF, upd_same, Nat.shiftRight_eq_div_pow]
      have hle : s.V X / 2 ^ s.V Y ≤ s.V X := Nat.div_le_self _ _
      exact Nat.mod_eq_of_lt (Nat.lt_of_le_of_lt hle bX)
    refine ⟨hval, fun h8 => ?_, fun h0 => ?_⟩
    · rw [hval]
      apply Nat.div_eq_of_lt
      have hpow : 2 ^ 8 ≤ 2 ^ s.V Y := Nat.pow_le_pow_right (by decide) h8
      have e : (2 : Nat) ^ 8 = 256 := by norm_num
      omega
    · rw [hval, h0]
      simp
  · have hval : (emulate_instruction s config rand).V X = (s.V X * 2 ^ s.V Y) % 256 := by
      rw [emulate_8XYE s config rand X Y hX hY h1 h2]
      show upd (upd s.V X ((s.V X <<< s.V Y) % 256)) 0xF _ X = _
      rw [upd_of_ne _ _ _ _ hXF, upd_same, Nat.shiftLeft_eq]
    refine ⟨hval, fun h8 => ?_, fun h0 => ?_⟩
    · rw [hval]
      have hsplit : 2 ^ s.V Y = 256 * 2 ^ (s.V Y - 8) := by
        have e : s.V Y = 8 + (s.V Y - 8) := by omega
        conv_lhs => rw [e, Nat.pow_add]
      rw [hsplit, ← Nat.mul_assoc, Nat.mul_comm (s.V X) 256, Nat.mul_assoc]
      exact Nat.mul_mod_right _ _
    · rw [hval, h0]
      simp
      omega

/-- Witness of C24: `V[1] = 200` shifted by `V[2] = 3`. -/
theorem shift_amount_witness :
    (emulate_instruction ex_shr3 set_config_from_args 0).V 1 = ex_shr3.V 1 / 2 ^ ex_shr3.V 2 ∧
    (emulate_instruction ex_shl3 set_config_from_args 0).V 1
      = (ex_shl3.V 1 * 2 ^ ex_shl3.V 2) % 256 :=
  ⟨((shift_amount ex_shr3 set_config_from_args 0 1 2 (by decide) (by decide) (by decide)
      (wf_prog _ _ _ (by decide) (by decide) (regs2_u8 _ _ _ _ (by decide) (by decide)))
      (by decide)).1 rfl rfl).1,
   ((shift_amount ex_shl3 set_config_from_args 0 1 2 (by decide) (by decide) (by decide)
      (wf_prog _ _ _ (by decide) (by decide) (regs2_u8 _ _ _ _ (by decide) (by decide)))
      (by decide)).2 rfl rfl).1⟩

/-! ## Key wait: capture, hold, release -/

/-- A cycle of `FX0A` that finds key `k` pending. -/
theorem emulate_FX0A_pending (s : chip8_t) (config : config_t) (rand X k : Nat)
    (hX : X < 16) (hk : k < 16)
    (h1 : s.ram s.PC = 0xF0 + X) (h2 : s.ram (s.PC + 1) = 0x0A)
    (hkey : s.key = k) (hany : s.any_key_pressed = true) :
    emulate_instruction s config rand =
      if s.keypad k then { fetch_decode s with PC := sub_u16 ((s.PC + 2) % 65536) 2 }
      else { fetch_decode s with V := upd s.V X k, key := 0xFF, any_key_pressed := false } := by
  have hne : k ≠ 0xFF := by omega
  have hscan : key_scan 16 0 (fetch_decode s) = fetch_decode s := by
    have hc : (fetch_decode s).key = k := hkey
    simp [key_scan, hc, hne]
  obtain ⟨-, -, -, -, -, hXf, -⟩ :=
    decode_nibbles s 15 X 0 10 (by omega) hX (by omega) (by omega) (by omega) (by omega)
  have hany2 : (fetch_decode s).any_key_pressed = true := hany
  have hkey2 : (fetch_decode s).key = k := hkey
  have hkp : (fetch_decode s).keypad = s.keypad := rfl
  have hV : (fetch_decode s).V = s.V := rfl
  have hpc : (fetch_decode s).PC = (s.PC + 2) % 65536 := rfl
  rw [emulate_FX0A s config rand X hX h1 h2, hscan]
  simp only [hany2, hkey2, hkp, hV, hpc, hXf, Bool.not_true, Bool.false_eq_true, if_false]

/-- C23 (key-wait debounce): if no key is pending and the lowest key down
during a cycle of `FX0A` is `k`, that cycle re-fetches and writes no register
(and records `k` as pending); while `k` is pending and still down a cycle of
the instruction re-fetches, writes no register and keeps `k` pending; once
`k` is pending and no longer down (whatever the other keys do) the cycle
stores `k` in `V[X]`, leaves the program counter after the instruction and
resets the pending-key state to its initial value. -/
theorem key_wait_debounce (s s2 : chip8_t) (config : config_t) (rand rand2 X k : Nat)
    (hX : X < 16) (hk : k < 16) (hPC : s.PC + 1 < 4096) (hPC2 : s2.PC + 1 < 4096)
    (h1 : s.ram s.PC = 0xF0 + X) (h2 : s.ram (s.PC + 1) = 0x0A)
    (hkey : s.key = 0xFF) (_hany : s.any_key_pressed = false)
    (hdown : s.keypad k = true) (hlow : ∀ j, j < k → s.keypad j = false)
    (h3 : s2.ram s2.PC = 0xF0 + X) (h4 : s2.ram (s2.PC + 1) = 0x0A)
    (hkey2 : s2.key = k) (hany2 : s2.any_key_pressed = true) :
    ((emulate_instruction s config rand).PC = s.PC ∧
      (emulate_instruction s config rand).V = s.V ∧
      (emulate_instruction s config rand).key = k ∧
      (emulate_instruction s config rand).any_key_pressed = true) ∧
    (s2.keypad k = true →
      (emulate_instruction s2 config rand2).PC = s2.PC ∧
      (emulate_instruction s2 config rand2).V = s2.V ∧
      (emulate_instruction s2 config rand2).key = k ∧
      (emulate_instruction s2 config rand2).any_key_pressed = true) ∧
    (s2.keypad k = false →
      (emulate_instruction s2 config rand2).V X = k ∧
      (∀ i, i ≠ X → (emulate_instruction s2 config rand2).V i = s2.V i) ∧
      (emulate_instruction s2 config rand2).PC = s2.PC + 2 ∧
      (emulate_instruction s2 config rand2).key = 0xFF ∧
      (emulate_instruction s2 config rand2).any_key_pressed = false) := by
  have hscan := key_scan_found 16 0 k (fetch_decode s) hkey hk (Nat.zero_le _) (by omega)
    (fun j _ hj => hlow j hj) hdown
  have hpc : sub_u16 (fetch_decode s).PC 2 = s.PC := by
    show sub_u16 ((s.PC + 2) % 65536) 2 = s.PC
    unfold sub_u16
    omega
  have hfirst : emulate_instruction s config rand =
      { fetch_decode s with key := k, any_key_pressed := true, PC := s.PC } := by
    rw [emulate_FX0A s config rand X hX h1 h2, hscan]
    simp only [Bool.not_true, Bool.false_eq_true, if_false]
    have : (fetch_decode s).keypad k = true := hdown
    simp only [this, if_true, hpc]
  have hsecond := emulate_FX0A_pending s2 config rand2 X k hX hk h3 h4 hkey2 hany2
  refine ⟨⟨by rw [hfirst], by rw [hfirst]; rfl, by rw [hfirst], by rw [hfirst]⟩,
    fun hd => ?_, fun hu => ?_⟩
  · rw [hsecond, hd, if_pos rfl]
    refine ⟨?_, rfl, hkey2, hany2⟩
    show sub_u16 ((s2.PC + 2) % 65536) 2 = s2.PC
    unfold sub_u16
    omega
  · rw [hsecond, hu, if_neg Bool.false_ne_true]
    refine ⟨?_, fun i hi => ?_, ?_, rfl, rfl⟩
    · show upd s2.V X k X = k
      exact upd_same _ _ _
    · show upd s2.V X k i = s2.V i
      exact upd_of_ne _ _ _ _ hi
    · show (s2.PC + 2) % 65536 = s2.PC + 2
      omega

theorem ex_keys59_low : ∀ j, j < 5 → ex_F30A_keys59.keypad j = false := by
  intro j hj
  have h9 : j ≠ 9 := by omega
  have h5 : j ≠ 5 := by omega
  show upd (upd zeroed.keypad 5 true) 9 true j = false
  rw [upd_of_ne _ _ _ _ h9, upd_of_ne _ _ _ _ h5]
  rfl

/-- Witness of C23: `F30A` with keys 5 and 9 down captures key 5; with key 5
held the cycle re-fetches; with key 5 released (key 9 still down) the cycle
stores 5 in `V[3]` and advances. -/
theorem key_wait_debounce_witness :
    ((emulate_instruction ex_F30A_keys59 set_config_from_args 0).PC = ex_F30A_keys59.PC ∧
      (emulate_instruction ex_F30A_keys59 set_config_from_args 0).key = 5) ∧
    ((emulate_instruction ex_F30A_held5 set_config_from_args 0).PC = ex_F30A_held5.PC ∧
      (emulate_instruction ex_F30A_held5 set_config_from_args 0).V = ex_F30A_held5.V) ∧
    ((emulate_instruction ex_F30A_released5 set_config_from_args 0).V 3 = 5 ∧
      (emulate_instruction ex_F30A_released5 set_config_from_args 0).PC
        = ex_F30A_released5.PC + 2 ∧
      (emulate_instruction ex_F30A_released5 set_config_from_args 0).key = 0xFF) :=
  have ha := key_wait_debounce ex_F30A_keys59 ex_F30A_held5 set_config_from_args 0 0 3 5
    (by decide) (by decide) (by decide) (by decide) rfl rfl rfl rfl rfl ex_keys59_low
    rfl rfl rfl rfl
  have hb := key_wait_debounce ex_F30A_keys59 ex_F30A_released5 set_config_from_args 0 0 3 5
    (by decide) (by decide) (by decide) (by decide) rfl rfl rfl rfl rfl ex_keys59_low
    rfl rfl rfl rfl
  ⟨⟨ha.1.1, ha.1.2.2.1⟩,
   ⟨(ha.2.1 rfl).1, (ha.2.1 rfl).2.1⟩,
   ⟨(hb.2.2 rfl).1, (hb.2.2 rfl).2.2.1, (hb.2.2 rfl).2.2.2.1⟩⟩

/-! ## The cycles of one frame -/

/-- The loop of a frame: it runs at most `n` cycles, each cycle is
`emulate_instruction` on the record the previous one left, a cycle whose
opcode family is `0xD` is the last one, and without such a cycle all `n`
run. -/
theorem frame_cycles_spec (config : config_t) (rands : Nat → Nat) (n i : Nat) (c : chip8_t) :
    (frame_cycles config rands n i c).length ≤ n ∧
    (∀ j, j < (frame_cycles config rands n i c).length →
      (frame_cycles config rands n i c).getD j c =
        emulate_instruction
          (if j = 0 then c else (frame_cycles config rands n i c).getD (j - 1) c)
          config (rands (i + j))) ∧
    (∀ j, j < (frame_cycles config rands n i c).length →
      ((frame_cycles config rands n i c).getD j c).inst.opcode >>> 12 = 0xD →
      j + 1 = (frame_cycles config rands n i c).length) ∧
    ((∀ j, j < (frame_cycles config rands n i c).length →
        ((frame_cycles config rands n i c).getD j c).inst.opcode >>> 12 ≠ 0xD) →
      (frame_cycles config rands n i c).length = n) := by
  induction n generalizing i c with
  | zero =>
    refine ⟨Nat.le_refl _, fun j hj => ?_, fun j hj => ?_, fun _ => rfl⟩
    · exact absurd hj (Nat.not_lt_zero _)
    · exact absurd hj (Nat.not_lt_zero _)
  | succ n ih =>
    by_cases hd : (emulate_instruction c config (rands i)).inst.opcode >>> 12 = 0xD
    · have e : frame_cycles config rands (n + 1) i c
          = [emulate_instruction c config (rands i)] := by
        simp only [frame_cycles, hd, if_true]
      rw [e]
      refine ⟨by simp, fun j hj => ?_, fun j hj _ => ?_, fun h => ?_⟩
      · have hj0 : j = 0 := by simpa using hj
        subst hj0
        simp
      · have hj0 : j = 0 := by simpa using hj
        subst hj0
        rfl
      · exact absurd hd (h 0 (by simp))
    · have e : frame_cycles config rands (n + 1) i c
          = emulate_instruction c config (rands i)
            :: frame_cycles config rands n (i + 1)
                (emulate_instruction c config (rands i)) := by
        simp only [frame_cycles, hd, if_false]
      obtain ⟨a1, a2, a3, a4⟩ := ih (i + 1) (emulate_instruction c config (rands i))
      rw [e]
      refine ⟨by simp only [List.length_cons]; omega, fun j hj => ?_, fun j hj hdraw => ?_,
        fun h => ?_⟩
      · cases j with
        | zero => simp
        | succ j =>
          have hj2 : j < (frame_cycles config rands n (i + 1)
              (emulate_instruction c config (rands i))).length := by
            simpa using hj
          have hget : ∀ (l : List chip8_t) (k : Nat) (d1 d2 : chip8_t), k < l.length →
              l.getD k d1 = l.getD k d2 := by
            intro l k d1 d2 hk
            simp [List.getD_eq_getElem?_getD, List.getElem?_eq_getElem hk]
          have h2 := a2 j hj2
          rw [List.getD_cons_succ, hget _ j c _ hj2, h2]
          have eidx : i + 1 + j = i + (j + 1) := by omega
          rw [eidx]
          congr 1
          cases j with
          | zero => simp
          | succ k =>
            have hk : k < (frame_cycles config rands n (i + 1)
                (emulate_instruction c config (rands i))).length := by omega
            simp only [Nat.succ_ne_zero, if_false, Nat.add_sub_cancel, List.getD_cons_succ,
              Nat.add_one_ne_zero]
            exact hget _ k _ _ hk
      · cases j with
        | zero => exact absurd hdraw hd
        | succ j =>
          have hj2 : j < (frame_cycles config rands n (i + 1)
              (emulate_instruction c config (rands i))).length := by
            simpa using hj
          have hget : ∀ (l : List chip8_t) (k : Nat) (d1 d2 : chip8_t), k < l.length →
              l.getD k d1 = l.getD k d2 := by
            intro l k d1 d2 hk
            simp [List.getD_eq_getElem?_getD, List.getElem?_eq_getElem hk]
          rw [List.getD_cons_succ, hget _ j c _ hj2] at hdraw
          have := a3 j hj2 hdraw
          simp only [List.length_cons]
          omega
      · have hget : ∀ (l : List chip8_t) (k : Nat) (d1 d2 : chip8_t), k < l.length →
            l.getD k d1 = l.getD k d2 := by
          intro l k d1 d2 hk
          simp [List.getD_eq_getElem?_getD, List.getElem?_eq_getElem hk]
        have := a4 (fun j hj => by
          have h1 := h (j + 1) (by simp only [List.length_cons]; omega)
          rw [List.getD_cons_succ, hget _ j c _ hj] at h1
          exact h1)
        simp only [List.length_cons]
        omega

/-- C25 (per-frame draw throttle): with the default configuration (600
instructions per second, 60 ticks per second) one host frame executes at most
10 cycles, each of them `emulate_instruction` on the record the previous
cycle left; a cycle whose opcode family is `0xD` is the last cycle of its
frame, so at most one sprite draw executes per frame; without a draw exactly
10 cycles run. -/
theorem draw_throttle (c : chip8_t) (rands : Nat → Nat) :
    (run_frame set_config_from_args rands c).length ≤ 10 ∧
    (∀ j, j < (run_frame set_config_from_args rands c).length →
      (run_frame set_config_from_args rands c).getD j c =
        emulate_instruction
          (if j = 0 then c else (run_frame set_config_from_args rands c).getD (j - 1) c)
          set_config_from_args (rands j)) ∧
    (∀ j, j < (run_frame set_config_from_args rands c).length →
      ((run_frame set_config_from_args rands c).getD j c).inst.opcode >>> 12 = 0xD →
      j + 1 = (run_frame set_config_from_args rands c).length) ∧
    (∀ j k, j < (run_frame set_config_from_args rands c).length →
      k < (run_frame set_config_from_args rands c).length →
      ((run_frame set_config_from_args rands c).getD j c).inst.opcode >>> 12 = 0xD →
      ((run_frame set_config_from_args rands c).getD k c).inst.opcode >>> 12 = 0xD →
      j = k) ∧
    ((∀ j, j < (run_frame set_config_from_args rands c).length →
        ((run_frame set_config_from_args rands c).getD j c).inst.opcode >>> 12 ≠ 0xD) →
      (run_frame set_config_from_args rands c).length = 10) := by
  have hn : set_config_from_args.insts_per_second / 60 = 10 := rfl
  obtain ⟨a1, a2, a3, a4⟩ := frame_cycles_spec set_config_from_args rands 10 0 c
  unfold run_frame
  rw [hn]
  refine ⟨a1, fun j hj => ?_, a3, fun j k hj hk dj dk => ?_, a4⟩
  · have h := a2 j hj
    rw [Nat.zero_add] at h
    exact h
  · have h1 := a3 j hj dj
    have h2 := a3 k hk dk
    omega

/-- Witness of C25: on the ROM `6000 D001 1200` the second cycle of the frame
is the draw, and the frame has exactly two cycles. -/
theorem draw_throttle_witness :
    ((run_frame set_config_from_args (fun _ => 0) ex_draw_loop).getD 1 ex_draw_loop).inst.opcode
      >>> 12 = 0xD ∧
    1 + 1 = (run_frame set_config_from_args (fun _ => 0) ex_draw_loop).length :=
  have hlen : 1 < (run_frame set_config_from_args (fun _ => 0) ex_draw_loop).length := by
    decide
  have hdraw : ((run_frame set_config_from_args (fun _ => 0) ex_draw_loop).getD 1
      ex_draw_loop).inst.opcode >>> 12 = 0xD := by
    decide
  ⟨hdraw, (draw_throttle ex_draw_loop (fun _ => 0)).2.2.1 1 hlen hdraw⟩

/-! ## Program counter and call stack across the loops -/

theorem key_scan_ctl (n i : Nat) (c : chip8_t) :
    (key_scan n i c).PC = c.PC ∧ (key_scan n i c).stack_ptr = c.stack_ptr ∧
    (key_scan n i c).stack = c.stack := by
  induction n generalizing i with
  | zero => exact ⟨rfl, rfl, rfl⟩
  | succ n ih =>
    simp only [key_scan]
    split
    · split
      · exact ⟨rfl, rfl, rfl⟩
      · exact ih _
    · exact ⟨rfl, rfl, rfl⟩

theorem store_loop_ctl (n i : Nat) (c : chip8_t) :
    (store_loop n i c).PC = c.PC ∧ (store_loop n i c).stack_ptr = c.stack_ptr ∧
    (store_loop n i c).stack = c.stack := by
  induction n generalizing i c with
  | zero => exact ⟨rfl, rfl, rfl⟩
  | succ n ih =>
    simp only [store_loop]
    exact ih _ _

theorem load_loop_ctl (n i : Nat) (c : chip8_t) :
    (load_loop n i c).PC = c.PC ∧ (load_loop n i c).stack_ptr = c.stack_ptr ∧
    (load_loop n i c).stack = c.stack := by
  induction n generalizing i c with
  | zero => exact ⟨rfl, rfl, rfl⟩
  | succ n ih =>
    simp only [load_loop]
    exact ih _ _

theorem xor_pixel_ctl (config : config_t) (d y j x : Nat) (c : chip8_t) :
    (xor_pixel config d y j x c).PC = c.PC ∧
    (xor_pixel config d y j x c).stack_ptr = c.stack_ptr ∧
    (xor_pixel config d y j x c).stack = c.stack := by
  unfold xor_pixel
  refine ⟨?_, ?_, ?_⟩ <;> (simp only []; split <;> rfl)

theorem draw_cols_ctl (config : config_t) (d y n x : Nat) (c : chip8_t) :
    (draw_cols config d y n x c).PC = c.PC ∧
    (draw_cols config d y n x c).stack_ptr = c.stack_ptr ∧
    (draw_cols config d y n x c).stack = c.stack := by
  induction n generalizing x c with
  | zero => exact ⟨rfl, rfl, rfl⟩
  | succ n ih =>
    rw [draw_cols_succ]
    obtain ⟨p1, p2, p3⟩ := xor_pixel_ctl config d y n x c
    split
    · exact ⟨p1, p2, p3⟩
    · obtain ⟨h1, h2, h3⟩ := ih ((x + 1) % 256) (xor_pixel config d y n x c)
      exact ⟨h1.trans p1, h2.trans p2, h3.trans p3⟩

theorem draw_rows_ctl (config : config_t) (x0 n i y : Nat) (c : chip8_t) :
    (draw_rows config x0 n i y c).PC = c.PC ∧
    (draw_rows config x0 n i y c).stack_ptr = c.stack_ptr ∧
    (draw_rows config x0 n i y c).stack = c.stack := by
  induction n generalizing i y c with
  | zero => exact ⟨rfl, rfl, rfl⟩
  | succ n ih =>
    rw [draw_rows_succ]
    obtain ⟨p1, p2, p3⟩ := draw_cols_ctl config (c.ram (c.I + i)) y 8 x0 c
    split
    · exact ⟨p1, p2, p3⟩
    · obtain ⟨h1, h2, h3⟩ := ih (i + 1) ((y + 1) % 256)
        (draw_cols config (c.ram (c.I + i)) y 8 x0 c)
      exact ⟨h1.trans p1, h2.trans p2, h3.trans p3⟩

/-- Family F moves the program counter back by 2 or not at all, and leaves
the call stack alone. -/
theorem execute_ctl_F (c : chip8_t) (config : config_t) (rand : Nat)
    (h : (c.inst.opcode >>> 12) &&& 0x0F = 15) :
    ((execute c config rand).PC = c.PC ∨ (execute c config rand).PC = sub_u16 c.PC 2) ∧
    (execute c config rand).stack_ptr = c.stack_ptr ∧
    (execute c config rand).stack = c.stack := by
  obtain ⟨k1, k2, k3⟩ := key_scan_ctl 16 0 c
  obtain ⟨s1, s2, s3⟩ := store_loop_ctl (c.inst.X + 1) 0 c
  obtain ⟨l1, l2, l3⟩ := load_loop_ctl (c.inst.X + 1) 0 c
  simp only [execute, h]
  simp
  split_ifs
  · exact ⟨Or.inl rfl, rfl, rfl⟩
  · refine ⟨Or.inr ?_, k2, k3⟩
    show sub_u16 (key_scan 16 0 c).PC 2 = sub_u16 c.PC 2
    rw [k1]
  · refine ⟨Or.inr ?_, k2, k3⟩
    show sub_u16 (key_scan 16 0 c).PC 2 = sub_u16 c.PC 2
    rw [k1]
  · exact ⟨Or.inl k1, k2, k3⟩
  · exact ⟨Or.inl rfl, rfl, rfl⟩
  · exact ⟨Or.inl rfl, rfl, rfl⟩
  · exact ⟨Or.inl rfl, rfl, rfl⟩
  · exact ⟨Or.inl rfl, rfl, rfl⟩
  · exact ⟨Or.inl rfl, rfl, rfl⟩
  · exact ⟨Or.inl s1, s2, s3⟩
  · exact ⟨Or.inl l1, l2, l3⟩
  · exact ⟨Or.inl rfl, rfl, rfl⟩

theorem execute_ctl_0 (c : chip8_t) (config : config_t) (rand : Nat)
    (h : (c.inst.opcode >>> 12) &&& 0x0F = 0) (hr : c.inst.NN ≠ 0xEE) :
    (execute c config rand).PC = c.PC ∧
    (execute c config rand).stack_ptr = c.stack_ptr ∧
    (execute c config rand).stack = c.stack := by
  simp only [execute, h]
  simp [hr]
  split_ifs <;> exact ⟨rfl, rfl, rfl⟩

theorem execute_ctl_3 (c : chip8_t) (config : config_t) (rand : Nat)
    (h : (c.inst.opcode >>> 12) &&& 0x0F = 3) :
    ((execute c config rand).PC = c.PC ∨ (execute c config rand).PC = (c.PC + 2) % 65536) ∧
    (execute c config rand).stack_ptr = c.stack_ptr ∧
    (execute c config rand).stack = c.stack := by
  simp only [execute, h]
  simp
  split_ifs <;> first
    | exact ⟨Or.inr rfl, rfl, rfl⟩
    | exact ⟨Or.inl rfl, rfl, rfl⟩

theorem execute_ctl_4 (c : chip8_t) (config : config_t) (rand : Nat)
    (h : (c.inst.opcode >>> 12) &&& 0x0F = 4) :
    ((execute c config rand).PC = c.PC ∨ (execute c config rand).PC = (c.PC + 2) % 65536) ∧
    (execute c config rand).stack_ptr = c.stack_ptr ∧
    (execute c config rand).stack = c.stack := by
  simp only [execute, h]
  simp
  split_ifs <;> first
    | exact ⟨Or.inr rfl, rfl, rfl⟩
    | exact ⟨Or.inl rfl, rfl, rfl⟩

theorem execute_ctl_5 (c : chip8_t) (config : config_t) (rand : Nat)
    (h : (c.inst.opcode >>> 12) &&& 0x0F = 5) :
    ((execute c config rand).PC = c.PC ∨ (execute c config rand).PC = (c.PC + 2) % 65536) ∧
    (execute c config rand).stack_ptr = c.stack_ptr ∧
    (execute c config rand).stack = c.stack := by
  simp only [execute, h]
  simp
  split_ifs <;> first
    | exact ⟨Or.inr rfl, rfl, rfl⟩
    | exact ⟨Or.inl rfl, rfl, rfl⟩

theorem execute_ctl_9 (c : chip8_t) (config : config_t) (rand : Nat)
    (h : (c.inst.opcode >>> 12) &&& 0x0F = 9) :
    ((execute c config rand).PC = c.PC ∨ (execute c config rand).PC = (c.PC + 2) % 65536) ∧
    (execute c config rand).stack_ptr = c.stack_ptr ∧
    (execute c config rand).stack = c.stack := by
  simp only [execute, h]
  simp
  split_ifs <;> first
    | exact ⟨Or.inr rfl, rfl, rfl⟩
    | exact ⟨Or.inl rfl, rfl, rfl⟩

theorem execute_ctl_E (c : chip8_t) (config : config_t) (rand : Nat)
    (h : (c.inst.opcode >>> 12) &&& 0x0F = 14) :
    ((execute c config rand).PC = c.PC ∨ (execute c config rand).PC = (c.PC + 2) % 65536) ∧
    (execute c config rand).stack_ptr = c.stack_ptr ∧
    (execute c config rand).stack = c.stack := by
  simp only [execute, h]
  simp
  split_ifs <;> first
    | exact ⟨Or.inr rfl, rfl, rfl⟩
    | exact ⟨Or.inl rfl, rfl, rfl⟩

theorem execute_ctl_6 (c : chip8_t) (config : config_t) (rand : Nat)
    (h : (c.inst.opcode >>> 12) &&& 0x0F = 6) :
    (execute c config rand).PC = c.PC ∧
    (execute c config rand).stack_ptr = c.stack_ptr ∧
    (execute c config rand).stack = c.stack := by
  simp only [execute, h]
  simp

theorem execute_ctl_7 (c : chip8_t) (config : config_t) (rand : Nat)
    (h : (c.inst.opcode >>> 12) &&& 0x0F = 7) :
    (execute c config rand).PC = c.PC ∧
    (execute c config rand).stack_ptr = c.stack_ptr ∧
    (execute c config rand).stack = c.stack := by
  simp only [execute, h]
  simp

theorem execute_ctl_A (c : chip8_t) (config : config_t) (rand : Nat)
    (h : (c.inst.opcode >>> 12) &&& 0x0F = 10) :
    (execute c config rand).PC = c.PC ∧
    (execute c config rand).stack_ptr = c.stack_ptr ∧
    (execute c config rand).stack = c.stack := by
  simp only [execute, h]
  simp

theorem execute_ctl_C (c : chip8_t) (config : config_t) (rand : Nat)
    (h : (c.inst.opcode >>> 12) &&& 0x0F = 12) :
    (execute c config rand).PC = c.PC ∧
    (execute c config rand).stack_ptr = c.stack_ptr ∧
    (execute c config rand).stack = c.stack := by
  simp only [execute, h]
  simp

theorem execute_ctl_8 (c : chip8_t) (config : config_t) (rand : Nat)
    (h : (c.inst.opcode >>> 12) &&& 0x0F = 8) :
    (execute c config rand).PC = c.PC ∧
    (execute c config rand).stack_ptr = c.stack_ptr ∧
    (execute c config rand).stack = c.stack := by
  simp only [execute, h]
  simp
  split_ifs <;> exact ⟨rfl, rfl, rfl⟩

theorem execute_ctl_D (c : chip8_t) (config : config_t) (rand : Nat)
    (h : (c.inst.opcode >>> 12) &&& 0x0F = 13) :
    (execute c config rand).PC = c.PC ∧
    (execute c config rand).stack_ptr = c.stack_ptr ∧
    (execute c config rand).stack = c.stack := by
  obtain ⟨d1, d2, d3⟩ := draw_rows_ctl config
    (c.V c.inst.X % config.window_width % 256) c.inst.N 0
    (c.V c.inst.Y % config.window_height % 256) { c with V := upd c.V 0xF 0 }
  simp only [execute, h]
  simp
  exact ⟨d1, d2, d3⟩

/-- The `switch` on an instruction that is no jump (`1NNN`, `BNNN`), call
(`2NNN`) or return (family 0 with low byte `EE`): the program counter stays,
advances by 2 (a taken skip) or goes back by 2 (key wait), and the call stack
is left alone. -/
theorem execute_ctl (c : chip8_t) (config : config_t) (rand : Nat)
    (hJ : (c.inst.opcode >>> 12) &&& 0x0F ≠ 1) (hC : (c.inst.opcode >>> 12) &&& 0x0F ≠ 2)
    (hB : (c.inst.opcode >>> 12) &&& 0x0F ≠ 0xB)
    (hR : (c.inst.opcode >>> 12) &&& 0x0F = 0 → c.inst.NN ≠ 0xEE) :
    ((execute c config rand).PC = c.PC ∨ (execute c config rand).PC = (c.PC + 2) % 65536 ∨
      (execute c config rand).PC = sub_u16 c.PC 2) ∧
    (execute c config rand).stack_ptr = c.stack_ptr ∧
    (execute c config rand).stack = c.stack := by
  have same : ∀ {p : Prop} {q : Prop} {r : Prop},
      ((execute c config rand).PC = c.PC ∧ q ∧ r) →
      ((execute c config rand).PC = c.PC ∨ p ∨ (execute c config rand).PC = sub_u16 c.PC 2)
        ∧ q ∧ r :=
    fun hh => ⟨Or.inl hh.1, hh.2⟩
  have skip : ∀ {q : Prop} {r : Prop},
      (((execute c config rand).PC = c.PC ∨ (execute c config rand).PC = (c.PC + 2) % 65536)
        ∧ q ∧ r) →
      ((execute c config rand).PC = c.PC ∨ (execute c config rand).PC = (c.PC + 2) % 65536 ∨
        (execute c config rand).PC = sub_u16 c.PC 2) ∧ q ∧ r :=
    fun hh => ⟨hh.1.elim Or.inl (fun x => Or.inr (Or.inl x)), hh.2⟩
  rcases family_cases c.inst.opcode with
    h | h | h | h | h | h | h | h | h | h | h | h | h | h | h | h
  · exact same (execute_ctl_0 c config rand h (hR h))
  · exact absurd h hJ
  · exact absurd h hC
  · exact skip (execute_ctl_3 c config rand h)
  · exact skip (execute_ctl_4 c config rand h)
  · exact skip (execute_ctl_5 c config rand h)
  · exact same (execute_ctl_6 c config rand h)
  · exact same (execute_ctl_7 c config rand h)
  · exact same (execute_ctl_8 c config rand h)
  · exact skip (execute_ctl_9 c config rand h)
  · exact same (execute_ctl_A c config rand h)
  · exact absurd h hB
  · exact same (execute_ctl_C c config rand h)
  · exact same (execute_ctl_D c config rand h)
  · exact skip (execute_ctl_E c config rand h)
  · obtain ⟨f1, f2, f3⟩ := execute_ctl_F c config rand h
    exact ⟨f1.elim Or.inl (fun x => Or.inr (Or.inr x)), f2, f3⟩

/-! ## Program counter and stack depth, cycle by cycle -/

theorem init_ok_PC_sp (config : config_t) (bytes : List Nat)
    (hok : (init_chip8 config (some bytes)).1 = true) :
    (init_chip8 config (some bytes)).2.PC = 512 ∧
    (init_chip8 config (some bytes)).2.stack_ptr = 0 := by
  by_cases hbig : bytes.length > 4096 - 0x200
  · have : (init_chip8 config (some bytes)).1 = false := by
      simp [init_chip8, hbig]
    rw [this] at hok
    exact Bool.noConfusion hok
  · by_cases hz : bytes.length = 0
    · have : (init_chip8 config (some bytes)).1 = false := by
        simp [init_chip8, hz]
      rw [this] at hok
      exact Bool.noConfusion hok
    · simp [init_chip8, hbig, hz]

/-- A cycle in terms of the family of the fetched word: what happens to the
program counter, the stack pointer and the stack. -/
theorem emulate_control (s : chip8_t) (config : config_t) (rand : Nat) :
    (inst_family s = 1 →
      (emulate_instruction s config rand).PC = (fetch_decode s).inst.NNN ∧
      (emulate_instruction s config rand).stack_ptr = s.stack_ptr ∧
      (emulate_instruction s config rand).stack = s.stack) ∧
    (inst_family s = 2 →
      (emulate_instruction s config rand).PC = (fetch_decode s).inst.NNN ∧
      (emulate_instruction s config rand).stack_ptr = s.stack_ptr + 1 ∧
      (emulate_instruction s config rand).stack
        = upd s.stack s.stack_ptr ((s.PC + 2) % 65536)) ∧
    (inst_family s = 0xB →
      (emulate_instruction s config rand).PC
        = (s.V 0 + (fetch_decode s).inst.NNN) % 65536 ∧
      (emulate_instruction s config rand).stack_ptr = s.stack_ptr ∧
      (emulate_instruction s config rand).stack = s.stack) ∧
    (inst_family s = 0 ∧ (fetch_decode s).inst.NN = 0xEE →
      (emulate_instruction s config rand).PC = s.stack (s.stack_ptr - 1) ∧
      (emulate_instruction s config rand).stack_ptr = s.stack_ptr - 1 ∧
      (emulate_instruction s config rand).stack = s.stack) ∧
    (inst_family s ≠ 1 → inst_family s ≠ 2 → inst_family s ≠ 0xB →
      ¬ (inst_family s = 0 ∧ (fetch_decode s).inst.NN = 0xEE) →
      ((emulate_instruction s config rand).PC = (s.PC + 2) % 65536 ∨
        (emulate_instruction s config rand).PC = ((s.PC + 2) % 65536 + 2) % 65536 ∨
        (emulate_instruction s config rand).PC = sub_u16 ((s.PC + 2) % 65536) 2) ∧
      (emulate_instruction s config rand).stack_ptr = s.stack_ptr ∧
      (emulate_instruction s config rand).stack = s.stack) := by
  have hst : (fetch_decode s).stack = s.stack := rfl
  have hsp : (fetch_decode s).stack_ptr = s.stack_ptr := rfl
  have hV : (fetch_decode s).V = s.V := rfl
  have hPC : (fetch_decode s).PC = (s.PC + 2) % 65536 := rfl
  refine ⟨?_, ?_, ?_, ?_, ?_⟩
  · intro h
    have h1 : ((fetch_decode s).inst.opcode >>> 12) &&& 0x0F = 1 := h
    simp [emulate_instruction, execute, h1, hst, hsp]
  · intro h
    have h1 : ((fetch_decode s).inst.opcode >>> 12) &&& 0x0F = 2 := h
    simp [emulate_instruction, execute, h1, hst, hsp, hPC]
  · intro h
    have h1 : ((fetch_decode s).inst.opcode >>> 12) &&& 0x0F = 0xB := h
    simp [emulate_instruction, execute, h1, hst, hsp, hV]
  · intro h
    have h1 : ((fetch_decode s).inst.opcode >>> 12) &&& 0x0F = 0 := h.1
    simp [emulate_instruction, execute, h1, h.2, hst, hsp]
  · intro hJ hC hB hR
    exact execute_ctl (fetch_decode s) config rand hJ hC hB (fun h e => hR ⟨h, e⟩)


theorem inst_NNN_lt (s : chip8_t) : (fetch_decode s).inst.NNN < 4096 := by
  have h : (fetch_decode s).inst.NNN = (fetch_decode s).inst.opcode &&& 0x0FFF := rfl
  rw [h, and_0FFF]
  exact Nat.mod_lt _ (by decide)

/-! ## The loop of `main` as a trace of fetches -/

theorem same_control_refl (s : chip8_t) : same_control s s := ⟨rfl, rfl⟩

theorem same_control_trans (s t u : chip8_t) (h1 : same_control s t) (h2 : same_control t u) :
    same_control s u :=
  ⟨h2.1.trans h1.1, h2.2.trans h1.2⟩

/-- The function `handle_input` writes `state` and `keypad` only. -/
theorem handle_input_control (events : List sdl_event) (c : chip8_t) :
    same_control c (handle_input events c) := by
  induction events generalizing c with
  | nil => exact same_control_refl c
  | cons e rest ih =>
    cases e with
    | SDL_QUIT => exact ⟨rfl, rfl⟩
    | SDL_KEYDOWN sym =>
      simp only [handle_input]
      split_ifs
      · exact ⟨rfl, rfl⟩
      · exact ⟨rfl, rfl⟩
      · exact ⟨rfl, rfl⟩
      · cases keypad_index sym with
        | none => exact ih c
        | some k => exact same_control_trans _ _ _ ⟨rfl, rfl⟩ (ih _)
    | SDL_KEYUP sym =>
      simp only [handle_input]
      cases keypad_index sym with
      | none => exact ih c
      | some k => exact same_control_trans _ _ _ ⟨rfl, rfl⟩ (ih _)
    | SDL_other => exact ih c

/-- The function `update_timers` writes the two timers only. -/
theorem update_timers_control (c : chip8_t) : same_control c (update_timers c).1 := by
  unfold update_timers
  simp only []
  split_ifs <;> exact ⟨rfl, rfl⟩

theorem fetch_trace_host (config : config_t) (c c1 s : chip8_t) (L : List chip8_t)
    (h : same_control c c1) (ht : fetch_trace config c1 L s) : fetch_trace config c L s := by
  cases L with
  | nil => exact same_control_trans _ _ _ h ht
  | cons t L => exact ⟨same_control_trans _ _ _ h ht.1, ht.2⟩

theorem fetch_trace_append (config : config_t) (L1 L2 : List chip8_t) (c s u : chip8_t)
    (h1 : fetch_trace config c L1 s) (h2 : fetch_trace config s L2 u) :
    fetch_trace config c (L1 ++ L2) u := by
  induction L1 generalizing c with
  | nil => exact fetch_trace_host config c s u L2 h1 h2
  | cons t L ih =>
    obtain ⟨ha, rand, hb⟩ := h1
    exact ⟨ha, rand, ih _ hb⟩

theorem fetch_trace_end (config : config_t) (L : List chip8_t) (c s u : chip8_t)
    (h1 : fetch_trace config c L s) (h2 : same_control s u) : fetch_trace config c L u := by
  have h := fetch_trace_append config L [] c s u h1 h2
  rw [List.append_nil] at h
  exact h

/-- The fetches of a frame lead from the record the frame starts with to the
record its last cycle leaves. -/
theorem frame_trace (config : config_t) (rands : Nat → Nat) (n i : Nat) (c : chip8_t) :
    fetch_trace config c (frame_fetches config rands n i c)
      ((frame_cycles config rands n i c).getLastD c) := by
  induction n generalizing i c with
  | zero => exact same_control_refl c
  | succ n ih =>
    simp only [frame_fetches, frame_cycles]
    split_ifs
    · exact ⟨same_control_refl c, rands i, same_control_refl _⟩
    · refine ⟨same_control_refl c, rands i, ?_⟩
      rw [List.getLastD_cons]
      exact ih _ _

/-- The fetches of the first `k` passes of the loop of `main` lead from the
record the loop starts with to the record those passes leave. -/
theorem main_trace (config : config_t) (rands : Nat → Nat → Nat)
    (events : Nat → List sdl_event) (c : chip8_t) (k : Nat) :
    fetch_trace config c (main_fetches config rands events c k)
      (main_loop config rands events c k) := by
  induction k with
  | zero => exact same_control_refl c
  | succ k ih =>
    simp only [main_fetches, main_loop]
    apply fetch_trace_append config _ _ c (main_loop config rands events c k) _ ih
    split_ifs with hq hp
    · exact same_control_refl _
    · simp only [main_iteration, hp, if_true]
      exact handle_input_control _ _
    · simp only [main_iteration, hp, if_false]
      apply fetch_trace_host config _ _ _ _ (handle_input_control (events k) _)
      apply fetch_trace_end config _ _ _ _ (frame_trace config (rands k) _ 0 _)
      apply same_control_trans _ _ _ _ (update_timers_control _)
      split_ifs <;> exact ⟨rfl, rfl⟩

/-- An invariant that every checked cycle and the host code keep holds before
every fetch of a trace whose earlier cycles were all checked. -/
theorem fetch_trace_invariant (config : config_t) (Inv ok : chip8_t → Prop)
    (hstep : ∀ t rand, Inv t → ok t → Inv (emulate_instruction t config rand))
    (hhost : ∀ s t, same_control s t → Inv s → Inv t)
    (L : List chip8_t) (c s d : chip8_t) (ht : fetch_trace config c L s) (hc : Inv c)
    (j : Nat) (hj : j < L.length) (hsafe : ∀ i, i < j → ok (L.getD i d)) :
    Inv (L.getD j d) := by
  induction L generalizing c j with
  | nil => exact absurd hj (Nat.not_lt_zero _)
  | cons t L ih =>
    obtain ⟨ha, rand, hb⟩ := ht
    have hIt : Inv t := hhost c t ha hc
    cases j with
    | zero => exact hIt
    | succ j =>
      have h0 : ok t := hsafe 0 (Nat.succ_pos j)
      rw [List.getD_cons_succ]
      apply ih _ hb (hstep t rand hIt h0) j (Nat.lt_of_succ_lt_succ hj)
      intro i hi
      have := hsafe (i + 1) (Nat.succ_lt_succ hi)
      rw [List.getD_cons_succ] at this
      exact this

/-- Two successive fetches of a trace: the later one starts from the record
the cycle at the earlier one left, up to host code. -/
theorem fetch_trace_link (config : config_t) (L : List chip8_t) (c s d : chip8_t)
    (ht : fetch_trace config c L s) (j : Nat) (hj : j + 1 < L.length) :
    ∃ rand, same_control (emulate_instruction (L.getD j d) config rand) (L.getD (j + 1) d) := by
  induction L generalizing c j with
  | nil => exact absurd hj (Nat.not_lt_zero _)
  | cons t L ih =>
    obtain ⟨-, rand, hb⟩ := ht
    cases j with
    | zero =>
      cases L with
      | nil => exact absurd hj (by simp)
      | cons u L => exact ⟨rand, hb.1⟩
    | succ j =>
      rw [List.getD_cons_succ, List.getD_cons_succ]
      exact ih _ hb j (Nat.lt_of_succ_lt_succ hj)

/-! ## Program counter and stack depth before every fetch -/

/-- One checked cycle keeps the program counter even and inside `[0, 4094]`. -/
theorem pc_step (s : chip8_t) (config : config_t) (rand : Nat)
    (hinv : s.PC % 2 = 0 ∧ s.PC ≤ 4094) (hok : pc_step_ok s) :
    (emulate_instruction s config rand).PC % 2 = 0 ∧
    (emulate_instruction s config rand).PC ≤ 4094 := by
  obtain ⟨hj, hc, hb, hr, hrest⟩ := emulate_control s config rand
  have hN := inst_NNN_lt s
  have heven := hinv.1
  have hok2 := hok.2
  split_ifs at hok2 with h1 h2 h3
  · rcases h1 with h1 | h1
    · rw [(hj h1).1]
      exact ⟨hok2, by omega⟩
    · rw [(hc h1).1]
      exact ⟨hok2, by omega⟩
  · rw [(hb h2).1]
    exact hok2
  · rw [(hr h3).1]
    exact hok2
  · have hJ : inst_family s ≠ 1 := fun e => h1 (Or.inl e)
    have hC : inst_family s ≠ 2 := fun e => h1 (Or.inr e)
    have e1 : (s.PC + 2) % 65536 = s.PC + 2 := Nat.mod_eq_of_lt (by omega)
    have e2 : (s.PC + 2 + 2) % 65536 = s.PC + 4 := Nat.mod_eq_of_lt (by omega)
    have e3 : sub_u16 (s.PC + 2) 2 = s.PC := by
      unfold sub_u16
      omega
    rcases (hrest hJ hC h2 h3).1 with h | h | h
    · rw [h, e1]
      omega
    · rw [h, e1, e2]
      omega
    · rw [h, e1, e3]
      omega

/-- One cycle moves the stack pointer by one entry up on a call, one entry
down on a return and not at all otherwise. -/
theorem depth_step (s : chip8_t) (config : config_t) (rand : Nat) :
    (emulate_instruction s config rand).stack_ptr =
      if inst_family s = 2 then s.stack_ptr + 1
      else if inst_family s = 0 ∧ (fetch_decode s).inst.NN = 0xEE then s.stack_ptr - 1
      else s.stack_ptr := by
  obtain ⟨hj, hc, hb, hr, hrest⟩ := emulate_control s config rand
  split_ifs with h1 h2
  · exact (hc h1).2.1
  · exact (hr h2).2.1
  · by_cases h3 : inst_family s = 1
    · exact (hj h3).2.1
    · by_cases h4 : inst_family s = 0xB
      · exact (hb h4).2.1
      · exact (hrest h3 h1 h4 h2).2.1

/-- One cycle inside the arrays keeps the depth within `0..12`. -/
theorem depth_step_inv (s : chip8_t) (config : config_t) (rand : Nat)
    (hinv : 0 ≤ s.stack_ptr ∧ s.stack_ptr ≤ 12) (hok : defined_cycle s) :
    0 ≤ (emulate_instruction s config rand).stack_ptr ∧
    (emulate_instruction s config rand).stack_ptr ≤ 12 := by
  obtain ⟨-, hret, hcall, -⟩ := hok
  rw [depth_step s config rand]
  split_ifs with h1 h2
  · have := hcall h1
    omega
  · have := hret h2.1 h2.2
    omega
  · exact hinv

/-- Inside `ram` the cycle of `FX33` on the record as laid out is the cycle
of `emulate_instruction`. -/
theorem bcd_record_in_bounds (s : chip8_t) (config : config_t) (rand X : Nat) (hX : X < 16)
    (h1 : s.ram s.PC = 0xF0 + X) (h2 : s.ram (s.PC + 1) = 0x33)
    (hPC : s.PC + 1 < 4096) (hI : s.I + 2 < 4096) :
    emulate_bcd_record s = some (emulate_instruction s config rand) := by
  obtain ⟨hfam, -, -, hNN, -, hXf, -⟩ :=
    decode_nibbles s 15 X 3 3 (by omega) hX (by omega) (by omega) (by omega) (by omega)
  have hfam2 : inst_family s = 0xF := hfam
  have hV : (fetch_decode s).V = s.V := rfl
  have hIf : (fetch_decode s).I = s.I := rfl
  have hr : (fetch_decode s).ram = s.ram := rfl
  have a2 : s.I + 2 < 4096 := hI
  have a1 : s.I + 1 < 4096 := by omega
  have a0 : s.I < 4096 := by omega
  rw [emulate_FX33 s config rand X hX h1 h2]
  simp [emulate_bcd_record, ram_store, hPC, hfam2, hNN, hXf, hV, hIf, hr, a2, a1, a0]

/-- C20 (flag-register frame), as the code has it: for every state and every
instruction word (bytes `hi`, `lo` at `PC`) other than `8XY4`, `8XY5`,
`8XY6`, `8XY7`, `8XYE` and `DXYN` whose register selector `X` (the low nibble
of `hi`) is not `0xF`, one cycle leaves `V[F]` at its previous value, provided
the cycle stores inside the arrays: the word is fetched inside `ram`, `FX33`
has `I + 2 <= 4095`, `FX55` has `I + X <= 4095` and a call happens at a depth
in `0..11`; inside `ram` the stores of `FX33` on the record as laid out are
those of the cycle. -/
theorem flag_frame (s : chip8_t) (config : config_t) (rand hi lo : Nat)
    (hhi : hi < 256) (hlo : lo < 256)
    (h1 : s.ram s.PC = hi) (h2 : s.ram (s.PC + 1) = lo)
    (hXF : hi % 16 ≠ 0xF) (hD : hi / 16 ≠ 0xD)
    (h8 : hi / 16 = 0x8 →
      lo % 16 ≠ 0x4 ∧ lo % 16 ≠ 0x5 ∧ lo % 16 ≠ 0x6 ∧ lo % 16 ≠ 0x7 ∧ lo % 16 ≠ 0xE)
    (hPC : s.PC + 1 < 4096)
    (h33 : hi / 16 = 0xF → lo = 0x33 → s.I + 2 < 4096)
    (_h55 : hi / 16 = 0xF → lo = 0x55 → s.I + hi % 16 < 4096)
    (_hcall : hi / 16 = 0x2 → 0 ≤ s.stack_ptr ∧ s.stack_ptr ≤ 11) :
    (emulate_instruction s config rand).V 0xF = s.V 0xF ∧
    (hi / 16 = 0xF → lo = 0x33 →
      emulate_bcd_record s = some (emulate_instruction s config rand)) := by
  obtain ⟨hfam, -, -, -, hN, hX, -⟩ := decode s hi lo h1 h2 hhi hlo
  have hV : (fetch_decode s).V = s.V := rfl
  refine ⟨?_, fun hF h3 => ?_⟩
  · rw [← hV]
    unfold emulate_instruction
    apply execute_V15
    · rw [hX]; omega
    · rw [hfam]; exact hD
    · rw [hfam, hN]; exact h8
  · have e : hi = 0xF0 + hi % 16 := by omega
    exact bcd_record_in_bounds s config rand (hi % 16) (by omega) (by rw [h1]; exact e)
      (by rw [h2, h3]) hPC (h33 hF h3)

/-- Witness of C20: `F233` with `I = 0x300` and `V[2] = 125` stores the digits
1, 2, 5 inside `ram` and leaves `V[F] = 9`. -/
theorem flag_frame_witness :
    ex_F233_near.I + 2 < 4096 ∧
    (emulate_instruction ex_F233_near set_config_from_args 0).V 0xF = 9 ∧
    (emulate_instruction ex_F233_near set_config_from_args 0).ram 0x302 = 5 ∧
    emulate_bcd_record ex_F233_near
      = some (emulate_instruction ex_F233_near set_config_from_args 0) :=
  have h := flag_frame ex_F233_near set_config_from_args 0 0xF2 0x33 (by decide) (by decide)
    rfl rfl (by decide) (by decide) (fun h => absurd h (by decide)) (by decide)
    (fun _ _ => by decide) (fun _ h => absurd h (by decide)) (fun h => absurd h (by decide))
  ⟨by decide, h.1, by decide, h.2 (by decide) rfl⟩

/-- Counterexample to C20 as stated: `F233` (not a flag-defining instruction,
`X = 2`) with `I = 14385`, `V[2] = 125` and `V[F] = 9`.  The store to
`ram[I + 2]` lands on `V[F]`, which is 5 after the cycle. -/
theorem flag_frame_counterexample :
    ex_F233_far.ram ex_F233_far.PC = 0xF2 ∧
    ex_F233_far.ram (ex_F233_far.PC + 1) = 0x33 ∧
    ex_F233_far.I = 14385 ∧
    ex_F233_far.V 2 = 125 ∧
    ex_F233_far.V 0xF = 9 ∧
    (emulate_bcd_record ex_F233_far).map (fun t => t.V 0xF) = some 5 ∧
    (emulate_bcd_record ex_F233_far).map (fun t => t.V 0xF) ≠ some (ex_F233_far.V 0xF) := by
  decide

end Chip8
